import Mathlib

/-!
# rd-mirror-sync: a shallow embedding of the sync engine and the API client

The development follows the two packages of the repository.

* `internal/rdapi` (types.go, client.go): the item type `Torrent`, the retry
  classification of errors, `withRetry`, the four per-attempt closures and
  the paginated listing `ListAllTorrents`.
* `internal/syncer` (syncer.go): `normalizeHash`, the two lookup maps, the
  `needAdd` / `needDelete` diff, the apply loops and `RunOnce`.

Conventions of the embedding.

* Go `string` is `String`.  The strings that matter here come out of the JSON
  decoder and are valid UTF-8, for which Go's byte-wise comparison is the
  comparison of the code point sequences (`strLe`, `strLt` below).
* `time.Duration` and `int` are `Int`; where 64-bit wrap-around can happen
  the arithmetic goes through `wrapInt64`.
* A Go `error` is a `GoError`; `nil` is `none`.
* Calls that leave the process (the API behind the `syncer.API` interface,
  the wrapped call of `withRetry`, the context, the random source, the
  regular expression library) are oracles of an environment record; every
  theorem quantifies over all environments.  The model records the calls it
  issues in a list, in order.
* `log.Printf` only writes to the log and is left out.
-/

namespace RdMirrorSync

/-! ## Go errors -/

/-- Go error values as far as the program can tell them apart. -/
inductive GoError where
  /-- errors.New, fmt.Errorf without a wrapping verb, and library errors. -/
  | plain (msg : String)
  /-- The value `retryErr{err}` of client.go (it has no Unwrap method). -/
  | retryErr (err : GoError)
  /-- The result of fmt.Errorf with one wrapping verb: the formatted message
  and the wrapped error. -/
  | wrapped (msg : String) (inner : GoError)
  /-- The value of `ctx.Err()` once the context is done. -/
  | ctx (msg : String)
  deriving DecidableEq, Repr

namespace GoError

/-- The method `Error()`: `retryErr` forwards to the error it holds. -/
def Error : GoError → String
  | plain msg => msg
  | retryErr err => err.Error
  | wrapped msg _ => msg
  | ctx msg => msg

/-- The method `Unwrap()` as `errors.Unwrap` sees it. -/
def Unwrap : GoError → Option GoError
  | wrapped _ inner => some inner
  | _ => none

end GoError

/-- Function `retryable` of client.go. -/
def retryable (err : GoError) : GoError := GoError.retryErr err

/-- Function `isRetryable` of client.go: `errors.As(err, &re)` walks the
Unwrap chain and stops at the first `retryErr`. -/
def isRetryable : GoError → Bool
  | GoError.retryErr _ => true
  | GoError.wrapped _ inner => isRetryable inner
  | GoError.plain _ => false
  | GoError.ctx _ => false

/-! ## Strings: comparison, trimming, lower-casing -/

/-- Lexicographic `≤` on code point sequences (Go's `<=` on strings). -/
def charsLe : List Char → List Char → Bool
  | [], _ => true
  | _ :: _, [] => false
  | a :: as, b :: bs =>
    if a.toNat < b.toNat then true
    else if b.toNat < a.toNat then false
    else charsLe as bs

/-- Go's `a <= b` on strings. -/
def strLe (a b : String) : Bool := charsLe a.data b.data

/-- Go's `a < b` on strings. -/
def strLt (a b : String) : Bool := strLe a b && !strLe b a

/-- Predicate `unicode.IsSpace`, the cut set of `strings.TrimSpace`. -/
def isSpace (c : Char) : Bool :=
  let n := c.toNat
  n == 9 || n == 10 || n == 11 || n == 12 || n == 13 || n == 32 ||
  n == 0x85 || n == 0xA0 || n == 0x1680 || (0x2000 ≤ n && n ≤ 0x200A) ||
  n == 0x2028 || n == 0x2029 || n == 0x202F || n == 0x205F || n == 0x3000

/-- Library function `strings.TrimSpace`: leading and trailing white space
removed. -/
def TrimSpace (s : String) : String :=
  ⟨(s.data.dropWhile isSpace).rdropWhile isSpace⟩

/-- One row of the lower-case table of package `unicode`: the runes `lo`,
`lo + step`, ... up to `hi` have the lower-case forms `target`,
`target + step`, ... in this order. -/
structure CaseRow where
  lo : Nat
  hi : Nat
  step : Nat
  target : Nat
  deriving DecidableEq, Repr

/-- Whether the row gives the rune `r` a lower-case form. -/
def CaseRow.covers (row : CaseRow) (r : Nat) : Bool :=
  decide (row.lo ≤ r) && decide (r ≤ row.hi) && (r - row.lo) % row.step == 0

/-- The runes above ASCII that `unicode.ToLower` changes (the simple
lower-case mappings of Unicode 15.0, which package `unicode` carries since
Go 1.21), in ascending order. -/
def lowerRows : List CaseRow :=
  [CaseRow.mk 0xC0 0xD6 1 0xE0, CaseRow.mk 0xD8 0xDE 1 0xF8, CaseRow.mk 0x100 0x12E 2 0x101,
    CaseRow.mk 0x130 0x130 1 0x69, CaseRow.mk 0x132 0x136 2 0x133, CaseRow.mk 0x139 0x147 2 0x13A,
    CaseRow.mk 0x14A 0x176 2 0x14B, CaseRow.mk 0x178 0x178 1 0xFF, CaseRow.mk 0x179 0x17D 2 0x17A,
    CaseRow.mk 0x181 0x181 1 0x253, CaseRow.mk 0x182 0x184 2 0x183,
    CaseRow.mk 0x186 0x186 1 0x254, CaseRow.mk 0x187 0x187 1 0x188,
    CaseRow.mk 0x189 0x18A 1 0x256, CaseRow.mk 0x18B 0x18B 1 0x18C,
    CaseRow.mk 0x18E 0x18E 1 0x1DD, CaseRow.mk 0x18F 0x18F 1 0x259,
    CaseRow.mk 0x190 0x190 1 0x25B, CaseRow.mk 0x191 0x191 1 0x192,
    CaseRow.mk 0x193 0x193 1 0x260, CaseRow.mk 0x194 0x194 1 0x263,
    CaseRow.mk 0x196 0x196 1 0x269, CaseRow.mk 0x197 0x197 1 0x268,
    CaseRow.mk 0x198 0x198 1 0x199, CaseRow.mk 0x19C 0x19C 1 0x26F,
    CaseRow.mk 0x19D 0x19D 1 0x272, CaseRow.mk 0x19F 0x19F 1 0x275,
    CaseRow.mk 0x1A0 0x1A4 2 0x1A1, CaseRow.mk 0x1A6 0x1A6 1 0x280,
    CaseRow.mk 0x1A7 0x1A7 1 0x1A8, CaseRow.mk 0x1A9 0x1A9 1 0x283,
    CaseRow.mk 0x1AC 0x1AC 1 0x1AD, CaseRow.mk 0x1AE 0x1AE 1 0x288,
    CaseRow.mk 0x1AF 0x1AF 1 0x1B0, CaseRow.mk 0x1B1 0x1B2 1 0x28A,
    CaseRow.mk 0x1B3 0x1B5 2 0x1B4, CaseRow.mk 0x1B7 0x1B7 1 0x292,
    CaseRow.mk 0x1B8 0x1B8 1 0x1B9, CaseRow.mk 0x1BC 0x1BC 1 0x1BD,
    CaseRow.mk 0x1C4 0x1C4 1 0x1C6, CaseRow.mk 0x1C5 0x1C5 1 0x1C6,
    CaseRow.mk 0x1C7 0x1C7 1 0x1C9, CaseRow.mk 0x1C8 0x1C8 1 0x1C9,
    CaseRow.mk 0x1CA 0x1CA 1 0x1CC, CaseRow.mk 0x1CB 0x1DB 2 0x1CC,
    CaseRow.mk 0x1DE 0x1EE 2 0x1DF, CaseRow.mk 0x1F1 0x1F1 1 0x1F3,
    CaseRow.mk 0x1F2 0x1F4 2 0x1F3, CaseRow.mk 0x1F6 0x1F6 1 0x195,
    CaseRow.mk 0x1F7 0x1F7 1 0x1BF, CaseRow.mk 0x1F8 0x21E 2 0x1F9,
    CaseRow.mk 0x220 0x220 1 0x19E, CaseRow.mk 0x222 0x232 2 0x223,
    CaseRow.mk 0x23A 0x23A 1 0x2C65, CaseRow.mk 0x23B 0x23B 1 0x23C,
    CaseRow.mk 0x23D 0x23D 1 0x19A, CaseRow.mk 0x23E 0x23E 1 0x2C66,
    CaseRow.mk 0x241 0x241 1 0x242, CaseRow.mk 0x243 0x243 1 0x180,
    CaseRow.mk 0x244 0x244 1 0x289, CaseRow.mk 0x245 0x245 1 0x28C,
    CaseRow.mk 0x246 0x24E 2 0x247, CaseRow.mk 0x370 0x372 2 0x371,
    CaseRow.mk 0x376 0x376 1 0x377, CaseRow.mk 0x37F 0x37F 1 0x3F3,
    CaseRow.mk 0x386 0x386 1 0x3AC, CaseRow.mk 0x388 0x38A 1 0x3AD,
    CaseRow.mk 0x38C 0x38C 1 0x3CC, CaseRow.mk 0x38E 0x38F 1 0x3CD,
    CaseRow.mk 0x391 0x3A1 1 0x3B1, CaseRow.mk 0x3A3 0x3AB 1 0x3C3,
    CaseRow.mk 0x3CF 0x3CF 1 0x3D7, CaseRow.mk 0x3D8 0x3EE 2 0x3D9,
    CaseRow.mk 0x3F4 0x3F4 1 0x3B8, CaseRow.mk 0x3F7 0x3F7 1 0x3F8,
    CaseRow.mk 0x3F9 0x3F9 1 0x3F2, CaseRow.mk 0x3FA 0x3FA 1 0x3FB,
    CaseRow.mk 0x3FD 0x3FF 1 0x37B, CaseRow.mk 0x400 0x40F 1 0x450,
    CaseRow.mk 0x410 0x42F 1 0x430, CaseRow.mk 0x460 0x480 2 0x461,
    CaseRow.mk 0x48A 0x4BE 2 0x48B, CaseRow.mk 0x4C0 0x4C0 1 0x4CF,
    CaseRow.mk 0x4C1 0x4CD 2 0x4C2, CaseRow.mk 0x4D0 0x52E 2 0x4D1,
    CaseRow.mk 0x531 0x556 1 0x561, CaseRow.mk 0x10A0 0x10C5 1 0x2D00,
    CaseRow.mk 0x10C7 0x10C7 1 0x2D27, CaseRow.mk 0x10CD 0x10CD 1 0x2D2D,
    CaseRow.mk 0x13A0 0x13EF 1 0xAB70, CaseRow.mk 0x13F0 0x13F5 1 0x13F8,
    CaseRow.mk 0x1C90 0x1CBA 1 0x10D0, CaseRow.mk 0x1CBD 0x1CBF 1 0x10FD,
    CaseRow.mk 0x1E00 0x1E94 2 0x1E01, CaseRow.mk 0x1E9E 0x1E9E 1 0xDF,
    CaseRow.mk 0x1EA0 0x1EFE 2 0x1EA1, CaseRow.mk 0x1F08 0x1F0F 1 0x1F00,
    CaseRow.mk 0x1F18 0x1F1D 1 0x1F10, CaseRow.mk 0x1F28 0x1F2F 1 0x1F20,
    CaseRow.mk 0x1F38 0x1F3F 1 0x1F30, CaseRow.mk 0x1F48 0x1F4D 1 0x1F40,
    CaseRow.mk 0x1F59 0x1F59 1 0x1F51, CaseRow.mk 0x1F5B 0x1F5B 1 0x1F53,
    CaseRow.mk 0x1F5D 0x1F5D 1 0x1F55, CaseRow.mk 0x1F5F 0x1F5F 1 0x1F57,
    CaseRow.mk 0x1F68 0x1F6F 1 0x1F60, CaseRow.mk 0x1F88 0x1F8F 1 0x1F80,
    CaseRow.mk 0x1F98 0x1F9F 1 0x1F90, CaseRow.mk 0x1FA8 0x1FAF 1 0x1FA0,
    CaseRow.mk 0x1FB8 0x1FB9 1 0x1FB0, CaseRow.mk 0x1FBA 0x1FBB 1 0x1F70,
    CaseRow.mk 0x1FBC 0x1FBC 1 0x1FB3, CaseRow.mk 0x1FC8 0x1FCB 1 0x1F72,
    CaseRow.mk 0x1FCC 0x1FCC 1 0x1FC3, CaseRow.mk 0x1FD8 0x1FD9 1 0x1FD0,
    CaseRow.mk 0x1FDA 0x1FDB 1 0x1F76, CaseRow.mk 0x1FE8 0x1FE9 1 0x1FE0,
    CaseRow.mk 0x1FEA 0x1FEB 1 0x1F7A, CaseRow.mk 0x1FEC 0x1FEC 1 0x1FE5,
    CaseRow.mk 0x1FF8 0x1FF9 1 0x1F78, CaseRow.mk 0x1FFA 0x1FFB 1 0x1F7C,
    CaseRow.mk 0x1FFC 0x1FFC 1 0x1FF3, CaseRow.mk 0x2126 0x2126 1 0x3C9,
    CaseRow.mk 0x212A 0x212A 1 0x6B, CaseRow.mk 0x212B 0x212B 1 0xE5,
    CaseRow.mk 0x2132 0x2132 1 0x214E, CaseRow.mk 0x2160 0x216F 1 0x2170,
    CaseRow.mk 0x2183 0x2183 1 0x2184, CaseRow.mk 0x24B6 0x24CF 1 0x24D0,
    CaseRow.mk 0x2C00 0x2C2F 1 0x2C30, CaseRow.mk 0x2C60 0x2C60 1 0x2C61,
    CaseRow.mk 0x2C62 0x2C62 1 0x26B, CaseRow.mk 0x2C63 0x2C63 1 0x1D7D,
    CaseRow.mk 0x2C64 0x2C64 1 0x27D, CaseRow.mk 0x2C67 0x2C6B 2 0x2C68,
    CaseRow.mk 0x2C6D 0x2C6D 1 0x251, CaseRow.mk 0x2C6E 0x2C6E 1 0x271,
    CaseRow.mk 0x2C6F 0x2C6F 1 0x250, CaseRow.mk 0x2C70 0x2C70 1 0x252,
    CaseRow.mk 0x2C72 0x2C72 1 0x2C73, CaseRow.mk 0x2C75 0x2C75 1 0x2C76,
    CaseRow.mk 0x2C7E 0x2C7F 1 0x23F, CaseRow.mk 0x2C80 0x2CE2 2 0x2C81,
    CaseRow.mk 0x2CEB 0x2CED 2 0x2CEC, CaseRow.mk 0x2CF2 0x2CF2 1 0x2CF3,
    CaseRow.mk 0xA640 0xA66C 2 0xA641, CaseRow.mk 0xA680 0xA69A 2 0xA681,
    CaseRow.mk 0xA722 0xA72E 2 0xA723, CaseRow.mk 0xA732 0xA76E 2 0xA733,
    CaseRow.mk 0xA779 0xA77B 2 0xA77A, CaseRow.mk 0xA77D 0xA77D 1 0x1D79,
    CaseRow.mk 0xA77E 0xA786 2 0xA77F, CaseRow.mk 0xA78B 0xA78B 1 0xA78C,
    CaseRow.mk 0xA78D 0xA78D 1 0x265, CaseRow.mk 0xA790 0xA792 2 0xA791,
    CaseRow.mk 0xA796 0xA7A8 2 0xA797, CaseRow.mk 0xA7AA 0xA7AA 1 0x266,
    CaseRow.mk 0xA7AB 0xA7AB 1 0x25C, CaseRow.mk 0xA7AC 0xA7AC 1 0x261,
    CaseRow.mk 0xA7AD 0xA7AD 1 0x26C, CaseRow.mk 0xA7AE 0xA7AE 1 0x26A,
    CaseRow.mk 0xA7B0 0xA7B0 1 0x29E, CaseRow.mk 0xA7B1 0xA7B1 1 0x287,
    CaseRow.mk 0xA7B2 0xA7B2 1 0x29D, CaseRow.mk 0xA7B3 0xA7B3 1 0xAB53,
    CaseRow.mk 0xA7B4 0xA7C2 2 0xA7B5, CaseRow.mk 0xA7C4 0xA7C4 1 0xA794,
    CaseRow.mk 0xA7C5 0xA7C5 1 0x282, CaseRow.mk 0xA7C6 0xA7C6 1 0x1D8E,
    CaseRow.mk 0xA7C7 0xA7C9 2 0xA7C8, CaseRow.mk 0xA7D0 0xA7D0 1 0xA7D1,
    CaseRow.mk 0xA7D6 0xA7D8 2 0xA7D7, CaseRow.mk 0xA7F5 0xA7F5 1 0xA7F6,
    CaseRow.mk 0xFF21 0xFF3A 1 0xFF41, CaseRow.mk 0x10400 0x10427 1 0x10428,
    CaseRow.mk 0x104B0 0x104D3 1 0x104D8, CaseRow.mk 0x10570 0x1057A 1 0x10597,
    CaseRow.mk 0x1057C 0x1058A 1 0x105A3, CaseRow.mk 0x1058C 0x10592 1 0x105B3,
    CaseRow.mk 0x10594 0x10595 1 0x105BB, CaseRow.mk 0x10C80 0x10CB2 1 0x10CC0,
    CaseRow.mk 0x118A0 0x118BF 1 0x118C0, CaseRow.mk 0x16E40 0x16E5F 1 0x16E60,
    CaseRow.mk 0x1E900 0x1E921 1 0x1E922]

/-- Library function `unicode.ToLower` on code points: `A`-`Z` by the ASCII
branch, every other rune by the table. -/
def toLowerRune (r : Nat) : Nat :=
  if r ≤ 127 then (if 65 ≤ r ∧ r ≤ 90 then r + 32 else r)
  else
    match lowerRows.find? (fun row => row.covers r) with
    | some row => row.target + (r - row.lo)
    | none => r

/-- Library function `unicode.ToLower`. -/
def unicodeToLower (c : Char) : Char := Char.ofNat (toLowerRune c.toNat)

/-- Whether no lower-case form the row gives is a rune the row `other`
covers: the two ranges are apart, or `other` covers every second rune and the
forms have the other parity. -/
def CaseRow.clear (row other : CaseRow) : Bool :=
  decide (row.target + (row.hi - row.lo) < other.lo) || decide (other.hi < row.target) ||
    (other.step == 2 && (row.step == 2 || row.lo == row.hi) &&
      (row.target + other.lo) % 2 == 1)

/-- Whether the runes from `a` to `b` hold no white space of `unicode.IsSpace`. -/
def noSpaceBetween (a b : Nat) : Bool :=
  (decide (b < 9) || decide (13 < a)) && (decide (b < 32) || decide (32 < a)) &&
  (decide (b < 0x85) || decide (0x85 < a)) && (decide (b < 0xA0) || decide (0xA0 < a)) &&
  (decide (b < 0x1680) || decide (0x1680 < a)) && (decide (b < 0x2000) || decide (0x200A < a)) &&
  (decide (b < 0x2028) || decide (0x2029 < a)) && (decide (b < 0x202F) || decide (0x202F < a)) &&
  (decide (b < 0x205F) || decide (0x205F < a)) && (decide (b < 0x3000) || decide (0x3000 < a))

/-- What the proofs need of one row: it lies above ASCII, its lower-case
forms are Unicode scalar values and no capital ASCII letters, and neither its
runes nor their forms are white space. -/
def CaseRow.wellFormed (row : CaseRow) : Bool :=
  decide (128 ≤ row.lo) && decide (row.lo ≤ row.hi) && (row.step == 1 || row.step == 2) &&
  (decide (row.target + (row.hi - row.lo) < 0xD800) ||
    (decide (0xE000 ≤ row.target) && decide (row.target + (row.hi - row.lo) < 0x110000))) &&
  (decide (90 < row.target) || decide (row.target + (row.hi - row.lo) < 65)) &&
  noSpaceBetween row.lo row.hi && noSpaceBetween row.target (row.target + (row.hi - row.lo))

/-- The check of the whole table: every row is well formed and no lower-case
form has a lower-case form of its own. -/
def lowerRowsChecked : Bool :=
  lowerRows.all (fun row => row.wellFormed && lowerRows.all (fun other => row.clear other))

/-- Library function `strings.ToLower`: every rune replaced by its lower-case
form. -/
def ToLower (s : String) : String := ⟨s.data.map unicodeToLower⟩

/-- Function `normalizeHash` of syncer.go. -/
def normalizeHash (h : String) : String := ToLower (TrimSpace h)

/-- Library function `sort.Strings`: the ascending arrangement of the list. -/
def sortStrings (l : List String) : List String :=
  l.insertionSort (fun a b => strLe a b = true)

/-! ## 64-bit arithmetic -/

/-- The largest `int64` (and the largest `time.Duration`). -/
def maxInt64 : Int := 2 ^ 63 - 1

/-- Two's complement wrap-around of an integer into the `int64` range. -/
def wrapInt64 (x : Int) : Int := (x + 2 ^ 63) % 2 ^ 64 - 2 ^ 63

/-! ## internal/rdapi: types -/

/-- Struct `Torrent` of types.go. -/
structure Torrent where
  ID : String
  Hash : String
  Filename : String
  Status : String
  deriving DecidableEq, Repr

/-- Struct `addMagnetResponse` of types.go. -/
structure addMagnetResponse where
  ID : String
  URI : String
  deriving DecidableEq, Repr

/-- Struct `ClientConfig` of client.go. -/
structure ClientConfig where
  BaseURL : String
  HTTPTimeout : Int
  MaxRetries : Int
  RetryBase : Int
  RetryMaxJitter : Int
  PageLimit : Int
  deriving DecidableEq, Repr

/-! ## internal/rdapi: the retry loop -/

/-- What `withRetry` does that can be seen from outside, in order: it invokes
the wrapped call (attempt numbers start at 1) and it enters a wait of a
given duration. -/
inductive RetryEvent where
  | call (attempt : Nat)
  | wait (d : Int)
  deriving DecidableEq, Repr

/-- How a call of `withRetry` ends: it returns an error value (`none` is
`nil`), or the goroutine panics. -/
inductive RetryResult where
  | returned (err : Option GoError)
  | panicked (msg : String)
  deriving DecidableEq, Repr

/-- The result of `withRetry` together with the calls and waits it made. -/
structure RetryOutcome where
  result : RetryResult
  events : List RetryEvent
  deriving DecidableEq, Repr

/-- Number of invocations of the wrapped call. -/
def RetryOutcome.calls (o : RetryOutcome) : Nat :=
  (o.events.filter (fun e => match e with
    | RetryEvent.call _ => true
    | RetryEvent.wait _ => false)).length

/-- Number of waits entered. -/
def RetryOutcome.waits (o : RetryOutcome) : Nat :=
  (o.events.filter (fun e => match e with
    | RetryEvent.call _ => false
    | RetryEvent.wait _ => true)).length

/-- The surroundings of one `withRetry` call.  `draw a` is the raw value the
random source yields for the jitter after attempt `a`; `ctxWait a d` is the
outcome of the `select` after attempt `a` with wait `d`: `none` when the
timer fires, `some e` when the context is done first, `e` being
`ctx.Err()`. -/
structure RetryEnv where
  draw : Nat → Int
  ctxWait : Nat → Int → Option GoError

/-- Library function `(*rand.Rand).Int63n`: a value in `[0, n)`, and a panic
(`none`) when `n <= 0`. -/
def Int63n (raw : Int) (n : Int) : Option Int :=
  if n ≤ 0 then none else some (raw % n)

/-- Method `Client.randomJitter` of client.go; `int64(max) + 1` wraps. -/
def randomJitter (raw : Int) (max : Int) : Option Int :=
  if max ≤ 0 then some 0 else Int63n raw (wrapInt64 (max + 1))

/-- The expression `time.Duration(1<<(attempt-1))`, a 64-bit shift. -/
def shiftLeftOne (count : Nat) : Int :=
  if 64 ≤ count then 0 else wrapInt64 (2 ^ count)

/-- The expression `c.cfg.RetryBase * time.Duration(1<<(attempt-1))`. -/
def backoff (cfg : ClientConfig) (attempt : Nat) : Int :=
  wrapInt64 (cfg.RetryBase * shiftLeftOne (attempt - 1))

/-- The error built after the loop of `withRetry`,
`fmt.Errorf("%s failed after retries: %w", op, last)`.  With `last == nil`
the verb has no error operand and nothing is wrapped. -/
def failedAfterRetries (op : String) : Option GoError → GoError
  | some last => GoError.wrapped (op ++ " failed after retries: " ++ last.Error) last
  | none => GoError.plain (op ++ " failed after retries: %!w(<nil>)")

/-- The loop of `withRetry`.  `remaining` counts the attempt numbers from
`attempt` up to `MaxRetries`, so `remaining = 0` is the loop condition
`attempt <= c.cfg.MaxRetries` being false; `fn a` is what the `a`-th
invocation of the wrapped call returns. -/
def withRetryLoop (cfg : ClientConfig) (env : RetryEnv) (op : String)
    (fn : Nat → Option GoError) : Nat → Nat → Option GoError → RetryOutcome
  | 0, _, last => ⟨RetryResult.returned (some (failedAfterRetries op last)), []⟩
  | remaining + 1, attempt, _ =>
    match fn attempt with
    | none => ⟨RetryResult.returned none, [RetryEvent.call attempt]⟩
    | some err =>
      if !isRetryable err || (attempt : Int) == cfg.MaxRetries then
        ⟨RetryResult.returned (some (failedAfterRetries op (some err))),
          [RetryEvent.call attempt]⟩
      else
        match randomJitter (env.draw attempt) cfg.RetryMaxJitter with
        | none =>
          ⟨RetryResult.panicked "invalid argument to Int63n", [RetryEvent.call attempt]⟩
        | some jitter =>
          let wait := wrapInt64 (backoff cfg attempt + jitter)
          match env.ctxWait attempt wait with
          | some e =>
            ⟨RetryResult.returned (some e), [RetryEvent.call attempt, RetryEvent.wait wait]⟩
          | none =>
            let rest := withRetryLoop cfg env op fn remaining (attempt + 1) (some err)
            ⟨rest.result, RetryEvent.call attempt :: RetryEvent.wait wait :: rest.events⟩

/-- Method `Client.withRetry` of client.go. -/
def withRetry (cfg : ClientConfig) (env : RetryEnv) (op : String)
    (fn : Nat → Option GoError) : RetryOutcome :=
  withRetryLoop cfg env op fn cfg.MaxRetries.toNat 1 none

/-! ## internal/rdapi: one attempt of each remote operation -/

/-- The part of `*http.Response` the client reads. -/
structure HTTPResponse where
  StatusCode : Int
  Body : String
  deriving DecidableEq, Repr

/-- The error `fmt.Errorf("status=%d", resp.StatusCode)`. -/
def statusError (code : Int) : GoError := GoError.plain ("status=" ++ toString code)

/-- The closure of `getJSONWithRetry`.  `newReq` is the error of
`http.NewRequestWithContext`, `resp` the result of `c.httpClient.Do(req)`
and `decode` the error of decoding the body into `out`. -/
def getJSONAttempt (newReq : Option GoError) (resp : Except GoError HTTPResponse)
    (decode : String → Option GoError) : Option GoError :=
  match newReq with
  | some err => some err
  | none =>
    match resp with
    | Except.error err => some (retryable err)
    | Except.ok resp =>
      if resp.StatusCode == 429 || resp.StatusCode ≥ 500 then
        some (retryable (statusError resp.StatusCode))
      else if resp.StatusCode < 200 || resp.StatusCode ≥ 300 then
        some (statusError resp.StatusCode)
      else
        match decode resp.Body with
        | some err => some (retryable err)
        | none => none

/-- The closure of `postFormJSONWithRetry`. -/
def postFormJSONAttempt (newReq : Option GoError) (resp : Except GoError HTTPResponse)
    (decode : String → Option GoError) : Option GoError :=
  match newReq with
  | some err => some err
  | none =>
    match resp with
    | Except.error err => some (retryable err)
    | Except.ok resp =>
      if resp.StatusCode == 429 || resp.StatusCode ≥ 500 then
        some (retryable (statusError resp.StatusCode))
      else if resp.StatusCode < 200 || resp.StatusCode ≥ 300 then
        some (statusError resp.StatusCode)
      else
        match decode resp.Body with
        | some err => some (retryable err)
        | none => none

/-- The closure of `postFormNoBodyWithRetry`; the body is read and thrown
away. -/
def postFormNoBodyAttempt (newReq : Option GoError) (resp : Except GoError HTTPResponse) :
    Option GoError :=
  match newReq with
  | some err => some err
  | none =>
    match resp with
    | Except.error err => some (retryable err)
    | Except.ok resp =>
      if resp.StatusCode == 429 || resp.StatusCode ≥ 500 then
        some (retryable (statusError resp.StatusCode))
      else if resp.StatusCode < 200 || resp.StatusCode ≥ 300 then
        some (statusError resp.StatusCode)
      else none

/-- The closure of `deleteWithRetry`; the body is read and thrown away. -/
def deleteAttempt (newReq : Option GoError) (resp : Except GoError HTTPResponse) :
    Option GoError :=
  match newReq with
  | some err => some err
  | none =>
    match resp with
    | Except.error err => some (retryable err)
    | Except.ok resp =>
      if resp.StatusCode == 429 || resp.StatusCode ≥ 500 then
        some (retryable (statusError resp.StatusCode))
      else if resp.StatusCode < 200 || resp.StatusCode ≥ 300 then
        some (statusError resp.StatusCode)
      else none

/-- How an attempt that got a response is classified by its status code. -/
inductive StatusClass where
  | retryableFailure
  | terminalFailure
  | noStatusFailure
  deriving DecidableEq, Repr

/-- The two status tests each of the four closures makes, in their order
(client.go 121-126, 149-154, 178-183 and 203-208). -/
def statusClass (code : Int) : StatusClass :=
  if code == 429 || code ≥ 500 then StatusClass.retryableFailure
  else if code < 200 || code ≥ 300 then StatusClass.terminalFailure
  else StatusClass.noStatusFailure

/-- The classification in the words of the specification: 429 and the 5xx
statuses (500 to 599) are retryable, every other status outside 200 to 299 is
terminal, and a 2xx status is no failure. -/
def claimedStatusClass (code : Int) : StatusClass :=
  if code = 429 ∨ (500 ≤ code ∧ code ≤ 599) then StatusClass.retryableFailure
  else if code < 200 ∨ 300 ≤ code then StatusClass.terminalFailure
  else StatusClass.noStatusFailure

/-! ## internal/rdapi: paginated listing -/

/-- The result of `ListAllTorrents` and the page numbers it requested. -/
structure ListOutcome where
  result : Except GoError (List Torrent)
  pages : List Nat

/-- The loop of `Client.ListAllTorrents`.  `fetch page` is the outcome of
`c.getJSONWithRetry` for the URL of that page: the decoded batch or the
error.  The Go loop has no bound, so the model takes `fuel`. -/
def ListAllTorrentsLoop (PageLimit : Int) (fetch : Nat → Except GoError (List Torrent)) :
    Nat → Nat → List Torrent → Option ListOutcome
  | 0, _, _ => none
  | fuel + 1, page, all =>
    match fetch page with
    | Except.error err =>
      some ⟨Except.error (GoError.wrapped
        ("list torrents page=" ++ toString page ++ ": " ++ err.Error) err), [page]⟩
    | Except.ok batch =>
      if batch.length == 0 then some ⟨Except.ok all, [page]⟩
      else if (batch.length : Int) < PageLimit then some ⟨Except.ok (all ++ batch), [page]⟩
      else
        (ListAllTorrentsLoop PageLimit fetch fuel (page + 1) (all ++ batch)).map
          (fun r => ⟨r.result, page :: r.pages⟩)

/-- Method `Client.ListAllTorrents` of client.go: pages from 1, `all`
starting empty. -/
def ListAllTorrents (PageLimit : Int) (fetch : Nat → Except GoError (List Torrent))
    (fuel : Nat) : Option ListOutcome :=
  ListAllTorrentsLoop PageLimit fetch fuel 1 []

/-! ## internal/syncer: configuration, statistics, the API interface -/

/-- Constant `ModeAddOnly` (`Mode` is a string type). -/
def ModeAddOnly : String := "add-only"

/-- Constant `ModeMirrorDelete`. -/
def ModeMirrorDelete : String := "mirror-delete"

/-- Struct `RunnerConfig` of syncer.go. -/
structure RunnerConfig where
  SrcToken : String
  DstToken : String
  Mode : String
  DryRun : Bool
  WriteDelay : Int
  ProtectDstRegex : String
  deriving DecidableEq, Repr

/-- Struct `Stats` of syncer.go; the two times are clock readings. -/
structure Stats where
  SourceCount : Nat := 0
  DestCount : Nat := 0
  NeedAdd : Nat := 0
  NeedDelete : Nat := 0
  Added : Nat := 0
  Deleted : Nat := 0
  AddErrors : Nat := 0
  DeleteErrors : Nat := 0
  SkippedBadSrc : Nat := 0
  ProtectedDst : Nat := 0
  StartedAt : Int := 0
  FinishedAt : Int := 0
  deriving DecidableEq, Repr

/-- A call `RunOnce` issues: the four methods of the `API` interface with
their arguments, the uninterruptible `time.Sleep` of the write delay, and the
timer wait of `selectFilesWithRetry`. -/
inductive Call where
  | ListAllTorrents (token : String)
  | AddMagnetByHash (token hash : String)
  | SelectFilesAll (token torrentID : String)
  | DeleteTorrent (token torrentID : String)
  | Sleep (d : Int)
  | TimerWait (d : Int)
  deriving DecidableEq, Repr

/-- Interface `API` of syncer.go.  Each method is given the calls issued
before it in this run, so an implementation may answer from its history. -/
structure API where
  ListAllTorrents : List Call → String → Except GoError (List Torrent)
  AddMagnetByHash : List Call → String → String → Except GoError String
  SelectFilesAll : List Call → String → String → Option GoError
  DeleteTorrent : List Call → String → String → Option GoError

/-- A compiled `*regexp.Regexp`, as far as it is used: `MatchString`. -/
structure Regexp where
  MatchString : String → Bool

/-- What a run of `RunOnce` lives in: the API, the `select` of the sleep
helper (`some e`: the context was done first and `ctx.Err()` is `e`), the
library function `regexp.Compile`, and the clock. -/
structure Env where
  api : API
  ctxSleep : List Call → Int → Option GoError
  regexpCompile : String → Except GoError Regexp
  now : List Call → Int

/-! ## internal/syncer: the lookup maps -/

/-- A Go `map[string]rdapi.Torrent`: its entries, one per key.  The entries
are kept in insertion order; Go ranges over a map in an unspecified order,
and every use below sorts what it collected. -/
abbrev GoMap := List (String × Torrent)

/-- The assignment `m[k] = v`. -/
def GoMap.set : GoMap → String → Torrent → GoMap
  | [], k, v => [(k, v)]
  | (k', v') :: rest, k, v =>
    if k' = k then (k, v) :: rest else (k', v') :: GoMap.set rest k v

/-- The lookup `v, ok := m[k]`, `none` when `ok` is false. -/
def GoMap.get? : GoMap → String → Option Torrent
  | [], _ => none
  | (k', v') :: rest, k => if k' = k then some v' else GoMap.get? rest k

/-- The `ok` of `_, ok := m[k]`. -/
def GoMap.contains (m : GoMap) (k : String) : Bool := (GoMap.get? m k).isSome

/-- The lookup `m[k]`: the zero `Torrent` for a missing key. -/
def GoMap.get (m : GoMap) (k : String) : Torrent :=
  (GoMap.get? m k).getD ⟨"", "", "", ""⟩

/-- The keys of the map, in entry order. -/
def GoMap.keys (m : GoMap) : List String := m.map Prod.fst

/-- The first loop of the diff (syncer.go 94-101): source items with an empty
normalized hash are counted and skipped, the others are stored. -/
def indexSrc : List Torrent → Stats → GoMap → Stats × GoMap
  | [], stats, srcByHash => (stats, srcByHash)
  | t :: rest, stats, srcByHash =>
    let h := normalizeHash t.Hash
    if h = "" then
      indexSrc rest { stats with SkippedBadSrc := stats.SkippedBadSrc + 1 } srcByHash
    else indexSrc rest stats (GoMap.set srcByHash h t)

/-- The second loop (syncer.go 102-108): destination items with an empty
normalized hash are skipped without a count. -/
def indexDst : List Torrent → GoMap → GoMap
  | [], dstByHash => dstByHash
  | t :: rest, dstByHash =>
    let h := normalizeHash t.Hash
    if h = "" then indexDst rest dstByHash
    else indexDst rest (GoMap.set dstByHash h t)

/-! ## internal/syncer: the diff -/

/-- The loop collecting `needAdd` (syncer.go 110-115), before the sort. -/
def collectNeedAdd (dstByHash : GoMap) : GoMap → List String → List String
  | [], needAdd => needAdd
  | (h, _) :: rest, needAdd =>
    if GoMap.contains dstByHash h then collectNeedAdd dstByHash rest needAdd
    else collectNeedAdd dstByHash rest (needAdd ++ [h])

/-- The condition `protectRe != nil && protectRe.MatchString(name)`. -/
def isProtected (protectRe : Option Regexp) (name : String) : Bool :=
  match protectRe with
  | none => false
  | some re => re.MatchString name

/-- The loop collecting `needDelete` and counting protected items
(syncer.go 121-130), before the sort. -/
def collectNeedDelete (srcByHash : GoMap) (protectRe : Option Regexp) :
    GoMap → Stats → List String → Stats × List String
  | [], stats, needDelete => (stats, needDelete)
  | (h, dstT) :: rest, stats, needDelete =>
    if GoMap.contains srcByHash h then
      collectNeedDelete srcByHash protectRe rest stats needDelete
    else if isProtected protectRe dstT.Filename then
      collectNeedDelete srcByHash protectRe rest
        { stats with ProtectedDst := stats.ProtectedDst + 1 } needDelete
    else collectNeedDelete srcByHash protectRe rest stats (needDelete ++ [h])

/-- The slice `needAdd` of `RunOnce` for the snapshots `src` and `dst`. -/
def needAddOf (src dst : List Torrent) : List String :=
  sortStrings (collectNeedAdd (indexDst dst []) (indexSrc src {} []).2 [])

/-- The slice `needDelete` of `RunOnce` in mirror-delete mode. -/
def needDeleteOf (protectRe : Option Regexp) (src dst : List Torrent) : List String :=
  sortStrings (collectNeedDelete (indexSrc src {} []).2 protectRe (indexDst dst []) {} []).2

/-! ## internal/syncer: applying the diff -/

/-- The error `fmt.Errorf("failed after %d attempts: %w", maxAttempts, lastErr)`. -/
def failedAfterAttempts (maxAttempts : Int) : Option GoError → GoError
  | some lastErr =>
    GoError.wrapped ("failed after " ++ toString maxAttempts ++ " attempts: " ++ lastErr.Error)
      lastErr
  | none => GoError.plain ("failed after " ++ toString maxAttempts ++ " attempts: %!w(<nil>)")

/-- The loop of `selectFilesWithRetry`; `remaining` counts the values of
`attempt` still below `maxAttempts`. -/
def selectFilesLoop (env : Env) (token torrentID : String) (maxAttempts retryDelay : Int) :
    Nat → Nat → Option GoError → List Call → Option GoError × List Call
  | 0, _, lastErr, calls => (some (failedAfterAttempts maxAttempts lastErr), calls)
  | remaining + 1, attempt, _, calls =>
    let slept : Option GoError × List Call :=
      if attempt > 0 then (env.ctxSleep calls retryDelay, calls ++ [Call.TimerWait retryDelay])
      else (none, calls)
    match slept.1 with
    | some err => (some err, slept.2)
    | none =>
      match env.api.SelectFilesAll slept.2 token torrentID with
      | none => (none, slept.2 ++ [Call.SelectFilesAll token torrentID])
      | some lastErr =>
        selectFilesLoop env token torrentID maxAttempts retryDelay remaining (attempt + 1)
          (some lastErr) (slept.2 ++ [Call.SelectFilesAll token torrentID])

/-- Function `selectFilesWithRetry` of syncer.go. -/
def selectFilesWithRetry (env : Env) (token torrentID : String)
    (initialDelay maxAttempts retryDelay : Int) (calls : List Call) :
    Option GoError × List Call :=
  match env.ctxSleep calls initialDelay with
  | some err => (some err, calls ++ [Call.TimerWait initialDelay])
  | none =>
    selectFilesLoop env token torrentID maxAttempts retryDelay maxAttempts.toNat 0 none
      (calls ++ [Call.TimerWait initialDelay])

/-- One second as a `time.Duration`. -/
def second : Int := 1000000000

/-- The statement `if r.cfg.WriteDelay > 0 { time.Sleep(r.cfg.WriteDelay) }`. -/
def writeDelay (cfg : RunnerConfig) (calls : List Call) : List Call :=
  if cfg.WriteDelay > 0 then calls ++ [Call.Sleep cfg.WriteDelay] else calls

/-- The add loop of `RunOnce` (syncer.go 135-159). -/
def applyAdds (env : Env) (cfg : RunnerConfig) :
    List String → Stats → List Call → Stats × List Call
  | [], stats, calls => (stats, calls)
  | h :: rest, stats, calls =>
    if cfg.DryRun then applyAdds env cfg rest stats calls
    else
      match env.api.AddMagnetByHash calls cfg.DstToken h with
      | Except.error _ =>
        applyAdds env cfg rest { stats with AddErrors := stats.AddErrors + 1 }
          (calls ++ [Call.AddMagnetByHash cfg.DstToken h])
      | Except.ok newID =>
        let sel := selectFilesWithRetry env cfg.DstToken newID (2 * second) 3 (3 * second)
          (calls ++ [Call.AddMagnetByHash cfg.DstToken h])
        match sel.1 with
        | some _ =>
          applyAdds env cfg rest { stats with AddErrors := stats.AddErrors + 1 } sel.2
        | none =>
          applyAdds env cfg rest { stats with Added := stats.Added + 1 } (writeDelay cfg sel.2)

/-- The delete loop of `RunOnce` (syncer.go 162-183). -/
def applyDeletes (env : Env) (cfg : RunnerConfig) (dstByHash : GoMap) :
    List String → Stats → List Call → Stats × List Call
  | [], stats, calls => (stats, calls)
  | h :: rest, stats, calls =>
    let dstT := GoMap.get dstByHash h
    if cfg.DryRun then applyDeletes env cfg dstByHash rest stats calls
    else if dstT.ID = "" then
      applyDeletes env cfg dstByHash rest
        { stats with DeleteErrors := stats.DeleteErrors + 1 } calls
    else
      match env.api.DeleteTorrent calls cfg.DstToken dstT.ID with
      | some _ =>
        applyDeletes env cfg dstByHash rest
          { stats with DeleteErrors := stats.DeleteErrors + 1 }
          (calls ++ [Call.DeleteTorrent cfg.DstToken dstT.ID])
      | none =>
        applyDeletes env cfg dstByHash rest { stats with Deleted := stats.Deleted + 1 }
          (writeDelay cfg (calls ++ [Call.DeleteTorrent cfg.DstToken dstT.ID]))

/-! ## internal/syncer: RunOnce -/

/-- What `RunOnce` returns, and the calls it issued, in order. -/
structure RunResult where
  stats : Stats
  err : Option GoError
  calls : List Call

/-- The compilation of the protection pattern (syncer.go 82-89): `none` is
the nil `protectRe` of an empty pattern. -/
def compileProtect (env : Env) (pattern : String) : Except GoError (Option Regexp) :=
  if pattern ≠ "" then
    match env.regexpCompile pattern with
    | Except.error err => Except.error err
    | Except.ok re => Except.ok (some re)
  else Except.ok none

/-- The part of `RunOnce` after the pattern is compiled (syncer.go 91-188). -/
def reconcile (env : Env) (cfg : RunnerConfig) (protectRe : Option Regexp)
    (src dst : List Torrent) (stats : Stats) (calls : List Call) : RunResult :=
  let indexed := indexSrc src stats []
  let srcByHash := indexed.2
  let dstByHash := indexDst dst []
  let needAdd := sortStrings (collectNeedAdd dstByHash srcByHash [])
  let stats := { indexed.1 with NeedAdd := needAdd.length }
  let scanned : Stats × List String :=
    if cfg.Mode = ModeMirrorDelete then
      let c := collectNeedDelete srcByHash protectRe dstByHash stats []
      (c.1, sortStrings c.2)
    else (stats, [])
  let needDelete := scanned.2
  let stats := { scanned.1 with NeedDelete := needDelete.length }
  let added := applyAdds env cfg needAdd stats calls
  let deleted : Stats × List Call :=
    if cfg.Mode = ModeMirrorDelete then
      applyDeletes env cfg dstByHash needDelete added.1 added.2
    else added
  ⟨{ deleted.1 with FinishedAt := env.now deleted.2 }, none, deleted.2⟩

/-- Method `Runner.RunOnce` of syncer.go. -/
def RunOnce (env : Env) (cfg : RunnerConfig) : RunResult :=
  let stats : Stats := { StartedAt := env.now [] }
  match env.api.ListAllTorrents [] cfg.SrcToken with
  | Except.error err => ⟨stats, some err, [Call.ListAllTorrents cfg.SrcToken]⟩
  | Except.ok src =>
    match env.api.ListAllTorrents [Call.ListAllTorrents cfg.SrcToken] cfg.DstToken with
    | Except.error err =>
      ⟨stats, some err, [Call.ListAllTorrents cfg.SrcToken, Call.ListAllTorrents cfg.DstToken]⟩
    | Except.ok dst =>
      let stats := { stats with SourceCount := src.length, DestCount := dst.length }
      match compileProtect env cfg.ProtectDstRegex with
      | Except.error err =>
        ⟨stats, some err,
          [Call.ListAllTorrents cfg.SrcToken, Call.ListAllTorrents cfg.DstToken]⟩
      | Except.ok protectRe =>
        reconcile env cfg protectRe src dst stats
          [Call.ListAllTorrents cfg.SrcToken, Call.ListAllTorrents cfg.DstToken]

/-! ## Snapshots as the specification reads them -/

/-- The item a snapshot holds for the key `h`: the last item, in listing
order, whose normalized hash is `h`. -/
def lastWithKey (items : List Torrent) (h : String) : Option Torrent :=
  (items.filter (fun t => normalizeHash t.Hash = h)).getLast?

/-- The distinct non-empty normalized keys of a snapshot. -/
def snapshotKeys (items : List Torrent) : List String :=
  ((items.map (fun t => normalizeHash t.Hash)).filter (fun h => h ≠ "")).dedup

/-- The keys the destination snapshot has and the source snapshot lacks. -/
def dstOnlyKeys (src dst : List Torrent) : List String :=
  (snapshotKeys dst).filter (fun h => h ∉ snapshotKeys src)

/-- Whether the item the snapshot holds for the key `h` has a filename the
protection pattern matches. -/
def protectedKey (protectRe : Option Regexp) (dst : List Torrent) (h : String) : Bool :=
  match lastWithKey dst h with
  | some t => isProtected protectRe t.Filename
  | none => false

/-- The hash of an `AddMagnetByHash` call. -/
def Call.addedHash : Call → Option String
  | Call.AddMagnetByHash _ hash => some hash
  | _ => none

/-- The torrent ID of a `DeleteTorrent` call. -/
def Call.deletedID : Call → Option String
  | Call.DeleteTorrent _ torrentID => some torrentID
  | _ => none

/-- Whether the call is `AddMagnetByHash`. -/
def Call.isAdd : Call → Bool
  | Call.AddMagnetByHash _ _ => true
  | _ => false

/-- Whether the call is `SelectFilesAll`. -/
def Call.isSelect : Call → Bool
  | Call.SelectFilesAll _ _ => true
  | _ => false

/-- Whether the call is `DeleteTorrent`. -/
def Call.isDelete : Call → Bool
  | Call.DeleteTorrent _ _ => true
  | _ => false

/-- Whether the call is `ListAllTorrents`. -/
def Call.isList : Call → Bool
  | Call.ListAllTorrents _ => true
  | _ => false

/-- The statistics as the diff phase leaves them, written with the snapshot
notions above: what `RunOnce` holds in `stats` when the add loop starts. -/
def diffStats (cfg : RunnerConfig) (protectRe : Option Regexp) (src dst : List Torrent)
    (st : Stats) : Stats :=
  { st with
    SkippedBadSrc := st.SkippedBadSrc + (src.filter (fun t => normalizeHash t.Hash = "")).length
    NeedAdd := (needAddOf src dst).length
    ProtectedDst := st.ProtectedDst +
      (if cfg.Mode = ModeMirrorDelete then
        ((dstOnlyKeys src dst).filter (fun h => protectedKey protectRe dst h)).length
      else 0)
    NeedDelete :=
      if cfg.Mode = ModeMirrorDelete then (needDeleteOf protectRe src dst).length else 0 }

/-- The two apply loops of `RunOnce` run on the result of the diff. -/
def applyPhase (env : Env) (cfg : RunnerConfig) (protectRe : Option Regexp)
    (src dst : List Torrent) (st : Stats) (calls : List Call) : Stats × List Call :=
  let added := applyAdds env cfg (needAddOf src dst) (diffStats cfg protectRe src dst st) calls
  if cfg.Mode = ModeMirrorDelete then
    applyDeletes env cfg (indexDst dst []) (needDeleteOf protectRe src dst) added.1 added.2
  else added

/-! ## The fake API of syncer_test.go -/

/-- The type `fakeAPI` of syncer_test.go: the token "src" lists `src`, any
other token lists `dst`; every other call succeeds. -/
def fakeAPI (src dst : List Torrent) : API where
  ListAllTorrents := fun _ token => if token = "src" then Except.ok src else Except.ok dst
  AddMagnetByHash := fun _ _ hash => Except.ok ("new-id-" ++ hash)
  SelectFilesAll := fun _ _ _ => none
  DeleteTorrent := fun _ _ _ => none

/-- The pattern of `TestRunOnceMirrorDeleteWithProtection`. -/
def keepPattern : String := "^\\[KEEP\\]"

/-- What `keepPattern` compiles to: the names that start with `[KEEP]`. -/
def keepRegexp : Regexp := ⟨fun name => List.isPrefixOf "[KEEP]".data name.data⟩

/-- An environment around `fakeAPI`: the context is never done, the clock
counts the calls made, and the one pattern known to compile is
`keepPattern`. -/
def testEnv (src dst : List Torrent) : Env where
  api := fakeAPI src dst
  ctxSleep := fun _ _ => none
  regexpCompile := fun pattern =>
    if pattern = keepPattern then Except.ok keepRegexp
    else Except.error (GoError.plain "error parsing regexp")
  now := fun calls => calls.length

/-- The source snapshot of `TestRunOnceAddOnly`. -/
def addOnlySrc : List Torrent := [⟨"1", "A", "", ""⟩, ⟨"2", "B", "", ""⟩]

/-- The destination snapshot of `TestRunOnceAddOnly`. -/
def addOnlyDst : List Torrent := [⟨"3", "a", "", ""⟩]

/-- The configuration of `TestRunOnceAddOnly`. -/
def addOnlyCfg : RunnerConfig := ⟨"src", "dst", ModeAddOnly, false, 0, ""⟩

/-- The source snapshot of `TestRunOnceMirrorDeleteWithProtection`. -/
def mirrorSrc : List Torrent := [⟨"1", "A", "Movie", ""⟩]

/-- The destination snapshot of `TestRunOnceMirrorDeleteWithProtection`. -/
def mirrorDst : List Torrent :=
  [⟨"d1", "A", "Movie", ""⟩, ⟨"d2", "B", "[KEEP] Local item", ""⟩, ⟨"d3", "C", "Delete me", ""⟩]

/-- The configuration of `TestRunOnceMirrorDeleteWithProtection`. -/
def mirrorCfg : RunnerConfig := ⟨"src", "dst", ModeMirrorDelete, false, 0, keepPattern⟩

/-- The configuration of `TestRunOnceMirrorDeleteWithProtection` switched to
add-only mode. -/
def addOnlyProtectCfg : RunnerConfig := ⟨"src", "dst", ModeAddOnly, false, 0, keepPattern⟩

/-- The configuration of `TestRunOnceMirrorDeleteWithProtection` as a dry
run. -/
def mirrorDryCfg : RunnerConfig := ⟨"src", "dst", ModeMirrorDelete, true, 0, keepPattern⟩

/-- The error a failed listing returns in the examples. -/
def listError : GoError :=
  GoError.wrapped "list torrents page=1: GET /torrents failed after retries: status=401"
    (GoError.wrapped "GET /torrents failed after retries: status=401" (GoError.plain "status=401"))

/-- A variant of `fakeAPI` whose listing fails for one of the two accounts:
for the token "src" when `failSrc` is set, for every other token otherwise. -/
def failingAPI (failSrc : Bool) (src dst : List Torrent) : API where
  ListAllTorrents := fun _ token =>
    if token = "src" then (if failSrc then Except.error listError else Except.ok src)
    else (if failSrc then Except.ok dst else Except.error listError)
  AddMagnetByHash := fun _ _ hash => Except.ok ("new-id-" ++ hash)
  SelectFilesAll := fun _ _ _ => none
  DeleteTorrent := fun _ _ _ => none

/-- The environment `testEnv` around `failingAPI`. -/
def failingEnv (failSrc : Bool) (src dst : List Torrent) : Env :=
  { testEnv src dst with api := failingAPI failSrc src dst }

/-- The pages the server of `TestListAllTorrentsPagination` answers with:
two items, then one, then none. -/
def testPages (page : Nat) : List Torrent :=
  if page = 1 then [⟨"1", "aaa", "A", ""⟩, ⟨"2", "bbb", "B", ""⟩]
  else if page = 2 then [⟨"3", "ccc", "C", ""⟩]
  else []

/-! ## Fixtures for the retry loop -/

/-- The client tuning `config.Load` produces by default: 4 attempts, 500ms
base, 350ms jitter bound, pages of 250. -/
def defaultClientConfig : ClientConfig :=
  ⟨"https://api.real-debrid.com/rest/1.0", 20 * second, 4, 500000000, 350000000, 250⟩

/-- Surroundings in which the context is never done. -/
def calmRetryEnv : RetryEnv := ⟨fun attempt => 987654321 * attempt, fun _ _ => none⟩

/-- A wrapped call that fails twice with a retryable error (status 503) and
then succeeds. -/
def failsTwice (attempt : Nat) : Option GoError :=
  if attempt < 3 then some (retryable (GoError.plain "status=503")) else none

/-- A wrapped call that always fails with a retryable error naming the
attempt. -/
def alwaysFails (attempt : Nat) : Option GoError :=
  some (retryable (GoError.plain (if attempt = 4 then "status=504" else "status=503")))

/-- A wrapped call that fails with a terminal error (status 404). -/
def failsTerminally (_attempt : Nat) : Option GoError :=
  some (GoError.plain "status=404")

/-- A pattern that does not compile (an unclosed group). -/
def badPattern : String := "([KEEP"

/-- The configuration of `TestRunOnceMirrorDeleteWithProtection` with the
pattern that does not compile. -/
def badPatternCfg : RunnerConfig := ⟨"src", "dst", ModeMirrorDelete, false, 0, badPattern⟩

/-- The environment `testEnv` with a context that is already done: every
cancellable wait ends with `context.Canceled`. -/
def cancelledEnv (src dst : List Torrent) : Env :=
  { testEnv src dst with ctxSleep := fun _ _ => some (GoError.ctx "context canceled") }

/-- The destination item `RunOnce` uses for the key `h`: the last item listed
with that key (the zero `Torrent` when there is none). -/
def dstItem (dst : List Torrent) (h : String) : Torrent :=
  (lastWithKey dst h).getD ⟨"", "", "", ""⟩

/-- A destination snapshot with two items of key "b" and one item without an
ID: the first "b" is protected by `keepPattern`, the second is not. -/
def duplicateDst : List Torrent :=
  [⟨"d1", "B", "[KEEP] first copy", ""⟩, ⟨"d2", " b", "second copy", ""⟩,
    ⟨"", "C", "no id", ""⟩]

/-- The same items with the two "b" items exchanged. -/
def duplicateDstSwapped : List Torrent :=
  [⟨"d2", " b", "second copy", ""⟩, ⟨"d1", "B", "[KEEP] first copy", ""⟩,
    ⟨"", "C", "no id", ""⟩]

/-- A source snapshot with two items of unusable hash (empty, blank). -/
def blankHashSrc : List Torrent :=
  [⟨"1", "A", "Movie", ""⟩, ⟨"2", "", "no hash", ""⟩, ⟨"3", "  ", "blank hash", ""⟩]

/-- A destination snapshot with one item of unusable hash. -/
def blankHashDst : List Torrent :=
  [⟨"d1", " ", "[KEEP] blank hash", ""⟩, ⟨"d2", "B", "Delete me", ""⟩]

/-- The wait `withRetry` entered right after its call number `a`, read off the
events of a run. -/
def waitAfter : List RetryEvent → Nat → Option Int
  | RetryEvent.call b :: RetryEvent.wait w :: rest, a =>
    if b = a then some w else waitAfter rest a
  | _ :: rest, a => waitAfter rest a
  | [], _ => none

/-- The default client configuration with `RETRY_BASE=2000000h`,
`RETRY_MAX_JITTER=0` and `MAX_RETRIES=3`. -/
def longBaseConfig : ClientConfig :=
  { defaultClientConfig with
    MaxRetries := 3, RetryBase := 2000000 * 3600 * second, RetryMaxJitter := 0 }

/-- The default client configuration with `MAX_RETRIES=40`. -/
def manyRetriesConfig : ClientConfig := { defaultClientConfig with MaxRetries := 40 }

/-! ## internal/config -/

/-- Struct `Config` of config.go. -/
structure Config where
  SrcToken : String
  DstToken : String
  BaseURL : String
  Mode : String
  DryRun : Bool
  Interval : Int
  RunTimeout : Int
  HTTPTimeout : Int
  WriteDelay : Int
  MaxRetries : Int
  RetryBase : Int
  RetryMaxJitter : Int
  PageLimit : Int
  ProtectDstRegex : String
  HealthAddr : String
  deriving DecidableEq, Repr

/-- What `Load` reads from outside: the process environment (`os.Getenv`, ""
for an unset variable) and the library functions `strconv.Atoi`,
`time.ParseDuration` (`none` for their error) and `strconv.Quote` (the verb
`%q`). -/
structure ConfigEnv where
  Getenv : String → String
  Atoi : String → Option Int
  ParseDuration : String → Option Int
  Quote : String → String

/-- The constant `defaultBaseURL` of config.go. -/
def defaultBaseURL : String := "https://api.real-debrid.com/rest/1.0"

/-- One millisecond as a `time.Duration`. -/
def millisecond : Int := 1000000

/-- One minute as a `time.Duration`. -/
def minute : Int := 60 * second

/-- Function `getString` of config.go. -/
def getString (env : ConfigEnv) (key : String) (defaultValue : String) : String :=
  let v := TrimSpace (env.Getenv key)
  if v = "" then defaultValue else v

/-- Function `getBool` of config.go. -/
def getBool (env : ConfigEnv) (key : String) (defaultValue : Bool) : Bool :=
  let v := TrimSpace (ToLower (env.Getenv key))
  if v = "" then defaultValue
  else if v = "1" ∨ v = "true" ∨ v = "yes" ∨ v = "on" then true
  else if v = "0" ∨ v = "false" ∨ v = "no" ∨ v = "off" then false
  else defaultValue

/-- Function `getInt` of config.go. -/
def getInt (env : ConfigEnv) (key : String) (defaultValue : Int) : Int :=
  let v := TrimSpace (env.Getenv key)
  if v = "" then defaultValue
  else
    match env.Atoi v with
    | some n => n
    | none => defaultValue

/-- Function `getDuration` of config.go; `time.Duration(n) * time.Second` is a
64-bit product. -/
def getDuration (env : ConfigEnv) (key : String) (defaultValue : Int) : Int :=
  let v := TrimSpace (env.Getenv key)
  if v = "" then defaultValue
  else
    match env.ParseDuration v with
    | some d => d
    | none =>
      match env.Atoi v with
      | some n => wrapInt64 (n * second)
      | none => defaultValue

/-- The struct literal `cfg := Config{...}` at the head of `Load`. -/
def loadedConfig (env : ConfigEnv) : Config :=
  { SrcToken := TrimSpace (env.Getenv "SRC_RD_TOKEN")
    DstToken := TrimSpace (env.Getenv "DST_RD_TOKEN")
    BaseURL := getString env "RD_API_BASE_URL" defaultBaseURL
    Mode := getString env "MIRROR_MODE" "add-only"
    DryRun := getBool env "DRY_RUN" true
    Interval := getDuration env "SYNC_INTERVAL" (45 * second)
    RunTimeout := getDuration env "RUN_TIMEOUT" (10 * minute)
    HTTPTimeout := getDuration env "HTTP_TIMEOUT" (20 * second)
    WriteDelay := getDuration env "WRITE_DELAY" (250 * millisecond)
    MaxRetries := getInt env "MAX_RETRIES" 4
    RetryBase := getDuration env "RETRY_BASE" (500 * millisecond)
    RetryMaxJitter := getDuration env "RETRY_MAX_JITTER" (350 * millisecond)
    PageLimit := getInt env "PAGE_LIMIT" 250
    ProtectDstRegex := getString env "PROTECT_DST_REGEX" ""
    HealthAddr := getString env "HEALTH_ADDR" "" }

/-- Function `Load` of config.go: the configuration read and the error. -/
def Load (env : ConfigEnv) : Config × Option GoError :=
  let cfg : Config := loadedConfig env
  if cfg.SrcToken = "" ∨ cfg.DstToken = "" then
    (cfg, some (GoError.plain "SRC_RD_TOKEN and DST_RD_TOKEN are required"))
  else if cfg.Mode ≠ "add-only" ∧ cfg.Mode ≠ "mirror-delete" then
    (cfg, some (GoError.plain ("invalid MIRROR_MODE=" ++ env.Quote cfg.Mode ++
      " (expected add-only or mirror-delete)")))
  else if cfg.Interval < 10 * second then
    (cfg, some (GoError.plain "SYNC_INTERVAL must be >= 10s"))
  else if cfg.HTTPTimeout ≤ 0 then
    (cfg, some (GoError.plain "HTTP_TIMEOUT must be > 0"))
  else if cfg.RunTimeout < 0 then
    (cfg, some (GoError.plain "RUN_TIMEOUT must be >= 0"))
  else if cfg.MaxRetries < 1 then
    (cfg, some (GoError.plain "MAX_RETRIES must be >= 1"))
  else if cfg.PageLimit < 1 then
    (cfg, some (GoError.plain "PAGE_LIMIT must be >= 1"))
  else (cfg, none)

/-- The library functions on the strings of the examples: the decimals "60"
and "0", the duration "5s"; "60" has no unit, so it is no duration. -/
def exampleParsers (getenv : String → String) : ConfigEnv where
  Getenv := getenv
  Atoi := fun s => if s = "60" then some 60 else if s = "0" then some 0 else none
  ParseDuration := fun s => if s = "5s" then some (5 * second) else none
  Quote := fun s => "\"" ++ s ++ "\""

/-- The environment of `TestLoadDefaultsAndParsing`. -/
def parsingEnv : ConfigEnv :=
  exampleParsers (fun key =>
    if key = "SRC_RD_TOKEN" then "src"
    else if key = "DST_RD_TOKEN" then "dst"
    else if key = "SYNC_INTERVAL" then "60"
    else if key = "DRY_RUN" then "false"
    else if key = "MIRROR_MODE" then "mirror-delete"
    else "")

/-- The environment of `TestLoadRejectsMissingTokens`. -/
def missingTokensEnv : ConfigEnv := exampleParsers (fun _ => "")

/-- Every other variable as in `TestLoadDefaultsAndParsing`, a destination
token of white space only. -/
def blankTokenEnv : ConfigEnv :=
  exampleParsers (fun key => if key = "DST_RD_TOKEN" then " \t" else parsingEnv.Getenv key)

/-- Valid tokens and `MAX_RETRIES=0`. -/
def zeroRetriesEnv : ConfigEnv :=
  exampleParsers (fun key => if key = "MAX_RETRIES" then "0" else parsingEnv.Getenv key)

/-- Valid tokens and `SYNC_INTERVAL=5s`. -/
def shortIntervalEnv : ConfigEnv :=
  exampleParsers (fun key => if key = "SYNC_INTERVAL" then "5s" else parsingEnv.Getenv key)

/-! ## internal/rdapi: creating a torrent -/

/-- Library call `strings.TrimRight(s, "/")`. -/
def TrimRightSlash (s : String) : String := ⟨s.data.rdropWhile (fun c => c == '/')⟩

/-- The request the closure of `postFormJSONWithRetry` sends: method, URL, the
two headers it sets, and the form values whose encoding is the body. -/
structure FormRequest where
  Method : String
  URL : String
  Authorization : String
  ContentType : String
  Form : List (String × String)
  deriving DecidableEq, Repr

/-- What `AddMagnetByHash` meets outside the client.  `newRequest` is the
error of `http.NewRequestWithContext` for a method and a URL, `httpDo a` the
result of `c.httpClient.Do` in attempt `a`, and `decodeAddMagnet body out` the
error of `json.NewDecoder(resp.Body).Decode(out)` with the value `out` holds
afterwards (decoding writes into the value it is given). -/
structure ClientEnv where
  retry : RetryEnv
  newRequest : String → String → Option GoError
  httpDo : Nat → FormRequest → Except GoError HTTPResponse
  decodeAddMagnet : String → addMagnetResponse → Option GoError × addMagnetResponse

/-- The closure of `postFormJSONWithRetry` as run in attempt `attempt` with
`out` pointing to an `addMagnetResponse`: its error and the value of `*out`
when it returns. -/
def postFormJSONClosure (env : ClientEnv) (token endpoint : String)
    (form : List (String × String)) (attempt : Nat) (out : addMagnetResponse) :
    Option GoError × addMagnetResponse :=
  match env.newRequest "POST" endpoint with
  | some err => (some err, out)
  | none =>
    match env.httpDo attempt
      ⟨"POST", endpoint, "Bearer " ++ token, "application/x-www-form-urlencoded", form⟩ with
    | Except.error err => (some (retryable err), out)
    | Except.ok resp =>
      if resp.StatusCode == 429 || resp.StatusCode ≥ 500 then
        (some (retryable (statusError resp.StatusCode)), out)
      else if resp.StatusCode < 200 || resp.StatusCode ≥ 300 then
        (some (statusError resp.StatusCode), out)
      else
        match env.decodeAddMagnet resp.Body out with
        | (some err, decoded) => (some (retryable err), decoded)
        | (none, decoded) => (none, decoded)

/-- The value of `*out` after the closure has run `n` times; it starts as the
zero value of `var out addMagnetResponse`. -/
def outAfter (env : ClientEnv) (token endpoint : String) (form : List (String × String)) :
    Nat → addMagnetResponse
  | 0 => ⟨"", ""⟩
  | n + 1 => (postFormJSONClosure env token endpoint form (n + 1)
      (outAfter env token endpoint form n)).2

/-- What a call of `AddMagnetByHash` ends in: its two results, or a panic. -/
inductive AddMagnetResult where
  | returned (id : String) (err : Option GoError)
  | panicked (msg : String)
  deriving DecidableEq, Repr

/-- A run of `AddMagnetByHash`: how it ended and the events of its retry
loop (every `call` event is one run of the closure). -/
structure AddMagnetOutcome where
  result : AddMagnetResult
  events : List RetryEvent
  deriving DecidableEq, Repr

/-- The form `AddMagnetByHash` submits. -/
def addMagnetForm (hash : String) : List (String × String) :=
  [("magnet", "magnet:?xt=urn:btih:" ++ TrimSpace hash)]

/-- The endpoint `c.baseURL+"/torrents/addMagnet"`, with `c.baseURL` as
`NewClient` sets it. -/
def addMagnetEndpoint (cfg : ClientConfig) : String :=
  TrimRightSlash cfg.BaseURL ++ "/torrents/addMagnet"

/-- Method `Client.AddMagnetByHash` of client.go. -/
def Client.AddMagnetByHash (cfg : ClientConfig) (env : ClientEnv) (token hash : String) :
    AddMagnetOutcome :=
  let form := addMagnetForm hash
  let endpoint := addMagnetEndpoint cfg
  let run := withRetry cfg env.retry ("POST " ++ endpoint)
    (fun attempt =>
      (postFormJSONClosure env token endpoint form attempt
        (outAfter env token endpoint form (attempt - 1))).1)
  match run.result with
  | RetryResult.panicked msg => ⟨AddMagnetResult.panicked msg, run.events⟩
  | RetryResult.returned (some err) => ⟨AddMagnetResult.returned "" (some err), run.events⟩
  | RetryResult.returned none =>
    let out := outAfter env token endpoint form run.calls
    if out.ID = "" then
      ⟨AddMagnetResult.returned "" (some (GoError.plain "addMagnet returned empty id")),
        run.events⟩
    else ⟨AddMagnetResult.returned out.ID none, run.events⟩

/-- The body of a creation response without an identifier. -/
def emptyIdBody : String := "\x7b\"id\":\"\",\"uri\":\"u\"\x7d"

/-- The body of a creation response with the identifier "ABC123". -/
def fullIdBody : String := "\x7b\"id\":\"ABC123\",\"uri\":\"u\"\x7d"

/-- A server that answers every request with status 200 and the given body;
the decoder knows the two bodies of the examples. -/
def answeringEnv (body : String) : ClientEnv where
  retry := calmRetryEnv
  newRequest := fun _ _ => none
  httpDo := fun _ _ => Except.ok ⟨200, body⟩
  decodeAddMagnet := fun body out =>
    if body = emptyIdBody then (none, ⟨"", "u"⟩)
    else if body = fullIdBody then (none, ⟨"ABC123", "u"⟩)
    else (some (GoError.plain "unexpected end of JSON input"), out)

/-- Whether an event of the retry loop is a run of the wrapped call. -/
def RetryEvent.isCall : RetryEvent → Bool
  | RetryEvent.call _ => true
  | RetryEvent.wait _ => false

/-! ## The trace of `selectFilesWithRetry` -/

/-- The events of `count` rounds of the loop of `selectFilesWithRetry` from
the loop index `attempt` on, when no wait is cut short: the retry delay (not
in the round of index 0) and the call. -/
def selectEvents (token torrentID : String) (retryDelay : Int) : Nat → Nat → List Call
  | _, 0 => []
  | attempt, count + 1 =>
    (if attempt > 0 then [Call.TimerWait retryDelay] else []) ++
      Call.SelectFilesAll token torrentID ::
        selectEvents token torrentID retryDelay (attempt + 1) count

/-- The calls issued when the call of round `attempt + j` is made, for a loop
that starts at index `attempt` with the history `history`. -/
def selectHistory (token torrentID : String) (retryDelay : Int) (history : List Call)
    (attempt j : Nat) : List Call :=
  history ++ selectEvents token torrentID retryDelay attempt j ++
    (if attempt + j > 0 then [Call.TimerWait retryDelay] else [])

/-- The error a failed `SelectFilesAll` returns in the examples. -/
def selectError : GoError :=
  GoError.wrapped "POST /torrents/selectFiles/new-id-b failed after retries: status=503"
    (GoError.retryErr (GoError.plain "status=503"))

/-- A variant of `fakeAPI` whose first `failures` calls of `SelectFilesAll`
fail. -/
def flakySelectAPI (failures : Nat) (src dst : List Torrent) : API :=
  { fakeAPI src dst with
    SelectFilesAll := fun calls _ _ =>
      if (calls.filter Call.isSelect).length < failures then some selectError else none }

/-- The environment `testEnv` around `flakySelectAPI`. -/
def flakySelectEnv (failures : Nat) (src dst : List Torrent) : Env :=
  { testEnv src dst with api := flakySelectAPI failures src dst }

/-- The environment `flakySelectEnv` with a context that is done as soon as
one `SelectFilesAll` call has been made. -/
def cancelledAfterSelectEnv (failures : Nat) (src dst : List Torrent) : Env :=
  { flakySelectEnv failures src dst with
    ctxSleep := fun calls _ =>
      if calls.any Call.isSelect then some (GoError.ctx "context canceled") else none }

/-- The default client configuration with the largest duration as jitter
bound (`RETRY_MAX_JITTER=9223372036854775807ns`). -/
def largestJitterConfig : ClientConfig := { defaultClientConfig with RetryMaxJitter := maxInt64 }

/-- The default client configuration with `MAX_RETRIES` at 0. -/
def noRetriesConfig : ClientConfig := { defaultClientConfig with MaxRetries := 0 }

/-- The body of a creation response whose `id` decodes and whose `uri` is a
number: the decoding fails after it has written the id. -/
def badUriBody : String := "\x7b\"id\":\"X\",\"uri\":5\x7d"

/-- The body of a creation response without an `id`. -/
def noIdBody : String := "\x7b\"uri\":\"u\"\x7d"

/-- A server that answers the first request with `badUriBody` and every later
one with `noIdBody`, both with status 200.  The decoder writes the fields a
body holds into `out` and leaves the others as they are, as
`json.Decoder.Decode` does. -/
def staleIdEnv : ClientEnv where
  retry := calmRetryEnv
  newRequest := fun _ _ => none
  httpDo := fun attempt _ => Except.ok ⟨200, if attempt = 1 then badUriBody else noIdBody⟩
  decodeAddMagnet := fun body out =>
    if body = badUriBody then
      (some (GoError.plain ("json: cannot unmarshal number into Go struct field " ++
        "addMagnetResponse.uri of type string")), { out with ID := "X" })
    else if body = noIdBody then (none, { out with URI := "u" })
    else (some (GoError.plain "unexpected end of JSON input"), out)

/-! # Properties

## The string order and `sort.Strings` -/

theorem char_lt_iff (x y : Char) : x < y ↔ x.toNat < y.toNat := Iff.rfl

theorem char_eq_of_toNat_eq (x y : Char) (h : x.toNat = y.toNat) : x = y := by
  apply Char.ext
  apply UInt32.ext
  exact h

theorem charsLe_iff_not_lt (a b : List Char) : charsLe a b = true ↔ ¬ b < a := by
  induction a generalizing b with
  | nil =>
    simp only [charsLe, true_iff]
    intro h; cases h
  | cons x xs ih =>
    cases b with
    | nil =>
      simp only [charsLe, Bool.false_eq_true, false_iff, not_not]
      exact List.Lex.nil
    | cons y ys =>
      simp only [charsLe]
      by_cases h1 : x.toNat < y.toNat
      · simp only [h1, if_true, true_iff]
        intro h
        cases h with
        | rel h => exact absurd ((char_lt_iff y x).1 h) (by omega)
        | cons h => omega
      · by_cases h2 : y.toNat < x.toNat
        · simp only [h1, h2, if_true, if_false, Bool.false_eq_true, false_iff, not_not]
          exact List.Lex.rel ((char_lt_iff y x).2 h2)
        · simp only [h1, h2, if_false]
          rw [ih ys]
          have hxy : x = y := char_eq_of_toNat_eq x y (by omega)
          subst hxy
          constructor
          · intro h h'
            cases h' with
            | rel h' => exact h2 ((char_lt_iff _ _).1 h')
            | cons h' => exact h h'
          · intro h h'
            exact h (List.Lex.cons h')

theorem strLe_iff_le (a b : String) : strLe a b = true ↔ a ≤ b := by
  unfold strLe
  rw [charsLe_iff_not_lt, ← not_lt]
  exact not_congr String.lt_iff_toList_lt.symm

theorem strLt_iff_lt (a b : String) : strLt a b = true ↔ a < b := by
  unfold strLt
  simp only [Bool.and_eq_true, Bool.not_eq_true', ← Bool.not_eq_true, strLe_iff_le]
  constructor
  · rintro ⟨_, h⟩; exact not_le.1 h
  · intro h; exact ⟨le_of_lt h, not_le.2 h⟩

instance strLe_isTotal : IsTotal String (fun a b => strLe a b = true) :=
  ⟨fun a b => by simp only [strLe_iff_le]; exact le_total a b⟩

instance strLe_isTrans : IsTrans String (fun a b => strLe a b = true) :=
  ⟨fun a b c => by simp only [strLe_iff_le]; exact le_trans⟩

theorem sortStrings_perm (l : List String) : (sortStrings l).Perm l :=
  List.perm_insertionSort _ l

theorem sortStrings_sorted_le (l : List String) : (sortStrings l).Sorted (· ≤ ·) := by
  have h := List.sorted_insertionSort (fun a b => strLe a b = true) l
  exact List.Pairwise.imp (fun h => (strLe_iff_le _ _).1 h) h

theorem sortStrings_sorted_lt (l : List String) (hl : l.Nodup) :
    (sortStrings l).Sorted (· < ·) :=
  (sortStrings_sorted_le l).lt_of_le ((sortStrings_perm l).nodup_iff.2 hl)

theorem mem_sortStrings (l : List String) (h : String) : h ∈ sortStrings l ↔ h ∈ l :=
  (sortStrings_perm l).mem_iff

theorem length_sortStrings (l : List String) : (sortStrings l).length = l.length :=
  (sortStrings_perm l).length_eq

/-! ## The lookup maps -/

theorem GoMap.mem_keys_set (m : GoMap) (k : String) (v : Torrent) (k' : String) :
    k' ∈ GoMap.keys (GoMap.set m k v) ↔ k' = k ∨ k' ∈ GoMap.keys m := by
  induction m with
  | nil => simp [GoMap.set, GoMap.keys]
  | cons e rest ih =>
    obtain ⟨a, b⟩ := e
    simp only [GoMap.keys] at ih
    by_cases h : a = k
    · subst h
      simp [GoMap.set, GoMap.keys]
    · simp only [GoMap.set, h, if_false, GoMap.keys, List.map_cons, List.mem_cons, ih]
      tauto

theorem GoMap.nodup_keys_set (m : GoMap) (k : String) (v : Torrent)
    (hm : (GoMap.keys m).Nodup) : (GoMap.keys (GoMap.set m k v)).Nodup := by
  induction m with
  | nil => simp [GoMap.set, GoMap.keys]
  | cons e rest ih =>
    obtain ⟨a, b⟩ := e
    have hm' : a ∉ GoMap.keys rest ∧ (GoMap.keys rest).Nodup := by
      simpa [GoMap.keys] using hm
    by_cases h : a = k
    · subst h
      simpa [GoMap.set, GoMap.keys] using hm
    · have hmem := GoMap.mem_keys_set rest k v a
      have : a ∉ GoMap.keys (GoMap.set rest k v) := by
        rw [hmem]; tauto
      have ih' := ih hm'.2
      simp only [GoMap.set, h, if_false]
      simp only [GoMap.keys, List.map_cons, List.nodup_cons] at this ih' ⊢
      exact ⟨this, ih'⟩

theorem GoMap.get?_set (m : GoMap) (k : String) (v : Torrent) (k' : String) :
    GoMap.get? (GoMap.set m k v) k' = if k = k' then some v else GoMap.get? m k' := by
  induction m with
  | nil => simp [GoMap.set, GoMap.get?]
  | cons e rest ih =>
    obtain ⟨a, b⟩ := e
    by_cases h : a = k
    · subst h
      simp only [GoMap.set, if_true, GoMap.get?]
      by_cases h2 : a = k' <;> simp [h2]
    · simp only [GoMap.set, h, if_false, GoMap.get?, ih]
      by_cases h2 : a = k'
      · subst h2
        have : ¬ k = a := fun h' => h h'.symm
        simp [this]
      · simp [h2]

theorem GoMap.get?_isSome_iff (m : GoMap) (k : String) :
    (GoMap.get? m k).isSome = true ↔ k ∈ GoMap.keys m := by
  induction m with
  | nil => simp [GoMap.get?, GoMap.keys]
  | cons e rest ih =>
    obtain ⟨a, b⟩ := e
    simp only [GoMap.keys] at ih
    by_cases h : a = k
    · simp [GoMap.get?, GoMap.keys, h]
    · have h' : ¬ k = a := fun h' => h h'.symm
      simp [GoMap.get?, GoMap.keys, h, h', ih]

theorem GoMap.contains_iff (m : GoMap) (k : String) :
    GoMap.contains m k = true ↔ k ∈ GoMap.keys m :=
  GoMap.get?_isSome_iff m k

theorem GoMap.get?_of_mem (m : GoMap) (hm : (GoMap.keys m).Nodup) (k : String) (v : Torrent)
    (h : (k, v) ∈ m) : GoMap.get? m k = some v := by
  induction m with
  | nil => simp at h
  | cons e rest ih =>
    obtain ⟨a, b⟩ := e
    have hm' : a ∉ GoMap.keys rest ∧ (GoMap.keys rest).Nodup := by
      simpa [GoMap.keys] using hm
    rcases List.mem_cons.1 h with h | h
    · cases h
      simp [GoMap.get?]
    · have hk : k ∈ GoMap.keys rest := List.mem_map_of_mem Prod.fst h
      have hne : ¬ a = k := fun h' => hm'.1 (h' ▸ hk)
      simp only [GoMap.get?, hne, if_false]
      exact ih hm'.2 h

theorem indexDst_mem_keys (l : List Torrent) (m : GoMap) (h : String) :
    h ∈ GoMap.keys (indexDst l m) ↔
      h ∈ GoMap.keys m ∨ (h ≠ "" ∧ ∃ t ∈ l, normalizeHash t.Hash = h) := by
  induction l generalizing m with
  | nil => simp [indexDst]
  | cons t rest ih =>
    simp only [indexDst]
    by_cases hk : normalizeHash t.Hash = ""
    · simp only [hk, if_true, ih, List.mem_cons, exists_eq_or_imp]
      constructor
      · rintro (h1 | ⟨h1, h2⟩)
        · exact Or.inl h1
        · exact Or.inr ⟨h1, Or.inr h2⟩
      · rintro (h1 | ⟨h1, h2 | h2⟩)
        · exact Or.inl h1
        · exact absurd h2.symm h1
        · exact Or.inr ⟨h1, h2⟩
    · simp only [hk, if_false, ih, GoMap.mem_keys_set, List.mem_cons, exists_eq_or_imp]
      constructor
      · rintro ((h1 | h1) | ⟨h1, h2⟩)
        · exact Or.inr ⟨fun e => hk (h1.symm.trans e), Or.inl h1.symm⟩
        · exact Or.inl h1
        · exact Or.inr ⟨h1, Or.inr h2⟩
      · rintro (h1 | ⟨h1, h2 | h2⟩)
        · exact Or.inl (Or.inr h1)
        · exact Or.inl (Or.inl h2.symm)
        · exact Or.inr ⟨h1, h2⟩

theorem indexDst_nodup (l : List Torrent) (m : GoMap) (hm : (GoMap.keys m).Nodup) :
    (GoMap.keys (indexDst l m)).Nodup := by
  induction l generalizing m with
  | nil => simpa [indexDst] using hm
  | cons t rest ih =>
    simp only [indexDst]
    split_ifs
    · exact ih m hm
    · exact ih _ (GoMap.nodup_keys_set m _ t hm)

theorem lastWithKey_cons (t : Torrent) (rest : List Torrent) (h : String) :
    lastWithKey (t :: rest) h =
      if normalizeHash t.Hash = h then some ((lastWithKey rest h).getD t)
      else lastWithKey rest h := by
  unfold lastWithKey
  by_cases hk : normalizeHash t.Hash = h
  · simp [List.filter_cons, hk, List.getLast?_cons]
  · simp [List.filter_cons, hk]

theorem indexDst_get? (l : List Torrent) (m : GoMap) (h : String) (hh : h ≠ "") :
    GoMap.get? (indexDst l m) h =
      match lastWithKey l h with
      | some t => some t
      | none => GoMap.get? m h := by
  induction l generalizing m with
  | nil => simp [indexDst, lastWithKey]
  | cons t rest ih =>
    simp only [indexDst, lastWithKey_cons]
    by_cases hk : normalizeHash t.Hash = ""
    · have hne : ¬ normalizeHash t.Hash = h := fun h' => hh (h'.symm.trans hk)
      simp only [hk, if_true, ih]
      rw [hk] at hne
      simp only [hne, if_false]
    · simp only [hk, if_false, ih, GoMap.get?_set]
      by_cases hk2 : normalizeHash t.Hash = h
      · simp only [hk2, if_true]
        cases lastWithKey rest h <;> simp
      · simp only [hk2, if_false]

theorem indexSrc_snd (l : List Torrent) (st : Stats) (m : GoMap) :
    (indexSrc l st m).2 = indexDst l m := by
  induction l generalizing st m with
  | nil => rfl
  | cons t rest ih =>
    simp only [indexSrc, indexDst]
    split_ifs
    · exact ih _ _
    · exact ih _ _

theorem indexSrc_fst (l : List Torrent) (st : Stats) (m : GoMap) :
    (indexSrc l st m).1 =
      { st with SkippedBadSrc :=
          st.SkippedBadSrc + (l.filter (fun t => normalizeHash t.Hash = "")).length } := by
  induction l generalizing st m with
  | nil => rfl
  | cons t rest ih =>
    simp only [indexSrc]
    by_cases hk : normalizeHash t.Hash = ""
    · simp only [hk, if_true, ih, List.filter_cons, decide_True, List.length_cons]
      congr 1
      omega
    · simp only [hk, if_false, ih, List.filter_cons, decide_False]
      simp

theorem snapshotKeys_nodup (l : List Torrent) : (snapshotKeys l).Nodup :=
  List.nodup_dedup _

theorem mem_snapshotKeys (l : List Torrent) (h : String) :
    h ∈ snapshotKeys l ↔ h ≠ "" ∧ ∃ t ∈ l, normalizeHash t.Hash = h := by
  simp only [snapshotKeys, List.mem_dedup, List.mem_filter, List.mem_map, decide_eq_true_eq]
  tauto

theorem indexDst_keys_perm (l : List Torrent) :
    (GoMap.keys (indexDst l [])).Perm (snapshotKeys l) := by
  rw [List.perm_ext_iff_of_nodup (indexDst_nodup l [] (by simp [GoMap.keys]))
    (snapshotKeys_nodup l)]
  intro h
  rw [indexDst_mem_keys, mem_snapshotKeys]
  simp [GoMap.keys]

/-! ## The diff -/

theorem collectNeedAdd_eq (dstByHash m : GoMap) (acc : List String) :
    collectNeedAdd dstByHash m acc =
      acc ++ (GoMap.keys m).filter (fun h => !GoMap.contains dstByHash h) := by
  induction m generalizing acc with
  | nil => simp [collectNeedAdd, GoMap.keys]
  | cons e rest ih =>
    obtain ⟨a, b⟩ := e
    simp only [GoMap.keys] at ih
    simp only [collectNeedAdd, GoMap.keys, List.map_cons, List.filter_cons]
    by_cases h : GoMap.contains dstByHash a = true
    · simp [h, ih]
    · simp [h, ih]

theorem collectNeedDelete_snd (srcByHash : GoMap) (protectRe : Option Regexp) (m : GoMap)
    (st : Stats) (acc : List String) :
    (collectNeedDelete srcByHash protectRe m st acc).2 =
      acc ++ (m.filter (fun e =>
        !GoMap.contains srcByHash e.1 && !isProtected protectRe e.2.Filename)).map Prod.fst := by
  induction m generalizing st acc with
  | nil => simp [collectNeedDelete]
  | cons e rest ih =>
    obtain ⟨a, b⟩ := e
    simp only [collectNeedDelete, List.filter_cons]
    by_cases h : GoMap.contains srcByHash a = true
    · simp [h, ih]
    · by_cases h2 : isProtected protectRe b.Filename = true
      · simp [h, h2, ih]
      · simp [h, h2, ih]

theorem collectNeedDelete_fst (srcByHash : GoMap) (protectRe : Option Regexp) (m : GoMap)
    (st : Stats) (acc : List String) :
    (collectNeedDelete srcByHash protectRe m st acc).1 =
      { st with ProtectedDst := st.ProtectedDst + ((m.filter (fun e =>
        !GoMap.contains srcByHash e.1 && isProtected protectRe e.2.Filename)).map
          Prod.fst).length } := by
  induction m generalizing st acc with
  | nil => simp [collectNeedDelete]
  | cons e rest ih =>
    obtain ⟨a, b⟩ := e
    simp only [collectNeedDelete, List.filter_cons]
    by_cases h : GoMap.contains srcByHash a = true
    · simp [h, ih]
    · by_cases h2 : isProtected protectRe b.Filename = true
      · simp only [h, h2, if_true, if_false, ih, Bool.false_eq_true, Bool.not_false,
          Bool.and_self, List.map_cons, List.length_cons]
        congr 1
        omega
      · simp [h, h2, ih]

theorem GoMap.get_of_mem (m : GoMap) (hm : (GoMap.keys m).Nodup) (k : String) (v : Torrent)
    (h : (k, v) ∈ m) : GoMap.get m k = v := by
  simp [GoMap.get, GoMap.get?_of_mem m hm k v h]

theorem GoMap.filter_entries (m : GoMap) (hm : (GoMap.keys m).Nodup)
    (q : String → Torrent → Bool) :
    (m.filter (fun e => q e.1 e.2)).map Prod.fst =
      (GoMap.keys m).filter (fun h => q h (GoMap.get m h)) := by
  have key : ∀ l : GoMap, (∀ e ∈ l, e ∈ m) →
      (l.filter (fun e => q e.1 e.2)).map Prod.fst =
        (l.map Prod.fst).filter (fun h => q h (GoMap.get m h)) := by
    intro l
    induction l with
    | nil => intro _; rfl
    | cons e rest ih =>
      intro hl
      obtain ⟨a, b⟩ := e
      have hab : GoMap.get m a = b := GoMap.get_of_mem m hm a b (hl _ (List.mem_cons_self _ _))
      have ih' := ih (fun e he => hl e (List.mem_cons_of_mem _ he))
      simp only [List.filter_cons, List.map_cons, hab]
      by_cases hq : q a b = true
      · simp [hq, ih']
      · simp [hq, ih']
  exact key m (fun _ he => he)

theorem lastWithKey_eq_some_mem (l : List Torrent) (h : String) (t : Torrent)
    (ht : lastWithKey l h = some t) : t ∈ l ∧ normalizeHash t.Hash = h := by
  unfold lastWithKey at ht
  have := List.mem_of_getLast?_eq_some ht
  simpa using this

theorem lastWithKey_isSome (l : List Torrent) (h : String) :
    (∃ t, lastWithKey l h = some t) ↔ ∃ t ∈ l, normalizeHash t.Hash = h := by
  constructor
  · rintro ⟨t, ht⟩
    exact ⟨t, lastWithKey_eq_some_mem l h t ht⟩
  · rintro ⟨t, ht, hk⟩
    unfold lastWithKey
    have hne : l.filter (fun t => decide (normalizeHash t.Hash = h)) ≠ [] := by
      intro he
      have : t ∈ l.filter (fun t => decide (normalizeHash t.Hash = h)) := by
        simp [List.mem_filter, ht, hk]
      rw [he] at this
      exact absurd this (List.not_mem_nil _)
    cases hx : (l.filter (fun t => decide (normalizeHash t.Hash = h))).getLast? with
    | none => exact absurd (List.getLast?_eq_none_iff.1 hx) hne
    | some x => exact ⟨x, rfl⟩

theorem indexDst_get?_nil (l : List Torrent) (h : String) (hh : h ≠ "") :
    GoMap.get? (indexDst l []) h = lastWithKey l h := by
  rw [indexDst_get? l [] h hh]
  cases lastWithKey l h <;> simp [GoMap.get?]

theorem mem_needAddOf (src dst : List Torrent) (h : String) :
    h ∈ needAddOf src dst ↔
      h ≠ "" ∧ (∃ s ∈ src, normalizeHash s.Hash = h) ∧
        ¬ ∃ d ∈ dst, normalizeHash d.Hash = h := by
  unfold needAddOf
  rw [mem_sortStrings, collectNeedAdd_eq, indexSrc_snd, List.nil_append, List.mem_filter,
    indexDst_mem_keys]
  have hd : (!GoMap.contains (indexDst dst []) h) = true ↔
      ¬ (h ≠ "" ∧ ∃ d ∈ dst, normalizeHash d.Hash = h) := by
    rw [Bool.not_eq_true', ← Bool.not_eq_true, GoMap.contains_iff, indexDst_mem_keys]
    simp [GoMap.keys]
  constructor
  · rintro ⟨h1 | h1, h2⟩
    · simp [GoMap.keys] at h1
    · exact ⟨h1.1, h1.2, fun hx => hd.1 h2 ⟨h1.1, hx⟩⟩
  · rintro ⟨h1, h2, h3⟩
    exact ⟨Or.inr ⟨h1, h2⟩, hd.2 (fun hx => h3 hx.2)⟩

theorem needAddOf_nodup (src dst : List Torrent) : (needAddOf src dst).Nodup := by
  unfold needAddOf
  rw [(sortStrings_perm _).nodup_iff, collectNeedAdd_eq, indexSrc_snd, List.nil_append]
  exact (indexDst_nodup src [] (by simp [GoMap.keys])).filter _

theorem needAddOf_sorted (src dst : List Torrent) : (needAddOf src dst).Sorted (· < ·) := by
  have h := needAddOf_nodup src dst
  unfold needAddOf at h ⊢
  exact sortStrings_sorted_lt _ ((sortStrings_perm _).nodup_iff.1 h)

theorem needDelete_raw_eq (protectRe : Option Regexp) (src dst : List Torrent) (st : Stats) :
    (collectNeedDelete (indexDst src []) protectRe (indexDst dst []) st []).2 =
      (GoMap.keys (indexDst dst [])).filter (fun h =>
        !GoMap.contains (indexDst src []) h &&
          !isProtected protectRe (GoMap.get (indexDst dst []) h).Filename) := by
  rw [collectNeedDelete_snd, List.nil_append]
  exact GoMap.filter_entries (indexDst dst []) (indexDst_nodup dst [] (by simp [GoMap.keys]))
    (fun h t => !GoMap.contains (indexDst src []) h && !isProtected protectRe t.Filename)

theorem protected_raw_eq (protectRe : Option Regexp) (src dst : List Torrent) (st : Stats) :
    (collectNeedDelete (indexDst src []) protectRe (indexDst dst []) st []).1 =
      { st with ProtectedDst := st.ProtectedDst +
        ((GoMap.keys (indexDst dst [])).filter (fun h =>
          !GoMap.contains (indexDst src []) h &&
            isProtected protectRe (GoMap.get (indexDst dst []) h).Filename)).length } := by
  rw [collectNeedDelete_fst]
  rw [GoMap.filter_entries (indexDst dst []) (indexDst_nodup dst [] (by simp [GoMap.keys]))
    (fun h t => !GoMap.contains (indexDst src []) h && isProtected protectRe t.Filename)]

theorem isProtected_get (protectRe : Option Regexp) (dst : List Torrent) (h : String)
    (hh : h ∈ GoMap.keys (indexDst dst [])) :
    isProtected protectRe (GoMap.get (indexDst dst []) h).Filename =
      protectedKey protectRe dst h := by
  have hne : h ≠ "" := by
    rw [indexDst_mem_keys] at hh
    rcases hh with hh | hh
    · simp [GoMap.keys] at hh
    · exact hh.1
  have hs := (GoMap.get?_isSome_iff _ _).2 hh
  unfold GoMap.get protectedKey
  rw [indexDst_get?_nil dst h hne] at hs ⊢
  cases hl : lastWithKey dst h with
  | none => rw [hl] at hs; simp at hs
  | some t => simp

theorem contains_indexDst (l : List Torrent) (h : String) :
    GoMap.contains (indexDst l []) h = true ↔ h ∈ snapshotKeys l := by
  rw [GoMap.contains_iff]
  exact (indexDst_keys_perm l).mem_iff

theorem needDelete_raw_perm (protectRe : Option Regexp) (src dst : List Torrent) (st : Stats) :
    ((collectNeedDelete (indexDst src []) protectRe (indexDst dst []) st []).2).Perm
      ((dstOnlyKeys src dst).filter (fun h => !protectedKey protectRe dst h)) := by
  rw [needDelete_raw_eq]
  unfold dstOnlyKeys
  rw [List.filter_filter]
  refine List.Perm.trans ?_ ((indexDst_keys_perm dst).filter _)
  apply List.Perm.of_eq
  apply List.filter_congr
  intro h hh
  rw [isProtected_get protectRe dst h hh]
  by_cases hc : h ∈ snapshotKeys src
  · simp [hc, (contains_indexDst src h).2 hc]
  · have : GoMap.contains (indexDst src []) h = false := by
      rw [← Bool.not_eq_true, contains_indexDst]; exact hc
    simp [hc, this]

theorem protected_raw_count (protectRe : Option Regexp) (src dst : List Torrent) :
    ((GoMap.keys (indexDst dst [])).filter (fun h =>
        !GoMap.contains (indexDst src []) h &&
          isProtected protectRe (GoMap.get (indexDst dst []) h).Filename)).length =
      ((dstOnlyKeys src dst).filter (fun h => protectedKey protectRe dst h)).length := by
  apply List.Perm.length_eq
  unfold dstOnlyKeys
  rw [List.filter_filter]
  refine List.Perm.trans ?_ ((indexDst_keys_perm dst).filter _)
  apply List.Perm.of_eq
  apply List.filter_congr
  intro h hh
  rw [isProtected_get protectRe dst h hh]
  by_cases hc : h ∈ snapshotKeys src
  · simp [hc, (contains_indexDst src h).2 hc]
  · have : GoMap.contains (indexDst src []) h = false := by
      rw [← Bool.not_eq_true, contains_indexDst]; exact hc
    simp [hc, this]

/-! ## The apply loops: what they call and which counters they touch -/

theorem selectFilesLoop_calls (env : Env) (token torrentID : String)
    (maxAttempts retryDelay : Int) (remaining attempt : Nat) (lastErr : Option GoError)
    (calls : List Call) :
    ∃ extra, (selectFilesLoop env token torrentID maxAttempts retryDelay remaining attempt
        lastErr calls).2 = calls ++ extra ∧
      ∀ c ∈ extra, c.addedHash = none ∧ c.isDelete = false ∧ c.isList = false := by
  induction remaining generalizing attempt lastErr calls with
  | zero => exact ⟨[], by simp [selectFilesLoop], by simp⟩
  | succ n ih =>
    simp only [selectFilesLoop]
    by_cases ha : attempt > 0
    · simp only [ha, if_true]
      cases hs : env.ctxSleep calls retryDelay with
      | some err =>
        exact ⟨[Call.TimerWait retryDelay], rfl, by simp [Call.addedHash, Call.isDelete, Call.isList]⟩
      | none =>
        simp only []
        cases hx : env.api.SelectFilesAll (calls ++ [Call.TimerWait retryDelay]) token torrentID with
        | none =>
          exact ⟨[Call.TimerWait retryDelay, Call.SelectFilesAll token torrentID], by simp,
            by simp [Call.addedHash, Call.isDelete, Call.isList]⟩
        | some e =>
          simp only []
          obtain ⟨extra, h1, h2⟩ := ih (attempt + 1) (some e)
            (calls ++ [Call.TimerWait retryDelay] ++ [Call.SelectFilesAll token torrentID])
          refine ⟨Call.TimerWait retryDelay :: Call.SelectFilesAll token torrentID :: extra,
            by rw [h1]; simp, ?_⟩
          intro c hc
          rcases List.mem_cons.1 hc with hc | hc
          · subst hc; simp [Call.addedHash, Call.isDelete, Call.isList]
          rcases List.mem_cons.1 hc with hc | hc
          · subst hc; simp [Call.addedHash, Call.isDelete, Call.isList]
          · exact h2 c hc
    · simp only [ha, if_false]
      cases hx : env.api.SelectFilesAll calls token torrentID with
      | none =>
        exact ⟨[Call.SelectFilesAll token torrentID], by simp,
          by simp [Call.addedHash, Call.isDelete, Call.isList]⟩
      | some e =>
        simp only []
        obtain ⟨extra, h1, h2⟩ := ih (attempt + 1) (some e)
          (calls ++ [Call.SelectFilesAll token torrentID])
        refine ⟨Call.SelectFilesAll token torrentID :: extra, by rw [h1]; simp, ?_⟩
        intro c hc
        rcases List.mem_cons.1 hc with hc | hc
        · subst hc; simp [Call.addedHash, Call.isDelete, Call.isList]
        · exact h2 c hc

theorem selectFilesWithRetry_calls (env : Env) (token torrentID : String)
    (initialDelay maxAttempts retryDelay : Int) (calls : List Call) :
    ∃ extra, (selectFilesWithRetry env token torrentID initialDelay maxAttempts retryDelay
        calls).2 = calls ++ extra ∧
      ∀ c ∈ extra, c.addedHash = none ∧ c.isDelete = false ∧ c.isList = false := by
  unfold selectFilesWithRetry
  cases hs : env.ctxSleep calls initialDelay with
  | some err =>
    exact ⟨[Call.TimerWait initialDelay], rfl, by simp [Call.addedHash, Call.isDelete, Call.isList]⟩
  | none =>
    simp only []
    obtain ⟨extra, h1, h2⟩ := selectFilesLoop_calls env token torrentID maxAttempts retryDelay
      maxAttempts.toNat 0 none (calls ++ [Call.TimerWait initialDelay])
    refine ⟨Call.TimerWait initialDelay :: extra, by rw [h1]; simp, ?_⟩
    intro c hc
    rcases List.mem_cons.1 hc with hc | hc
    · subst hc; simp [Call.addedHash, Call.isDelete, Call.isList]
    · exact h2 c hc

theorem writeDelay_calls (cfg : RunnerConfig) (calls : List Call) :
    ∃ extra, writeDelay cfg calls = calls ++ extra ∧
      ∀ c ∈ extra, c.addedHash = none ∧ c.deletedID = none ∧ c.isAdd = false ∧
        c.isSelect = false ∧ c.isDelete = false ∧ c.isList = false := by
  unfold writeDelay
  split_ifs
  · exact ⟨[Call.Sleep cfg.WriteDelay], rfl, by
      simp [Call.addedHash, Call.deletedID, Call.isAdd, Call.isSelect, Call.isDelete, Call.isList]⟩
  · exact ⟨[], by simp, by simp⟩

theorem applyAdds_dryRun (env : Env) (cfg : RunnerConfig) (hd : cfg.DryRun = true)
    (l : List String) (st : Stats) (calls : List Call) :
    applyAdds env cfg l st calls = (st, calls) := by
  induction l generalizing st calls with
  | nil => rfl
  | cons h rest ih => simp only [applyAdds, hd, if_true, ih]

theorem applyDeletes_dryRun (env : Env) (cfg : RunnerConfig) (dstByHash : GoMap)
    (hd : cfg.DryRun = true) (l : List String) (st : Stats) (calls : List Call) :
    applyDeletes env cfg dstByHash l st calls = (st, calls) := by
  induction l generalizing st calls with
  | nil => rfl
  | cons h rest ih => simp only [applyDeletes, hd, if_true, ih]

theorem applyAdds_calls (env : Env) (cfg : RunnerConfig) (l : List String) (st : Stats)
    (calls : List Call) :
    ∃ extra, (applyAdds env cfg l st calls).2 = calls ++ extra ∧
      (∀ c ∈ extra, c.isDelete = false ∧ c.isList = false) ∧
      (cfg.DryRun = false → extra.filterMap Call.addedHash = l) := by
  induction l generalizing st calls with
  | nil => exact ⟨[], by simp [applyAdds], by simp, by simp⟩
  | cons h rest ih =>
    by_cases hd : cfg.DryRun = true
    · rw [applyAdds_dryRun env cfg hd]
      exact ⟨[], by simp, by simp, by simp [hd]⟩
    · have hdf : cfg.DryRun = false := by simpa using hd
      simp only [applyAdds, hd, if_false, Bool.false_eq_true]
      cases ha : env.api.AddMagnetByHash calls cfg.DstToken h with
      | error e =>
        simp only []
        obtain ⟨extra, h1, h2, h3⟩ := ih { st with AddErrors := st.AddErrors + 1 }
          (calls ++ [Call.AddMagnetByHash cfg.DstToken h])
        refine ⟨Call.AddMagnetByHash cfg.DstToken h :: extra, by rw [h1]; simp, ?_, ?_⟩
        · intro c hc
          rcases List.mem_cons.1 hc with hc | hc
          · subst hc; simp [Call.isDelete, Call.isList]
          · exact h2 c hc
        · intro _
          simp [Call.addedHash, h3 hdf]
      | ok newID =>
        simp only []
        obtain ⟨sx, hs1, hs2⟩ := selectFilesWithRetry_calls env cfg.DstToken newID (2 * second)
          3 (3 * second) (calls ++ [Call.AddMagnetByHash cfg.DstToken h])
        have hsx : sx.filterMap Call.addedHash = [] := by
          rw [List.filterMap_eq_nil_iff]
          intro c hc; exact (hs2 c hc).1
        cases hsel : (selectFilesWithRetry env cfg.DstToken newID (2 * second) 3 (3 * second)
            (calls ++ [Call.AddMagnetByHash cfg.DstToken h])).1 with
        | some e =>
          simp only []
          obtain ⟨extra, h1, h2, h3⟩ := ih { st with AddErrors := st.AddErrors + 1 }
            (selectFilesWithRetry env cfg.DstToken newID (2 * second) 3 (3 * second)
              (calls ++ [Call.AddMagnetByHash cfg.DstToken h])).2
          refine ⟨Call.AddMagnetByHash cfg.DstToken h :: (sx ++ extra),
            by rw [h1, hs1]; simp, ?_, ?_⟩
          · intro c hc
            rcases List.mem_cons.1 hc with hc | hc
            · subst hc; simp [Call.isDelete, Call.isList]
            rcases List.mem_append.1 hc with hc | hc
            · exact (hs2 c hc).2
            · exact h2 c hc
          · intro _
            simp [Call.addedHash, h3 hdf, hsx]
        | none =>
          simp only []
          obtain ⟨wx, hw1, hw2⟩ := writeDelay_calls cfg
            (selectFilesWithRetry env cfg.DstToken newID (2 * second) 3 (3 * second)
              (calls ++ [Call.AddMagnetByHash cfg.DstToken h])).2
          have hwx : wx.filterMap Call.addedHash = [] := by
            rw [List.filterMap_eq_nil_iff]
            intro c hc; exact (hw2 c hc).1
          obtain ⟨extra, h1, h2, h3⟩ := ih { st with Added := st.Added + 1 }
            (writeDelay cfg (selectFilesWithRetry env cfg.DstToken newID (2 * second) 3
              (3 * second) (calls ++ [Call.AddMagnetByHash cfg.DstToken h])).2)
          refine ⟨Call.AddMagnetByHash cfg.DstToken h :: (sx ++ wx ++ extra),
            by rw [h1, hw1, hs1]; simp, ?_, ?_⟩
          · intro c hc
            rcases List.mem_cons.1 hc with hc | hc
            · subst hc; simp [Call.isDelete, Call.isList]
            rcases List.mem_append.1 hc with hc | hc
            · rcases List.mem_append.1 hc with hc | hc
              · exact (hs2 c hc).2
              · exact ⟨(hw2 c hc).2.2.2.2.1, (hw2 c hc).2.2.2.2.2⟩
            · exact h2 c hc
          · intro _
            simp [Call.addedHash, h3 hdf, hsx, hwx]

theorem applyAdds_stats (env : Env) (cfg : RunnerConfig) (l : List String) (st : Stats)
    (calls : List Call) :
    ∃ a e, (applyAdds env cfg l st calls).1 =
        { st with Added := st.Added + a, AddErrors := st.AddErrors + e } ∧
      (cfg.DryRun = false → a + e = l.length) := by
  induction l generalizing st calls with
  | nil => exact ⟨0, 0, by simp [applyAdds], by simp⟩
  | cons h rest ih =>
    by_cases hd : cfg.DryRun = true
    · rw [applyAdds_dryRun env cfg hd]
      exact ⟨0, 0, by simp, by simp [hd]⟩
    · have hdf : cfg.DryRun = false := by simpa using hd
      simp only [applyAdds, hd, if_false, Bool.false_eq_true]
      cases ha : env.api.AddMagnetByHash calls cfg.DstToken h with
      | error e =>
        simp only []
        obtain ⟨a, e, h1, h2⟩ := ih { st with AddErrors := st.AddErrors + 1 }
          (calls ++ [Call.AddMagnetByHash cfg.DstToken h])
        refine ⟨a, e + 1, ?_, fun _ => by have := h2 hdf; simp only [List.length_cons]; omega⟩
        rw [h1]; simp only [Stats.mk.injEq, true_and, and_true]; omega
      | ok newID =>
        simp only []
        cases hsel : (selectFilesWithRetry env cfg.DstToken newID (2 * second) 3 (3 * second)
            (calls ++ [Call.AddMagnetByHash cfg.DstToken h])).1 with
        | some e =>
          simp only []
          obtain ⟨a, e, h1, h2⟩ := ih { st with AddErrors := st.AddErrors + 1 }
            (selectFilesWithRetry env cfg.DstToken newID (2 * second) 3 (3 * second)
              (calls ++ [Call.AddMagnetByHash cfg.DstToken h])).2
          refine ⟨a, e + 1, ?_, fun _ => by have := h2 hdf; simp only [List.length_cons]; omega⟩
          rw [h1]; simp only [Stats.mk.injEq, true_and, and_true]; omega
        | none =>
          simp only []
          obtain ⟨a, e, h1, h2⟩ := ih { st with Added := st.Added + 1 }
            (writeDelay cfg (selectFilesWithRetry env cfg.DstToken newID (2 * second) 3
              (3 * second) (calls ++ [Call.AddMagnetByHash cfg.DstToken h])).2)
          refine ⟨a + 1, e, ?_, fun _ => by have := h2 hdf; simp only [List.length_cons]; omega⟩
          rw [h1]; simp only [Stats.mk.injEq, true_and, and_true]; omega

theorem applyDeletes_calls (env : Env) (cfg : RunnerConfig) (dstByHash : GoMap)
    (l : List String) (st : Stats) (calls : List Call) :
    ∃ extra, (applyDeletes env cfg dstByHash l st calls).2 = calls ++ extra ∧
      ∀ c ∈ extra, c.isAdd = false ∧ c.isSelect = false ∧ c.isList = false := by
  induction l generalizing st calls with
  | nil => exact ⟨[], by simp [applyDeletes], by simp⟩
  | cons h rest ih =>
    by_cases hd : cfg.DryRun = true
    · rw [applyDeletes_dryRun env cfg dstByHash hd]
      exact ⟨[], by simp, by simp⟩
    · simp only [applyDeletes, hd, if_false, Bool.false_eq_true]
      by_cases hid : (GoMap.get dstByHash h).ID = ""
      · simp only [hid, if_true]
        exact ih _ _
      · simp only [hid, if_false]
        cases hx : env.api.DeleteTorrent calls cfg.DstToken (GoMap.get dstByHash h).ID with
        | some e =>
          simp only []
          obtain ⟨extra, h1, h2⟩ := ih { st with DeleteErrors := st.DeleteErrors + 1 }
            (calls ++ [Call.DeleteTorrent cfg.DstToken (GoMap.get dstByHash h).ID])
          refine ⟨Call.DeleteTorrent cfg.DstToken (GoMap.get dstByHash h).ID :: extra,
            by rw [h1]; simp, ?_⟩
          intro c hc
          rcases List.mem_cons.1 hc with hc | hc
          · subst hc; simp [Call.isAdd, Call.isSelect, Call.isList]
          · exact h2 c hc
        | none =>
          simp only []
          obtain ⟨wx, hw1, hw2⟩ := writeDelay_calls cfg
            (calls ++ [Call.DeleteTorrent cfg.DstToken (GoMap.get dstByHash h).ID])
          obtain ⟨extra, h1, h2⟩ := ih { st with Deleted := st.Deleted + 1 }
            (writeDelay cfg (calls ++ [Call.DeleteTorrent cfg.DstToken (GoMap.get dstByHash h).ID]))
          refine ⟨Call.DeleteTorrent cfg.DstToken (GoMap.get dstByHash h).ID :: (wx ++ extra),
            by rw [h1, hw1]; simp, ?_⟩
          intro c hc
          rcases List.mem_cons.1 hc with hc | hc
          · subst hc; simp [Call.isAdd, Call.isSelect, Call.isList]
          rcases List.mem_append.1 hc with hc | hc
          · exact ⟨(hw2 c hc).2.2.1, (hw2 c hc).2.2.2.1, (hw2 c hc).2.2.2.2.2⟩
          · exact h2 c hc

theorem applyDeletes_stats (env : Env) (cfg : RunnerConfig) (dstByHash : GoMap)
    (l : List String) (st : Stats) (calls : List Call) :
    ∃ d e, (applyDeletes env cfg dstByHash l st calls).1 =
        { st with Deleted := st.Deleted + d, DeleteErrors := st.DeleteErrors + e } ∧
      (cfg.DryRun = false → d + e = l.length) := by
  induction l generalizing st calls with
  | nil => exact ⟨0, 0, by simp [applyDeletes], by simp⟩
  | cons h rest ih =>
    by_cases hd : cfg.DryRun = true
    · rw [applyDeletes_dryRun env cfg dstByHash hd]
      exact ⟨0, 0, by simp, by simp [hd]⟩
    · have hdf : cfg.DryRun = false := by simpa using hd
      simp only [applyDeletes, hd, if_false, Bool.false_eq_true]
      by_cases hid : (GoMap.get dstByHash h).ID = ""
      · simp only [hid, if_true]
        obtain ⟨d, e, h1, h2⟩ := ih { st with DeleteErrors := st.DeleteErrors + 1 } calls
        refine ⟨d, e + 1, ?_, fun _ => by have := h2 hdf; simp only [List.length_cons]; omega⟩
        rw [h1]; simp only [Stats.mk.injEq, true_and, and_true]; omega
      · simp only [hid, if_false]
        cases hx : env.api.DeleteTorrent calls cfg.DstToken (GoMap.get dstByHash h).ID with
        | some e =>
          simp only []
          obtain ⟨d, e, h1, h2⟩ := ih { st with DeleteErrors := st.DeleteErrors + 1 }
            (calls ++ [Call.DeleteTorrent cfg.DstToken (GoMap.get dstByHash h).ID])
          refine ⟨d, e + 1, ?_, fun _ => by have := h2 hdf; simp only [List.length_cons]; omega⟩
          rw [h1]; simp only [Stats.mk.injEq, true_and, and_true]; omega
        | none =>
          simp only []
          obtain ⟨d, e, h1, h2⟩ := ih { st with Deleted := st.Deleted + 1 }
            (writeDelay cfg (calls ++ [Call.DeleteTorrent cfg.DstToken (GoMap.get dstByHash h).ID]))
          refine ⟨d + 1, e, ?_, fun _ => by have := h2 hdf; simp only [List.length_cons]; omega⟩
          rw [h1]; simp only [Stats.mk.injEq, true_and, and_true]; omega

/-! ## RunOnce, phase by phase -/

theorem needDeleteOf_eq (protectRe : Option Regexp) (src dst : List Torrent) (st : Stats) :
    sortStrings (collectNeedDelete (indexDst src []) protectRe (indexDst dst []) st []).2 =
      needDeleteOf protectRe src dst := by
  unfold needDeleteOf
  rw [indexSrc_snd, collectNeedDelete_snd, collectNeedDelete_snd]

theorem needAddOf_eq (src dst : List Torrent) :
    sortStrings (collectNeedAdd (indexDst dst []) (indexDst src []) []) = needAddOf src dst := by
  unfold needAddOf
  rw [indexSrc_snd]

theorem reconcile_eq (env : Env) (cfg : RunnerConfig) (protectRe : Option Regexp)
    (src dst : List Torrent) (st : Stats) (calls : List Call) :
    reconcile env cfg protectRe src dst st calls =
      ⟨{ (applyPhase env cfg protectRe src dst st calls).1 with
          FinishedAt := env.now (applyPhase env cfg protectRe src dst st calls).2 },
        none, (applyPhase env cfg protectRe src dst st calls).2⟩ := by
  unfold reconcile applyPhase diffStats
  by_cases hm : cfg.Mode = ModeMirrorDelete
  · simp only [hm, if_true, indexSrc_snd, indexSrc_fst, protected_raw_eq, protected_raw_count,
      needDeleteOf_eq, needAddOf_eq]
  · simp only [hm, if_false, indexSrc_snd, indexSrc_fst, needAddOf_eq, List.length_nil,
      Nat.add_zero]

theorem Call.addedHash_of_not_isAdd (c : Call) (h : c.isAdd = false) : c.addedHash = none := by
  cases c <;> simp_all [Call.isAdd, Call.addedHash]

theorem applyPhase_dryRun (env : Env) (cfg : RunnerConfig) (protectRe : Option Regexp)
    (src dst : List Torrent) (st : Stats) (calls : List Call) (hd : cfg.DryRun = true) :
    applyPhase env cfg protectRe src dst st calls = (diffStats cfg protectRe src dst st, calls) := by
  unfold applyPhase
  simp only [applyAdds_dryRun env cfg hd, applyDeletes_dryRun env cfg _ hd, ite_self]

theorem applyPhase_calls (env : Env) (cfg : RunnerConfig) (protectRe : Option Regexp)
    (src dst : List Torrent) (st : Stats) (calls : List Call) :
    ∃ extra, (applyPhase env cfg protectRe src dst st calls).2 = calls ++ extra ∧
      (∀ c ∈ extra, c.isList = false) ∧
      (cfg.Mode ≠ ModeMirrorDelete → ∀ c ∈ extra, c.isDelete = false) ∧
      (cfg.DryRun = false → extra.filterMap Call.addedHash = needAddOf src dst) := by
  obtain ⟨ax, ha1, ha2, ha3⟩ := applyAdds_calls env cfg (needAddOf src dst)
    (diffStats cfg protectRe src dst st) calls
  unfold applyPhase
  by_cases hm : cfg.Mode = ModeMirrorDelete
  · simp only [hm, if_true]
    obtain ⟨dx, hd1, hd2⟩ := applyDeletes_calls env cfg (indexDst dst [])
      (needDeleteOf protectRe src dst)
      (applyAdds env cfg (needAddOf src dst) (diffStats cfg protectRe src dst st) calls).1
      (applyAdds env cfg (needAddOf src dst) (diffStats cfg protectRe src dst st) calls).2
    have hdx : dx.filterMap Call.addedHash = [] := by
      rw [List.filterMap_eq_nil_iff]
      intro c hc; exact Call.addedHash_of_not_isAdd c (hd2 c hc).1
    refine ⟨ax ++ dx, by rw [hd1, ha1]; simp, ?_, fun h => absurd rfl h, ?_⟩
    · intro c hc
      rcases List.mem_append.1 hc with hc | hc
      · exact (ha2 c hc).2
      · exact (hd2 c hc).2.2
    · intro hdr
      rw [List.filterMap_append, hdx, ha3 hdr, List.append_nil]
  · simp only [hm, if_false]
    exact ⟨ax, ha1, fun c hc => (ha2 c hc).2, fun _ c hc => (ha2 c hc).1, ha3⟩

theorem applyPhase_stats (env : Env) (cfg : RunnerConfig) (protectRe : Option Regexp)
    (src dst : List Torrent) (st : Stats) (calls : List Call) :
    ∃ a ae d de, (applyPhase env cfg protectRe src dst st calls).1 =
        { diffStats cfg protectRe src dst st with
          Added := st.Added + a, AddErrors := st.AddErrors + ae,
          Deleted := st.Deleted + d, DeleteErrors := st.DeleteErrors + de } ∧
      (cfg.Mode ≠ ModeMirrorDelete → d = 0 ∧ de = 0) ∧
      (cfg.DryRun = false → a + ae = (needAddOf src dst).length) ∧
      (cfg.DryRun = false → cfg.Mode = ModeMirrorDelete →
        d + de = (needDeleteOf protectRe src dst).length) := by
  obtain ⟨a, ae, ha1, ha2⟩ := applyAdds_stats env cfg (needAddOf src dst)
    (diffStats cfg protectRe src dst st) calls
  unfold applyPhase
  by_cases hm : cfg.Mode = ModeMirrorDelete
  · simp only [hm, if_true]
    obtain ⟨d, de, hd1, hd2⟩ := applyDeletes_stats env cfg (indexDst dst [])
      (needDeleteOf protectRe src dst)
      (applyAdds env cfg (needAddOf src dst) (diffStats cfg protectRe src dst st) calls).1
      (applyAdds env cfg (needAddOf src dst) (diffStats cfg protectRe src dst st) calls).2
    refine ⟨a, ae, d, de, ?_, fun h => absurd rfl h, ha2, fun hdr _ => hd2 hdr⟩
    rw [hd1, ha1]
    simp [diffStats, hm]
  · simp only [hm, if_false]
    refine ⟨a, ae, 0, 0, ?_, fun _ => ⟨rfl, rfl⟩, ha2, fun _ h => h.elim⟩
    rw [ha1]
    simp [diffStats, hm]

theorem RunOnce_ok (env : Env) (cfg : RunnerConfig) (S D : List Torrent)
    (protectRe : Option Regexp)
    (hS : env.api.ListAllTorrents [] cfg.SrcToken = Except.ok S)
    (hD : env.api.ListAllTorrents [Call.ListAllTorrents cfg.SrcToken] cfg.DstToken =
      Except.ok D)
    (hP : compileProtect env cfg.ProtectDstRegex = Except.ok protectRe) :
    RunOnce env cfg =
      reconcile env cfg protectRe S D
        { StartedAt := env.now [], SourceCount := S.length, DestCount := D.length }
        [Call.ListAllTorrents cfg.SrcToken, Call.ListAllTorrents cfg.DstToken] := by
  unfold RunOnce
  simp only [hS, hD, hP]

/-! ## The claims -/

/-- C1. When both listings succeed (with snapshots `S` and `D`) and the run
reaches the diff, the keys `RunOnce` decides to add are exactly the non-empty
normalized hashes of `S` that are the normalized hash of no item of `D`; the
list holds each of them once and is strictly ascending in the lexicographic
order of strings; `Stats.NeedAdd` is its length; and in a run that is not a
dry run the hashes passed to `AddMagnetByHash` are this list, in this
order. -/
theorem needAdd_is_sorted_source_minus_destination (env : Env) (cfg : RunnerConfig)
    (S D : List Torrent) (protectRe : Option Regexp)
    (hS : env.api.ListAllTorrents [] cfg.SrcToken = Except.ok S)
    (hD : env.api.ListAllTorrents [Call.ListAllTorrents cfg.SrcToken] cfg.DstToken =
      Except.ok D)
    (hP : compileProtect env cfg.ProtectDstRegex = Except.ok protectRe) :
    (∀ h, h ∈ needAddOf S D ↔
      h ≠ "" ∧ (∃ s ∈ S, normalizeHash s.Hash = h) ∧ ¬ ∃ d ∈ D, normalizeHash d.Hash = h) ∧
    (needAddOf S D).Nodup ∧
    (needAddOf S D).Sorted (· < ·) ∧
    (RunOnce env cfg).stats.NeedAdd = (needAddOf S D).length ∧
    (cfg.DryRun = false →
      (RunOnce env cfg).calls.filterMap Call.addedHash = needAddOf S D) := by
  refine ⟨mem_needAddOf S D, needAddOf_nodup S D, needAddOf_sorted S D, ?_, ?_⟩
  · rw [RunOnce_ok env cfg S D protectRe hS hD hP, reconcile_eq]
    obtain ⟨a, ae, d, de, h1, _⟩ := applyPhase_stats env cfg protectRe S D
      { StartedAt := env.now [], SourceCount := S.length, DestCount := D.length }
      [Call.ListAllTorrents cfg.SrcToken, Call.ListAllTorrents cfg.DstToken]
    simp only [h1, diffStats]
  · intro hdr
    rw [RunOnce_ok env cfg S D protectRe hS hD hP, reconcile_eq]
    obtain ⟨extra, h1, _, _, h4⟩ := applyPhase_calls env cfg protectRe S D
      { StartedAt := env.now [], SourceCount := S.length, DestCount := D.length }
      [Call.ListAllTorrents cfg.SrcToken, Call.ListAllTorrents cfg.DstToken]
    simp only [h1]
    rw [List.filterMap_append, h4 hdr]
    simp [Call.addedHash]

/-- C1 at the snapshots of `TestRunOnceAddOnly`: source hashes "A" and "B",
destination hash "a"; the one key to add is "b". -/
theorem needAdd_is_sorted_source_minus_destination_witness :
    needAddOf addOnlySrc addOnlyDst = ["b"] ∧
    (∀ h, h ∈ needAddOf addOnlySrc addOnlyDst ↔
      h ≠ "" ∧ (∃ s ∈ addOnlySrc, normalizeHash s.Hash = h) ∧
        ¬ ∃ d ∈ addOnlyDst, normalizeHash d.Hash = h) ∧
    (needAddOf addOnlySrc addOnlyDst).Nodup ∧
    (needAddOf addOnlySrc addOnlyDst).Sorted (· < ·) ∧
    (RunOnce (testEnv addOnlySrc addOnlyDst) addOnlyCfg).stats.NeedAdd =
      (needAddOf addOnlySrc addOnlyDst).length ∧
    (addOnlyCfg.DryRun = false →
      (RunOnce (testEnv addOnlySrc addOnlyDst) addOnlyCfg).calls.filterMap Call.addedHash =
        needAddOf addOnlySrc addOnlyDst) :=
  ⟨by decide,
    needAdd_is_sorted_source_minus_destination (testEnv addOnlySrc addOnlyDst) addOnlyCfg
      addOnlySrc addOnlyDst none rfl rfl rfl⟩

theorem needDeleteOf_perm (protectRe : Option Regexp) (src dst : List Torrent) :
    (needDeleteOf protectRe src dst).Perm
      ((dstOnlyKeys src dst).filter (fun h => !protectedKey protectRe dst h)) := by
  rw [← needDeleteOf_eq protectRe src dst {}]
  exact (sortStrings_perm _).trans (needDelete_raw_perm protectRe src dst {})

theorem dstOnlyKeys_nodup (src dst : List Torrent) : (dstOnlyKeys src dst).Nodup :=
  (snapshotKeys_nodup dst).filter _

theorem mem_dstOnlyKeys (src dst : List Torrent) (h : String) :
    h ∈ dstOnlyKeys src dst ↔
      h ≠ "" ∧ (∃ d ∈ dst, normalizeHash d.Hash = h) ∧
        ¬ ∃ s ∈ src, normalizeHash s.Hash = h := by
  unfold dstOnlyKeys
  rw [List.mem_filter, mem_snapshotKeys]
  simp only [decide_eq_true_eq, mem_snapshotKeys]
  constructor
  · rintro ⟨⟨h1, h2⟩, h3⟩
    exact ⟨h1, h2, fun hx => h3 ⟨h1, hx⟩⟩
  · rintro ⟨h1, h2, h3⟩
    exact ⟨⟨h1, h2⟩, fun hx => h3 hx.2⟩

theorem needDeleteOf_sorted (protectRe : Option Regexp) (src dst : List Torrent) :
    (needDeleteOf protectRe src dst).Sorted (· < ·) := by
  have hn : (needDeleteOf protectRe src dst).Nodup :=
    (needDeleteOf_perm protectRe src dst).nodup_iff.2 ((dstOnlyKeys_nodup src dst).filter _)
  unfold needDeleteOf at hn ⊢
  exact sortStrings_sorted_lt _ ((sortStrings_perm _).nodup_iff.1 hn)

theorem RunOnce_stats_ok (env : Env) (cfg : RunnerConfig) (S D : List Torrent)
    (protectRe : Option Regexp)
    (hS : env.api.ListAllTorrents [] cfg.SrcToken = Except.ok S)
    (hD : env.api.ListAllTorrents [Call.ListAllTorrents cfg.SrcToken] cfg.DstToken =
      Except.ok D)
    (hP : compileProtect env cfg.ProtectDstRegex = Except.ok protectRe) :
    ∃ a ae d de fin, (RunOnce env cfg).stats =
        { diffStats cfg protectRe S D
            { StartedAt := env.now [], SourceCount := S.length, DestCount := D.length } with
          Added := a, AddErrors := ae, Deleted := d, DeleteErrors := de, FinishedAt := fin } ∧
      (cfg.Mode ≠ ModeMirrorDelete → d = 0 ∧ de = 0) ∧
      (cfg.DryRun = true → a = 0 ∧ ae = 0 ∧ d = 0 ∧ de = 0) ∧
      (cfg.DryRun = false → a + ae = (needAddOf S D).length) ∧
      (cfg.DryRun = false → cfg.Mode = ModeMirrorDelete →
        d + de = (needDeleteOf protectRe S D).length) := by
  rw [RunOnce_ok env cfg S D protectRe hS hD hP, reconcile_eq]
  by_cases hdr : cfg.DryRun = true
  · rw [applyPhase_dryRun _ _ _ _ _ _ _ hdr]
    refine ⟨0, 0, 0, 0,
      env.now [Call.ListAllTorrents cfg.SrcToken, Call.ListAllTorrents cfg.DstToken],
      ?_, fun _ => ⟨rfl, rfl⟩, fun _ => ⟨rfl, rfl, rfl, rfl⟩,
      fun h => ?_, fun h => ?_⟩
    · simp [diffStats]
    · rw [hdr] at h; exact absurd h (by decide)
    · rw [hdr] at h; exact absurd h (by decide)
  · obtain ⟨a, ae, d, de, h1, h2, h3, h4⟩ := applyPhase_stats env cfg protectRe S D
      { StartedAt := env.now [], SourceCount := S.length, DestCount := D.length }
      [Call.ListAllTorrents cfg.SrcToken, Call.ListAllTorrents cfg.DstToken]
    refine ⟨a, ae, d, de, env.now (applyPhase env cfg protectRe S D
      { StartedAt := env.now [], SourceCount := S.length, DestCount := D.length }
      [Call.ListAllTorrents cfg.SrcToken, Call.ListAllTorrents cfg.DstToken]).2,
      ?_, h2, fun h => absurd h hdr, h3, h4⟩
    rw [h1]
    simp [diffStats]

/-- C2. In mirror-delete mode, when both listings succeed and the protection
pattern is empty or compiles, `needDelete` holds exactly the destination-only
keys (non-empty normalized keys of the destination that no source item has)
whose destination item, the last one listed with that key, has a filename the
pattern does not match; it is strictly ascending; `Stats.ProtectedDst` is the
number of destination-only keys whose filename matches and `Stats.NeedDelete`
the length of `needDelete`.  With an empty pattern nothing is protected; with
a pattern that compiles, matching is `MatchString` of the compiled pattern. -/
theorem needDelete_is_sorted_destination_only_unprotected (env : Env) (cfg : RunnerConfig)
    (S D : List Torrent) (protectRe : Option Regexp)
    (hm : cfg.Mode = ModeMirrorDelete)
    (hS : env.api.ListAllTorrents [] cfg.SrcToken = Except.ok S)
    (hD : env.api.ListAllTorrents [Call.ListAllTorrents cfg.SrcToken] cfg.DstToken =
      Except.ok D)
    (hP : compileProtect env cfg.ProtectDstRegex = Except.ok protectRe) :
    (∀ h, h ∈ needDeleteOf protectRe S D ↔
      h ∈ dstOnlyKeys S D ∧ protectedKey protectRe D h = false) ∧
    (∀ h, h ∈ dstOnlyKeys S D ↔
      h ≠ "" ∧ (∃ d ∈ D, normalizeHash d.Hash = h) ∧ ¬ ∃ s ∈ S, normalizeHash s.Hash = h) ∧
    (dstOnlyKeys S D).Nodup ∧
    (needDeleteOf protectRe S D).Sorted (· < ·) ∧
    (RunOnce env cfg).stats.ProtectedDst =
      ((dstOnlyKeys S D).filter (fun h => protectedKey protectRe D h)).length ∧
    (RunOnce env cfg).stats.NeedDelete = (needDeleteOf protectRe S D).length ∧
    (cfg.ProtectDstRegex = "" →
      (∀ h, protectedKey protectRe D h = false) ∧ (RunOnce env cfg).stats.ProtectedDst = 0 ∧
        ∀ h, h ∈ needDeleteOf protectRe S D ↔ h ∈ dstOnlyKeys S D) ∧
    (cfg.ProtectDstRegex ≠ "" →
      ∃ re, env.regexpCompile cfg.ProtectDstRegex = Except.ok re ∧
        ∀ h, protectedKey protectRe D h =
          match lastWithKey D h with
          | some t => re.MatchString t.Filename
          | none => false) := by
  have hmem : ∀ h, h ∈ needDeleteOf protectRe S D ↔
      h ∈ dstOnlyKeys S D ∧ protectedKey protectRe D h = false := by
    intro h
    rw [(needDeleteOf_perm protectRe S D).mem_iff, List.mem_filter]
    simp
  obtain ⟨a, ae, d, de, fin, hst, _⟩ := RunOnce_stats_ok env cfg S D protectRe hS hD hP
  have hprot : (RunOnce env cfg).stats.ProtectedDst =
      ((dstOnlyKeys S D).filter (fun h => protectedKey protectRe D h)).length := by
    rw [hst]; simp [diffStats, hm]
  refine ⟨hmem, mem_dstOnlyKeys S D, dstOnlyKeys_nodup S D, needDeleteOf_sorted protectRe S D,
    hprot, ?_, ?_, ?_⟩
  · rw [hst]; simp [diffStats, hm]
  · intro he
    have hnone : protectRe = none := by
      unfold compileProtect at hP
      simp only [he, ne_eq, not_true_eq_false, if_false] at hP
      injection hP with hP
      exact hP.symm
    have hall : ∀ h, protectedKey protectRe D h = false := by
      intro h
      unfold protectedKey
      rw [hnone]
      cases lastWithKey D h <;> simp [isProtected]
    refine ⟨hall, ?_, fun h => ?_⟩
    · rw [hprot]
      simp [hall]
    · rw [hmem h]
      simp [hall h]
  · intro hne
    unfold compileProtect at hP
    simp only [hne, ne_eq, not_false_eq_true, if_true] at hP
    cases hc : env.regexpCompile cfg.ProtectDstRegex with
    | error e => rw [hc] at hP; cases hP
    | ok re =>
      rw [hc] at hP
      injection hP with hP
      refine ⟨re, rfl, fun h => ?_⟩
      unfold protectedKey
      rw [← hP]
      cases lastWithKey D h <;> simp [isProtected]

/-- C2 at `TestRunOnceMirrorDeleteWithProtection`: destination-only keys "b"
(protected by the pattern) and "c"; `needDelete` is ["c"]. -/
theorem needDelete_is_sorted_destination_only_unprotected_witness :
    needDeleteOf (some keepRegexp) mirrorSrc mirrorDst = ["c"] ∧
    (RunOnce (testEnv mirrorSrc mirrorDst) mirrorCfg).stats.ProtectedDst = 1 ∧
    (RunOnce (testEnv mirrorSrc mirrorDst) mirrorCfg).stats.ProtectedDst =
      ((dstOnlyKeys mirrorSrc mirrorDst).filter
        (fun h => protectedKey (some keepRegexp) mirrorDst h)).length ∧
    (RunOnce (testEnv mirrorSrc mirrorDst) mirrorCfg).stats.NeedDelete =
      (needDeleteOf (some keepRegexp) mirrorSrc mirrorDst).length :=
  ⟨by decide, by decide,
    (needDelete_is_sorted_destination_only_unprotected (testEnv mirrorSrc mirrorDst) mirrorCfg
      mirrorSrc mirrorDst (some keepRegexp) rfl rfl rfl rfl).2.2.2.2.1,
    (needDelete_is_sorted_destination_only_unprotected (testEnv mirrorSrc mirrorDst) mirrorCfg
      mirrorSrc mirrorDst (some keepRegexp) rfl rfl rfl rfl).2.2.2.2.2.1⟩

/-- C3. In add-only mode, whatever the listings return and whatever the
protection pattern is, `RunOnce` issues no `DeleteTorrent` call and returns
`NeedDelete = 0`, `Deleted = 0`, `DeleteErrors = 0` and `ProtectedDst = 0`. -/
theorem addOnly_never_deletes (env : Env) (cfg : RunnerConfig) (hm : cfg.Mode = ModeAddOnly) :
    (∀ c ∈ (RunOnce env cfg).calls, c.isDelete = false) ∧
    (RunOnce env cfg).stats.NeedDelete = 0 ∧
    (RunOnce env cfg).stats.Deleted = 0 ∧
    (RunOnce env cfg).stats.DeleteErrors = 0 ∧
    (RunOnce env cfg).stats.ProtectedDst = 0 := by
  have hne : cfg.Mode ≠ ModeMirrorDelete := by rw [hm]; decide
  cases hS : env.api.ListAllTorrents [] cfg.SrcToken with
  | error e => simp [RunOnce, hS, Call.isDelete]
  | ok S =>
    cases hD : env.api.ListAllTorrents [Call.ListAllTorrents cfg.SrcToken] cfg.DstToken with
    | error e => simp [RunOnce, hS, hD, Call.isDelete]
    | ok D =>
      cases hP : compileProtect env cfg.ProtectDstRegex with
      | error e => simp [RunOnce, hS, hD, hP, Call.isDelete]
      | ok protectRe =>
        obtain ⟨a, ae, d, de, fin, hst, hmode, _⟩ :=
          RunOnce_stats_ok env cfg S D protectRe hS hD hP
        obtain ⟨hd0, hde0⟩ := hmode hne
        refine ⟨?_, ?_, ?_, ?_, ?_⟩
        · rw [RunOnce_ok env cfg S D protectRe hS hD hP, reconcile_eq]
          obtain ⟨extra, h1, _, h3, _⟩ := applyPhase_calls env cfg protectRe S D
            { StartedAt := env.now [], SourceCount := S.length, DestCount := D.length }
            [Call.ListAllTorrents cfg.SrcToken, Call.ListAllTorrents cfg.DstToken]
          simp only [h1]
          intro c hc
          rcases List.mem_append.1 hc with hc | hc
          · simp only [List.mem_cons, List.mem_singleton, List.not_mem_nil, or_false] at hc
            rcases hc with hc | hc <;> subst hc <;> rfl
          · exact h3 hne c hc
        · rw [hst]; simp [diffStats, hne]
        · rw [hst]; exact hd0
        · rw [hst]; exact hde0
        · rw [hst]; simp [diffStats, hne]

/-- C3 at the snapshots of `TestRunOnceMirrorDeleteWithProtection` (the
destination has two items the source lacks) run in add-only mode with the
protection pattern set. -/
theorem addOnly_never_deletes_witness :
    addOnlyProtectCfg.Mode = ModeAddOnly ∧
    (∀ c ∈ (RunOnce (testEnv mirrorSrc mirrorDst) addOnlyProtectCfg).calls,
      c.isDelete = false) ∧
    (RunOnce (testEnv mirrorSrc mirrorDst) addOnlyProtectCfg).stats.NeedDelete = 0 ∧
    (RunOnce (testEnv mirrorSrc mirrorDst) addOnlyProtectCfg).stats.Deleted = 0 ∧
    (RunOnce (testEnv mirrorSrc mirrorDst) addOnlyProtectCfg).stats.DeleteErrors = 0 ∧
    (RunOnce (testEnv mirrorSrc mirrorDst) addOnlyProtectCfg).stats.ProtectedDst = 0 :=
  ⟨rfl, addOnly_never_deletes (testEnv mirrorSrc mirrorDst) addOnlyProtectCfg rfl⟩

theorem Call.not_mutating_of_isList (c : Call) (h : c.isList = true) :
    c.isAdd = false ∧ c.isSelect = false ∧ c.isDelete = false := by
  cases c <;> simp_all [Call.isList, Call.isAdd, Call.isSelect, Call.isDelete]

/-- C4. With `DryRun` set, for every mode and whatever the listings return,
`RunOnce` issues no `AddMagnetByHash`, `SelectFilesAll` or `DeleteTorrent`
call (every call it issues is a listing call), returns `Added`, `Deleted`,
`AddErrors` and `DeleteErrors` all 0, and its `NeedAdd` and `NeedDelete` are
those of the run with `DryRun` cleared in the same environment. -/
theorem dryRun_issues_no_mutating_call (env : Env) (cfg : RunnerConfig)
    (hd : cfg.DryRun = true) :
    (∀ c ∈ (RunOnce env cfg).calls,
      c.isList = true ∧ c.isAdd = false ∧ c.isSelect = false ∧ c.isDelete = false) ∧
    (RunOnce env cfg).stats.Added = 0 ∧
    (RunOnce env cfg).stats.Deleted = 0 ∧
    (RunOnce env cfg).stats.AddErrors = 0 ∧
    (RunOnce env cfg).stats.DeleteErrors = 0 ∧
    (RunOnce env cfg).stats.NeedAdd = (RunOnce env { cfg with DryRun := false }).stats.NeedAdd ∧
    (RunOnce env cfg).stats.NeedDelete =
      (RunOnce env { cfg with DryRun := false }).stats.NeedDelete := by
  have hlist : ∀ c ∈ [Call.ListAllTorrents cfg.SrcToken, Call.ListAllTorrents cfg.DstToken],
      c.isList = true ∧ c.isAdd = false ∧ c.isSelect = false ∧ c.isDelete = false := by
    intro c hc
    simp only [List.mem_cons, List.mem_singleton, List.not_mem_nil, or_false] at hc
    rcases hc with hc | hc <;> subst hc <;> exact ⟨rfl, rfl, rfl, rfl⟩
  cases hS : env.api.ListAllTorrents [] cfg.SrcToken with
  | error e => simp [RunOnce, hS, Call.isList, Call.isAdd, Call.isSelect, Call.isDelete]
  | ok S =>
    cases hD : env.api.ListAllTorrents [Call.ListAllTorrents cfg.SrcToken] cfg.DstToken with
    | error e => simp [RunOnce, hS, hD, Call.isList, Call.isAdd, Call.isSelect, Call.isDelete]
    | ok D =>
      cases hP : compileProtect env cfg.ProtectDstRegex with
      | error e =>
        have hP' : compileProtect env ({ cfg with DryRun := false } : RunnerConfig).ProtectDstRegex =
            Except.error e := hP
        simp [RunOnce, hS, hD, hP, hP', Call.isList, Call.isAdd, Call.isSelect, Call.isDelete]
      | ok protectRe =>
        obtain ⟨a, ae, d, de, fin, hst, _, hdry, _⟩ :=
          RunOnce_stats_ok env cfg S D protectRe hS hD hP
        obtain ⟨a', ae', d', de', fin', hst', _⟩ :=
          RunOnce_stats_ok env { cfg with DryRun := false } S D protectRe hS hD hP
        obtain ⟨ha, hae, hd0, hde⟩ := hdry hd
        refine ⟨?_, ?_, ?_, ?_, ?_, ?_, ?_⟩
        · rw [RunOnce_ok env cfg S D protectRe hS hD hP, reconcile_eq,
            applyPhase_dryRun _ _ _ _ _ _ _ hd]
          exact hlist
        · rw [hst]; exact ha
        · rw [hst]; exact hd0
        · rw [hst]; exact hae
        · rw [hst]; exact hde
        · rw [hst, hst']; simp [diffStats]
        · rw [hst, hst']; simp [diffStats]

/-- C4 at `TestRunOnceMirrorDeleteWithProtection` run as a dry run: only the
two listing calls are issued and `NeedDelete` is 1 as in the real run. -/
theorem dryRun_issues_no_mutating_call_witness :
    mirrorDryCfg.DryRun = true ∧
    (RunOnce (testEnv mirrorSrc mirrorDst) mirrorDryCfg).calls =
      [Call.ListAllTorrents "src", Call.ListAllTorrents "dst"] ∧
    (RunOnce (testEnv mirrorSrc mirrorDst) mirrorDryCfg).stats.NeedDelete = 1 ∧
    (RunOnce (testEnv mirrorSrc mirrorDst) mirrorCfg).stats.Deleted = 1 ∧
    (RunOnce (testEnv mirrorSrc mirrorDst) mirrorDryCfg).stats.Deleted = 0 ∧
    (RunOnce (testEnv mirrorSrc mirrorDst) mirrorDryCfg).stats.NeedDelete =
      (RunOnce (testEnv mirrorSrc mirrorDst)
        { mirrorDryCfg with DryRun := false }).stats.NeedDelete :=
  ⟨rfl, by decide, by decide, by decide,
    (dryRun_issues_no_mutating_call (testEnv mirrorSrc mirrorDst) mirrorDryCfg rfl).2.2.1,
    (dryRun_issues_no_mutating_call (testEnv mirrorSrc mirrorDst) mirrorDryCfg rfl).2.2.2.2.2.2⟩

/-- C10. If listing the source fails, `RunOnce` returns that error with the
statistics filled so far (only the start time) after the one listing call: the
destination is not listed and nothing is added, selected or deleted.  If the
source listing succeeds and the destination listing fails, `RunOnce` returns
that error after the two listing calls and nothing else. -/
theorem listing_failure_aborts (env : Env) (cfg : RunnerConfig) :
    (∀ e, env.api.ListAllTorrents [] cfg.SrcToken = Except.error e →
      (RunOnce env cfg).err = some e ∧
      (RunOnce env cfg).calls = [Call.ListAllTorrents cfg.SrcToken] ∧
      (RunOnce env cfg).stats = { StartedAt := env.now [] }) ∧
    (∀ S e, env.api.ListAllTorrents [] cfg.SrcToken = Except.ok S →
      env.api.ListAllTorrents [Call.ListAllTorrents cfg.SrcToken] cfg.DstToken =
        Except.error e →
      (RunOnce env cfg).err = some e ∧
      (RunOnce env cfg).calls =
        [Call.ListAllTorrents cfg.SrcToken, Call.ListAllTorrents cfg.DstToken] ∧
      (RunOnce env cfg).stats = { StartedAt := env.now [] }) := by
  constructor
  · intro e hS
    simp [RunOnce, hS]
  · intro S e hS hD
    simp [RunOnce, hS, hD]

/-- C10 at a source listing that fails and at a destination listing that
fails, around the snapshots of `TestRunOnceAddOnly`. -/
theorem listing_failure_aborts_witness :
    ((RunOnce (failingEnv true addOnlySrc addOnlyDst) addOnlyCfg).err = some listError ∧
      (RunOnce (failingEnv true addOnlySrc addOnlyDst) addOnlyCfg).calls =
        [Call.ListAllTorrents "src"] ∧
      (RunOnce (failingEnv true addOnlySrc addOnlyDst) addOnlyCfg).stats = { StartedAt := 0 }) ∧
    ((RunOnce (failingEnv false addOnlySrc addOnlyDst) addOnlyCfg).err = some listError ∧
      (RunOnce (failingEnv false addOnlySrc addOnlyDst) addOnlyCfg).calls =
        [Call.ListAllTorrents "src", Call.ListAllTorrents "dst"] ∧
      (RunOnce (failingEnv false addOnlySrc addOnlyDst) addOnlyCfg).stats =
        { StartedAt := 0 }) :=
  ⟨(listing_failure_aborts (failingEnv true addOnlySrc addOnlyDst) addOnlyCfg).1 listError rfl,
    (listing_failure_aborts (failingEnv false addOnlySrc addOnlyDst) addOnlyCfg).2 addOnlySrc
      listError rfl rfl⟩

theorem ListAllTorrentsLoop_spec (L : Int) (_hL : 1 ≤ L) (resp : Nat → List Torrent) (k : Nat) :
    ∀ (p : Nat) (all : List Torrent) (fuel : Nat),
      (∀ i < k, L ≤ ((resp (p + i)).length : Int)) →
      ((resp (p + k)).length : Int) < L →
      k + 1 ≤ fuel →
      ListAllTorrentsLoop L (fun page => Except.ok (resp page)) fuel p all =
        some ⟨Except.ok (all ++ ((List.range (k + 1)).map (fun i => resp (p + i))).flatten),
          (List.range (k + 1)).map (fun i => p + i)⟩ := by
  induction k with
  | zero =>
    intro p all fuel _ hshort hfuel
    obtain ⟨n, rfl⟩ : ∃ n, fuel = n + 1 := ⟨fuel - 1, by omega⟩
    simp only [ListAllTorrentsLoop, Nat.add_zero] at hshort ⊢
    by_cases h0 : (resp p).length = 0
    · have : resp p = [] := List.length_eq_zero.1 h0
      simp [this, List.range_succ]
    · simp [h0, hshort, List.range_succ]
  | succ k ih =>
    intro p all fuel hfull hshort hfuel
    obtain ⟨n, rfl⟩ : ∃ n, fuel = n + 1 := ⟨fuel - 1, by omega⟩
    have hp : L ≤ ((resp p).length : Int) := by simpa using hfull 0 (by omega)
    have h0 : ¬ (resp p).length = 0 := by omega
    have h1 : ¬ ((resp p).length : Int) < L := by omega
    have ih' := ih (p + 1) (all ++ resp p) n
      (fun i hi => by have := hfull (i + 1) (by omega); rwa [show p + 1 + i = p + (i + 1) by omega])
      (by rwa [show p + 1 + k = p + (k + 1) by omega]) (by omega)
    simp only [ListAllTorrentsLoop, beq_iff_eq, h0, if_false, h1, ih', Option.map_some']
    have hr : List.range (k + 1 + 1) = 0 :: (List.range (k + 1)).map Nat.succ :=
      List.range_succ_eq_map (k + 1)
    rw [hr]
    simp only [List.map_cons, List.map_map, List.flatten_cons, Nat.add_zero, List.append_assoc]
    have hf : ((fun i => resp (p + i)) ∘ Nat.succ) = (fun i => resp (p + 1 + i)) := by
      funext i; simp only [Function.comp, Nat.succ_eq_add_one]; congr 1; omega
    have hg : ((fun i => p + i) ∘ Nat.succ) = (fun i => p + 1 + i) := by
      funext i; simp only [Function.comp, Nat.succ_eq_add_one]; omega
    rw [hf, hg]

/-- C5. For a page size `L >= 1` and successful page responses `resp 1`,
`resp 2`, ... of which page `k + 1` is the first shorter than `L`,
`ListAllTorrents` (given at least `k + 1` steps of fuel) returns: it requests
exactly the pages 1, 2, ..., `k + 1` in this order and its result is the
concatenation of those pages in server order.  In particular when the first
page is empty the result is empty after the single request of page 1. -/
theorem listAll_stops_at_first_short_page (L : Int) (hL : 1 ≤ L) (resp : Nat → List Torrent)
    (k : Nat)
    (hfull : ∀ i < k, L ≤ ((resp (i + 1)).length : Int))
    (hshort : ((resp (k + 1)).length : Int) < L)
    (fuel : Nat) (hfuel : k + 1 ≤ fuel) :
    ListAllTorrents L (fun page => Except.ok (resp page)) fuel =
      some ⟨Except.ok ((List.range (k + 1)).map (fun i => resp (i + 1))).flatten,
        (List.range (k + 1)).map (fun i => i + 1)⟩ ∧
    (resp 1 = [] →
      ListAllTorrents L (fun page => Except.ok (resp page)) fuel = some ⟨Except.ok [], [1]⟩) := by
  have h := ListAllTorrentsLoop_spec L hL resp k 1 [] fuel
    (fun i hi => by rw [Nat.add_comm]; exact hfull i hi)
    (by rw [Nat.add_comm]; exact hshort) hfuel
  have hf : (fun i => resp (1 + i)) = (fun i => resp (i + 1)) := by
    funext i; rw [Nat.add_comm]
  have hg : (fun i => 1 + i) = (fun i => i + 1) := by
    funext i; rw [Nat.add_comm]
  rw [List.nil_append, hf, hg] at h
  refine ⟨h, fun hempty => ?_⟩
  obtain ⟨n, rfl⟩ : ∃ n, fuel = n + 1 := ⟨fuel - 1, by omega⟩
  simp [ListAllTorrents, ListAllTorrentsLoop, hempty]

/-- C5 at the server of `TestListAllTorrentsPagination` (page size 2): pages 1
and 2 are requested and the three items come back in order. -/
theorem listAll_stops_at_first_short_page_witness :
    ListAllTorrents 2 (fun page => Except.ok (testPages page)) 5 =
      some ⟨Except.ok [⟨"1", "aaa", "A", ""⟩, ⟨"2", "bbb", "B", ""⟩, ⟨"3", "ccc", "C", ""⟩],
        [1, 2]⟩ :=
  (listAll_stops_at_first_short_page 2 (by decide) testPages 1 (by decide) (by decide) 5
    (by decide)).1

/-! ## The retry loop -/

theorem wrapInt64_of_range (x : Int) (h1 : -2 ^ 63 ≤ x) (h2 : x < 2 ^ 63) : wrapInt64 x = x := by
  unfold wrapInt64
  rw [Int.emod_eq_of_lt (by omega) (by omega)]
  omega

theorem randomJitter_some (raw max : Int) (h : max < maxInt64) :
    ∃ j, randomJitter raw max = some j ∧ 0 ≤ j ∧ (0 < max → j ≤ max) ∧ (max ≤ 0 → j = 0) := by
  unfold randomJitter
  by_cases h0 : max ≤ 0
  · exact ⟨0, by simp [h0], le_refl 0, fun h => absurd h (by omega), fun _ => rfl⟩
  · have hm : max < 2 ^ 63 - 1 := h
    have hw : wrapInt64 (max + 1) = max + 1 := wrapInt64_of_range _ (by omega) (by omega)
    have hpos : ¬ max + 1 ≤ 0 := by omega
    refine ⟨raw % (max + 1), by simp [h0, Int63n, hw, hpos], ?_, fun _ => ?_, fun h => absurd h h0⟩
    · exact Int.emod_nonneg _ (by omega)
    · have := Int.emod_lt_of_pos raw (show (0 : Int) < max + 1 by omega)
      omega

theorem RetryOutcome.calls_cons_call (res : RetryResult) (a : Nat) (evs : List RetryEvent) :
    RetryOutcome.calls ⟨res, RetryEvent.call a :: evs⟩ =
      RetryOutcome.calls ⟨res, evs⟩ + 1 := by
  simp [RetryOutcome.calls]

theorem RetryOutcome.calls_cons_wait (res : RetryResult) (d : Int) (evs : List RetryEvent) :
    RetryOutcome.calls ⟨res, RetryEvent.wait d :: evs⟩ = RetryOutcome.calls ⟨res, evs⟩ := by
  simp [RetryOutcome.calls]

theorem RetryOutcome.waits_cons_call (res : RetryResult) (a : Nat) (evs : List RetryEvent) :
    RetryOutcome.waits ⟨res, RetryEvent.call a :: evs⟩ = RetryOutcome.waits ⟨res, evs⟩ := by
  simp [RetryOutcome.waits]

theorem RetryOutcome.waits_cons_wait (res : RetryResult) (d : Int) (evs : List RetryEvent) :
    RetryOutcome.waits ⟨res, RetryEvent.wait d :: evs⟩ =
      RetryOutcome.waits ⟨res, evs⟩ + 1 := by
  simp [RetryOutcome.waits]

theorem withRetryLoop_step (cfg : ClientConfig) (env : RetryEnv) (op : String)
    (fn : Nat → Option GoError) (r a : Nat) (last : Option GoError) (e : GoError)
    (hj : cfg.RetryMaxJitter < maxInt64)
    (hfn : fn a = some e) (hre : isRetryable e = true) (hlt : (a : Int) ≠ cfg.MaxRetries)
    (hctx : ∀ d, env.ctxWait a d = none) :
    ∃ w, withRetryLoop cfg env op fn (r + 1) a last =
      ⟨(withRetryLoop cfg env op fn r (a + 1) (some e)).result,
        RetryEvent.call a :: RetryEvent.wait w ::
          (withRetryLoop cfg env op fn r (a + 1) (some e)).events⟩ := by
  obtain ⟨j, hj1, _⟩ := randomJitter_some (env.draw a) cfg.RetryMaxJitter hj
  refine ⟨wrapInt64 (backoff cfg a + j), ?_⟩
  simp only [withRetryLoop, hfn, hre, hj1, hctx, beq_iff_eq, hlt, Bool.not_true, Bool.false_or,
    decide_False, Bool.false_eq_true, if_false]

theorem withRetryLoop_success (cfg : ClientConfig) (env : RetryEnv) (op : String)
    (fn : Nat → Option GoError) (hj : cfg.RetryMaxJitter < maxInt64)
    (hctx : ∀ i d, env.ctxWait i d = none) (k : Nat) :
    ∀ (r a : Nat) (last : Option GoError), k < r → (a : Int) + r = cfg.MaxRetries + 1 →
      (∀ i < k, ∃ e, fn (a + i) = some e ∧ isRetryable e = true) →
      fn (a + k) = none →
      (withRetryLoop cfg env op fn r a last).result = RetryResult.returned none ∧
      (withRetryLoop cfg env op fn r a last).calls = k + 1 ∧
      (withRetryLoop cfg env op fn r a last).waits = k := by
  induction k with
  | zero =>
    intro r a last hr _ _ hok
    obtain ⟨n, rfl⟩ : ∃ n, r = n + 1 := ⟨r - 1, by omega⟩
    simp only [Nat.add_zero] at hok
    simp [withRetryLoop, hok, RetryOutcome.calls, RetryOutcome.waits]
  | succ k ih =>
    intro r a last hr hinv hfail hok
    obtain ⟨n, rfl⟩ : ∃ n, r = n + 1 := ⟨r - 1, by omega⟩
    obtain ⟨e, he1, he2⟩ := hfail 0 (by omega)
    simp only [Nat.add_zero] at he1
    have hlt : (a : Int) ≠ cfg.MaxRetries := by push_cast at hinv; omega
    obtain ⟨w, hw⟩ := withRetryLoop_step cfg env op fn n a last e hj he1 he2 hlt (hctx a)
    have ih' := ih n (a + 1) (some e) (by omega) (by push_cast at hinv ⊢; omega)
      (fun i hi => by
        have := hfail (i + 1) (by omega)
        rwa [show a + 1 + i = a + (i + 1) by omega])
      (by rwa [show a + 1 + k = a + (k + 1) by omega])
    rw [hw]
    refine ⟨ih'.1, ?_, ?_⟩
    · rw [RetryOutcome.calls_cons_call, RetryOutcome.calls_cons_wait]
      exact congrArg (· + 1) ih'.2.1
    · rw [RetryOutcome.waits_cons_call, RetryOutcome.waits_cons_wait]
      exact congrArg (· + 1) ih'.2.2

/-- When the jitter bound is below the largest duration: if the first `k`
attempts fail with a retryable error, attempt `k + 1` succeeds and the
context is never done, `withRetry` returns `nil` after `k + 1` calls and `k`
waits. -/
theorem withRetry_succeeds_after_retryable_failures (cfg : ClientConfig) (env : RetryEnv)
    (op : String) (fn : Nat → Option GoError) (k : Nat)
    (hk : (k : Int) < cfg.MaxRetries)
    (hj : cfg.RetryMaxJitter < maxInt64)
    (hfail : ∀ i, 1 ≤ i → i ≤ k → ∃ e, fn i = some e ∧ isRetryable e = true)
    (hok : fn (k + 1) = none)
    (hctx : ∀ i d, env.ctxWait i d = none) :
    (withRetry cfg env op fn).result = RetryResult.returned none ∧
    (withRetry cfg env op fn).calls = k + 1 ∧
    (withRetry cfg env op fn).waits = k := by
  unfold withRetry
  have hM : ((cfg.MaxRetries.toNat : Nat) : Int) = cfg.MaxRetries := Int.toNat_of_nonneg (by omega)
  exact withRetryLoop_success cfg env op fn hj hctx k cfg.MaxRetries.toNat 1 none (by omega)
    (by push_cast; omega)
    (fun i hi => by rw [Nat.add_comm]; exact hfail (i + 1) (by omega) (by omega))
    (by rw [Nat.add_comm]; exact hok)

theorem withRetryLoop_unfold_retry (cfg : ClientConfig) (env : RetryEnv) (op : String)
    (fn : Nat → Option GoError) (r a : Nat) (last : Option GoError) (e : GoError)
    (hfn : fn a = some e) (hre : isRetryable e = true) :
    withRetryLoop cfg env op fn (r + 1) a last =
      if (a : Int) = cfg.MaxRetries then
        ⟨RetryResult.returned (some (failedAfterRetries op (some e))), [RetryEvent.call a]⟩
      else
        match randomJitter (env.draw a) cfg.RetryMaxJitter with
        | none => ⟨RetryResult.panicked "invalid argument to Int63n", [RetryEvent.call a]⟩
        | some jitter =>
          match env.ctxWait a (wrapInt64 (backoff cfg a + jitter)) with
          | some err =>
            ⟨RetryResult.returned (some err),
              [RetryEvent.call a, RetryEvent.wait (wrapInt64 (backoff cfg a + jitter))]⟩
          | none =>
            ⟨(withRetryLoop cfg env op fn r (a + 1) (some e)).result,
              RetryEvent.call a :: RetryEvent.wait (wrapInt64 (backoff cfg a + jitter)) ::
                (withRetryLoop cfg env op fn r (a + 1) (some e)).events⟩ := by
  simp only [withRetryLoop, hfn, hre, Bool.not_true, Bool.false_or, beq_iff_eq]

theorem withRetryLoop_success_of_reached (cfg : ClientConfig) (env : RetryEnv) (op : String)
    (fn : Nat → Option GoError) (k : Nat) :
    ∀ (r a : Nat) (last : Option GoError),
      (∀ i < k, ∃ e, fn (a + i) = some e ∧ isRetryable e = true) →
      fn (a + k) = none →
      RetryEvent.call (a + k) ∈ (withRetryLoop cfg env op fn r a last).events →
      (withRetryLoop cfg env op fn r a last).result = RetryResult.returned none ∧
      (withRetryLoop cfg env op fn r a last).calls = k + 1 ∧
      (withRetryLoop cfg env op fn r a last).waits = k := by
  induction k with
  | zero =>
    intro r a last _ hok hmem
    cases r with
    | zero => simp [withRetryLoop] at hmem
    | succ n =>
      simp only [Nat.add_zero] at hok
      simp [withRetryLoop, hok, RetryOutcome.calls, RetryOutcome.waits]
  | succ k ih =>
    intro r a last hfail hok hmem
    cases r with
    | zero => simp [withRetryLoop] at hmem
    | succ n =>
      obtain ⟨e, he1, he2⟩ := hfail 0 (by omega)
      simp only [Nat.add_zero] at he1
      rw [withRetryLoop_unfold_retry cfg env op fn n a last e he1 he2] at hmem ⊢
      by_cases hM : (a : Int) = cfg.MaxRetries
      · simp [hM] at hmem
      · simp only [hM, if_false] at hmem ⊢
        cases hjit : randomJitter (env.draw a) cfg.RetryMaxJitter with
        | none => simp [hjit] at hmem
        | some j =>
          simp only [hjit] at hmem ⊢
          cases hc : env.ctxWait a (wrapInt64 (backoff cfg a + j)) with
          | some e' => simp [hc] at hmem
          | none =>
            simp only [hc] at hmem ⊢
            have hmem' : RetryEvent.call (a + 1 + k) ∈
                (withRetryLoop cfg env op fn n (a + 1) (some e)).events := by
              simp only [List.mem_cons, RetryEvent.call.injEq] at hmem
              rcases hmem with h | h | h
              · omega
              · cases h
              · rwa [show a + 1 + k = a + (k + 1) by omega]
            have ih' := ih n (a + 1) (some e)
              (fun i hi => by
                have := hfail (i + 1) (by omega)
                rwa [show a + 1 + i = a + (i + 1) by omega])
              (by rwa [show a + 1 + k = a + (k + 1) by omega]) hmem'
            refine ⟨ih'.1, ?_, ?_⟩
            · rw [RetryOutcome.calls_cons_call, RetryOutcome.calls_cons_wait]
              exact congrArg (· + 1) ih'.2.1
            · rw [RetryOutcome.waits_cons_call, RetryOutcome.waits_cons_wait]
              exact congrArg (· + 1) ih'.2.2

theorem withRetryLoop_first_call (cfg : ClientConfig) (env : RetryEnv) (op : String)
    (fn : Nat → Option GoError) (r a : Nat) (last : Option GoError) :
    RetryEvent.call a ∈ (withRetryLoop cfg env op fn (r + 1) a last).events := by
  simp only [withRetryLoop]
  split
  · simp
  · split
    · simp
    · split
      · simp
      · split <;> simp

theorem withRetryLoop_reaches (cfg : ClientConfig) (env : RetryEnv) (op : String)
    (fn : Nat → Option GoError) (hj : cfg.RetryMaxJitter < maxInt64)
    (hctx : ∀ i d, env.ctxWait i d = none) (k : Nat) :
    ∀ (r a : Nat) (last : Option GoError), k < r → (a : Int) + r = cfg.MaxRetries + 1 →
      (∀ i < k, ∃ e, fn (a + i) = some e ∧ isRetryable e = true) →
      RetryEvent.call (a + k) ∈ (withRetryLoop cfg env op fn r a last).events := by
  induction k with
  | zero =>
    intro r a last hr _ _
    obtain ⟨n, rfl⟩ : ∃ n, r = n + 1 := ⟨r - 1, by omega⟩
    exact withRetryLoop_first_call cfg env op fn n a last
  | succ k ih =>
    intro r a last hr hinv hfail
    obtain ⟨n, rfl⟩ : ∃ n, r = n + 1 := ⟨r - 1, by omega⟩
    obtain ⟨e, he1, he2⟩ := hfail 0 (by omega)
    simp only [Nat.add_zero] at he1
    have hlt : (a : Int) ≠ cfg.MaxRetries := by push_cast at hinv; omega
    obtain ⟨w, hw⟩ := withRetryLoop_step cfg env op fn n a last e hj he1 he2 hlt (hctx a)
    rw [hw]
    have ih' := ih n (a + 1) (some e) (by omega) (by push_cast at hinv ⊢; omega)
      (fun i hi => by
        have := hfail (i + 1) (by omega)
        rwa [show a + 1 + i = a + (i + 1) by omega])
    rw [show a + 1 + k = a + (k + 1) by omega] at ih'
    exact List.mem_cons_of_mem _ (List.mem_cons_of_mem _ ih')

theorem withRetryLoop_terminal (cfg : ClientConfig) (env : RetryEnv) (op : String)
    (fn : Nat → Option GoError) (j : Nat) (e : GoError) (hfn : fn j = some e)
    (hterm : isRetryable e = false) :
    ∀ (r a : Nat) (last : Option GoError),
      RetryEvent.call j ∈ (withRetryLoop cfg env op fn r a last).events →
      (withRetryLoop cfg env op fn r a last).result =
          RetryResult.returned (some (failedAfterRetries op (some e))) ∧
        ∃ before, (withRetryLoop cfg env op fn r a last).events =
          before ++ [RetryEvent.call j] := by
  intro r
  induction r with
  | zero => intro a last hmem; simp [withRetryLoop] at hmem
  | succ n ih =>
    intro a last hmem
    cases hfa : fn a with
    | none =>
      simp only [withRetryLoop, hfa, List.mem_singleton, RetryEvent.call.injEq] at hmem
      rw [hmem, hfa] at hfn
      cases hfn
    | some err =>
      by_cases hre : isRetryable err = true
      · have hne : j ≠ a := by
          intro h
          rw [h, hfa] at hfn
          injection hfn with hfn
          rw [hfn, hterm] at hre
          cases hre
        rw [withRetryLoop_unfold_retry cfg env op fn n a last err hfa hre] at hmem ⊢
        by_cases hM : (a : Int) = cfg.MaxRetries
        · simp [hM, hne] at hmem
        · simp only [hM, if_false] at hmem ⊢
          cases hjit : randomJitter (env.draw a) cfg.RetryMaxJitter with
          | none => simp [hjit, hne] at hmem
          | some jit =>
            simp only [hjit] at hmem ⊢
            cases hc : env.ctxWait a (wrapInt64 (backoff cfg a + jit)) with
            | some e' => simp [hc, hne] at hmem
            | none =>
              simp only [hc] at hmem ⊢
              have hmem' : RetryEvent.call j ∈
                  (withRetryLoop cfg env op fn n (a + 1) (some err)).events := by
                simp only [List.mem_cons, RetryEvent.call.injEq] at hmem
                rcases hmem with h | h | h
                · exact absurd h hne
                · cases h
                · exact h
              obtain ⟨h1, before, h2⟩ := ih (a + 1) (some err) hmem'
              refine ⟨h1, RetryEvent.call a ::
                RetryEvent.wait (wrapInt64 (backoff cfg a + jit)) :: before, ?_⟩
              simp only [h2, List.cons_append]
      · have hre' : isRetryable err = false := by simpa using hre
        simp only [withRetryLoop, hfa, hre', Bool.not_false, Bool.true_or, if_true,
          List.mem_singleton, RetryEvent.call.injEq] at hmem ⊢
        subst hmem
        rw [hfa] at hfn
        injection hfn with hfn
        subst hfn
        exact ⟨rfl, [], rfl⟩

theorem withRetryLoop_exhausted (cfg : ClientConfig) (env : RetryEnv) (op : String)
    (fn : Nat → Option GoError) (m : Nat) (hm : (m : Int) = cfg.MaxRetries)
    (hfail : ∀ i, 1 ≤ i → i ≤ m → ∃ e, fn i = some e ∧ isRetryable e = true) :
    ∀ (r a : Nat) (last : Option GoError), 1 ≤ a → a + r = m + 1 →
      RetryEvent.call m ∈ (withRetryLoop cfg env op fn r a last).events →
      ∃ e, fn m = some e ∧
        (withRetryLoop cfg env op fn r a last).result =
          RetryResult.returned (some (failedAfterRetries op (some e))) ∧
        (withRetryLoop cfg env op fn r a last).calls = r ∧
        (withRetryLoop cfg env op fn r a last).waits = r - 1 := by
  intro r
  induction r with
  | zero => intro a last _ _ hmem; simp [withRetryLoop] at hmem
  | succ n ih =>
    intro a last ha hinv hmem
    obtain ⟨e, he1, he2⟩ := hfail a ha (by omega)
    rw [withRetryLoop_unfold_retry cfg env op fn n a last e he1 he2] at hmem ⊢
    by_cases hM : (a : Int) = cfg.MaxRetries
    · have ham : a = m := by rw [← hm] at hM; exact_mod_cast hM
      have hn : n = 0 := by omega
      subst ham
      subst hn
      simp only [if_pos hM]
      exact ⟨e, he1, rfl, by simp [RetryOutcome.calls], by simp [RetryOutcome.waits]⟩
    · have ham : a ≠ m := by
        intro h; rw [h] at hM; exact hM hm
      simp only [hM, if_false] at hmem ⊢
      cases hjit : randomJitter (env.draw a) cfg.RetryMaxJitter with
      | none => simp [hjit, Ne.symm ham] at hmem
      | some jit =>
        simp only [hjit] at hmem ⊢
        cases hc : env.ctxWait a (wrapInt64 (backoff cfg a + jit)) with
        | some e' => simp [hc, Ne.symm ham] at hmem
        | none =>
          simp only [hc] at hmem ⊢
          have hmem' : RetryEvent.call m ∈
              (withRetryLoop cfg env op fn n (a + 1) (some e)).events := by
            simp only [List.mem_cons, RetryEvent.call.injEq] at hmem
            rcases hmem with h | h | h
            · exact absurd h.symm ham
            · cases h
            · exact h
          obtain ⟨e', h1, h2, h3, h4⟩ := ih (a + 1) (some e) (by omega) (by omega) hmem'
          refine ⟨e', h1, h2, ?_, ?_⟩
          · rw [RetryOutcome.calls_cons_call, RetryOutcome.calls_cons_wait]
            exact congrArg (· + 1) h3
          · rw [RetryOutcome.waits_cons_call, RetryOutcome.waits_cons_wait]
            have : 1 ≤ n := by omega
            have h4' := congrArg (· + 1) h4
            simp only at h4'
            rw [h4']
            omega

/-- C6. Take `k < MaxRetries`, a call whose first `k` attempts fail with a
retryable error and whose attempt `k + 1` succeeds, and a context that is
never done.  Whenever attempt `k + 1` is made, `withRetry` returns `nil` after
invoking the call exactly `k + 1` times and waiting exactly `k` times; and
that is what happens whenever no wait is needed (`k = 0`) or the jitter bound
is below the largest duration.  With `k = 2` this is success on the third
attempt with exactly two waits. -/
theorem withRetry_success_after_k_retries (cfg : ClientConfig) (env : RetryEnv) (op : String)
    (fn : Nat → Option GoError) (k : Nat)
    (hk : (k : Int) < cfg.MaxRetries)
    (hfail : ∀ i, 1 ≤ i → i ≤ k → ∃ e, fn i = some e ∧ isRetryable e = true)
    (hok : fn (k + 1) = none)
    (hctx : ∀ i d, env.ctxWait i d = none) :
    (RetryEvent.call (k + 1) ∈ (withRetry cfg env op fn).events →
      (withRetry cfg env op fn).result = RetryResult.returned none ∧
      (withRetry cfg env op fn).calls = k + 1 ∧
      (withRetry cfg env op fn).waits = k) ∧
    (k = 0 ∨ cfg.RetryMaxJitter < maxInt64 →
      (withRetry cfg env op fn).result = RetryResult.returned none ∧
      (withRetry cfg env op fn).calls = k + 1 ∧
      (withRetry cfg env op fn).waits = k) := by
  have hreached : RetryEvent.call (k + 1) ∈ (withRetry cfg env op fn).events →
      (withRetry cfg env op fn).result = RetryResult.returned none ∧
      (withRetry cfg env op fn).calls = k + 1 ∧
      (withRetry cfg env op fn).waits = k := by
    intro hmem
    unfold withRetry at hmem ⊢
    rw [Nat.add_comm] at hmem
    exact withRetryLoop_success_of_reached cfg env op fn k cfg.MaxRetries.toNat 1 none
      (fun i hi => by rw [Nat.add_comm]; exact hfail (i + 1) (by omega) (by omega))
      (by rw [Nat.add_comm]; exact hok) hmem
  refine ⟨hreached, fun h => ?_⟩
  rcases h with h | h
  · apply hreached
    subst h
    obtain ⟨n, hn⟩ : ∃ n, cfg.MaxRetries.toNat = n + 1 :=
      ⟨cfg.MaxRetries.toNat - 1, by omega⟩
    unfold withRetry
    rw [hn]
    exact withRetryLoop_first_call cfg env op fn n 1 none
  · exact withRetry_succeeds_after_retryable_failures cfg env op fn k hk h hfail hok hctx

/-- C6 with the default tuning (4 attempts) at a call that fails twice and then
succeeds: success after 3 calls and 2 waits. -/
theorem withRetry_success_after_k_retries_witness :
    (withRetry defaultClientConfig calmRetryEnv "GET /torrents" failsTwice).result =
      RetryResult.returned none ∧
    (withRetry defaultClientConfig calmRetryEnv "GET /torrents" failsTwice).calls = 3 ∧
    (withRetry defaultClientConfig calmRetryEnv "GET /torrents" failsTwice).waits = 2 :=
  (withRetry_success_after_k_retries defaultClientConfig calmRetryEnv "GET /torrents"
    failsTwice 2 (by decide)
    (fun i h1 h2 => ⟨retryable (GoError.plain "status=503"),
      by simp only [failsTwice, if_pos (show i < 3 by omega)], rfl⟩)
    rfl (fun _ _ => rfl)).2 (Or.inr (by decide))

/-- C7. If attempt `j` of a call fails with a terminal (non-retryable) error
`e`, then in every run in which that attempt is made it is the last thing
`withRetry` does (no wait follows and the call is not invoked again) and
`withRetry` returns the error wrapping `e`.  When it is the first attempt
(which is made as soon as `MaxRetries >= 1`) the call is invoked exactly once
with zero waits. -/
theorem withRetry_terminal_error_stops (cfg : ClientConfig) (env : RetryEnv) (op : String)
    (fn : Nat → Option GoError) (j : Nat) (e : GoError)
    (hfn : fn j = some e) (hterm : isRetryable e = false) :
    (RetryEvent.call j ∈ (withRetry cfg env op fn).events →
      (withRetry cfg env op fn).result =
          RetryResult.returned (some (failedAfterRetries op (some e))) ∧
        ∃ before, (withRetry cfg env op fn).events = before ++ [RetryEvent.call j]) ∧
    (j = 1 → 1 ≤ cfg.MaxRetries →
      (withRetry cfg env op fn).result =
          RetryResult.returned (some (failedAfterRetries op (some e))) ∧
        (withRetry cfg env op fn).events = [RetryEvent.call 1] ∧
        (withRetry cfg env op fn).calls = 1 ∧
        (withRetry cfg env op fn).waits = 0) := by
  constructor
  · intro hmem
    exact withRetryLoop_terminal cfg env op fn j e hfn hterm cfg.MaxRetries.toNat 1 none hmem
  · intro hj hM
    subst hj
    obtain ⟨n, hn⟩ : ∃ n, cfg.MaxRetries.toNat = n + 1 :=
      ⟨cfg.MaxRetries.toNat - 1, by omega⟩
    unfold withRetry
    rw [hn]
    simp [withRetryLoop, hfn, hterm, RetryOutcome.calls, RetryOutcome.waits]

/-- C7 with the default tuning at a call that answers 404: one call, no wait,
and the error names the operation and wraps the 404. -/
theorem withRetry_terminal_error_stops_witness :
    withRetry defaultClientConfig calmRetryEnv "DELETE /torrents/delete/d3" failsTerminally =
      ⟨RetryResult.returned (some (GoError.wrapped
          "DELETE /torrents/delete/d3 failed after retries: status=404"
          (GoError.plain "status=404"))),
        [RetryEvent.call 1]⟩ ∧
    (withRetry defaultClientConfig calmRetryEnv "DELETE /torrents/delete/d3"
        failsTerminally).result =
      RetryResult.returned (some (failedAfterRetries "DELETE /torrents/delete/d3"
        (some (GoError.plain "status=404")))) ∧
    (withRetry defaultClientConfig calmRetryEnv "DELETE /torrents/delete/d3"
        failsTerminally).events = [RetryEvent.call 1] ∧
    (withRetry defaultClientConfig calmRetryEnv "DELETE /torrents/delete/d3"
        failsTerminally).calls = 1 ∧
    (withRetry defaultClientConfig calmRetryEnv "DELETE /torrents/delete/d3"
        failsTerminally).waits = 0 :=
  ⟨by decide,
    (withRetry_terminal_error_stops defaultClientConfig calmRetryEnv
      "DELETE /torrents/delete/d3" failsTerminally 1 (GoError.plain "status=404") rfl rfl).2
      rfl (by decide)⟩

/-- C8. If every one of the `MaxRetries` attempts of a call fails with a
retryable error, then in every run in which the last of them is made
`withRetry` invokes the call exactly `MaxRetries` times, waits exactly
`MaxRetries - 1` times and returns the error built from the operation name and
the error of attempt `MaxRetries`: its message starts with the operation name
and it wraps that last error.  All the attempts are made whenever the context
is never done and the jitter bound is below the largest duration, or
`MaxRetries` is 1. -/
theorem withRetry_exhausted_wraps_last (cfg : ClientConfig) (env : RetryEnv) (op : String)
    (fn : Nat → Option GoError) (m : Nat) (hm : (m : Int) = cfg.MaxRetries) (hpos : 1 ≤ m)
    (hfail : ∀ i, 1 ≤ i → i ≤ m → ∃ e, fn i = some e ∧ isRetryable e = true) :
    ∃ last, fn m = some last ∧
      (RetryEvent.call m ∈ (withRetry cfg env op fn).events →
        (withRetry cfg env op fn).result =
          RetryResult.returned (some (failedAfterRetries op (some last))) ∧
        (withRetry cfg env op fn).calls = m ∧
        (withRetry cfg env op fn).waits = m - 1) ∧
      (m = 1 ∨ (cfg.RetryMaxJitter < maxInt64 ∧ ∀ i d, env.ctxWait i d = none) →
        (withRetry cfg env op fn).result =
          RetryResult.returned (some (failedAfterRetries op (some last))) ∧
        (withRetry cfg env op fn).calls = m ∧
        (withRetry cfg env op fn).waits = m - 1) ∧
      (failedAfterRetries op (some last)).Unwrap = some last ∧
      (failedAfterRetries op (some last)).Error = op ++ " failed after retries: " ++ last.Error ∧
      op.data <+: (failedAfterRetries op (some last)).Error.data := by
  obtain ⟨last, hlast, _⟩ := hfail m hpos (le_refl m)
  have hM : cfg.MaxRetries.toNat = m := by rw [← hm]; exact Int.toNat_natCast m
  have hreached : RetryEvent.call m ∈ (withRetry cfg env op fn).events →
      (withRetry cfg env op fn).result =
        RetryResult.returned (some (failedAfterRetries op (some last))) ∧
      (withRetry cfg env op fn).calls = m ∧
      (withRetry cfg env op fn).waits = m - 1 := by
    intro hmem
    unfold withRetry at hmem ⊢
    rw [hM] at hmem ⊢
    obtain ⟨e, h1, h2, h3, h4⟩ := withRetryLoop_exhausted cfg env op fn m hm hfail m 1 none
      (le_refl 1) (by omega) hmem
    rw [hlast] at h1
    injection h1 with h1
    subst h1
    exact ⟨h2, h3, h4⟩
  refine ⟨last, hlast, hreached, fun h => ?_, rfl, rfl, ?_⟩
  · apply hreached
    unfold withRetry
    rw [hM]
    rcases h with h | ⟨hj, hctx⟩
    · subst h
      exact withRetryLoop_first_call cfg env op fn 0 1 none
    · have := withRetryLoop_reaches cfg env op fn hj hctx (m - 1) m 1 none (by omega)
        (by rw [← hm]; push_cast; omega)
        (fun i hi => by rw [Nat.add_comm]; exact hfail (i + 1) (by omega) (by omega))
      rwa [show 1 + (m - 1) = m by omega] at this
  · simp only [failedAfterRetries, GoError.Error, String.data_append, List.append_assoc]
    exact List.prefix_append _ _

/-- C8 with the default tuning at a call that always fails, with 503 on the
first three attempts and 504 on the fourth: four calls, three waits, and the
error wraps the 504. -/
theorem withRetry_exhausted_wraps_last_witness :
    (withRetry defaultClientConfig calmRetryEnv "GET /torrents" alwaysFails).result =
      RetryResult.returned (some (GoError.wrapped "GET /torrents failed after retries: status=504"
        (retryable (GoError.plain "status=504")))) ∧
    (withRetry defaultClientConfig calmRetryEnv "GET /torrents" alwaysFails).calls = 4 ∧
    (withRetry defaultClientConfig calmRetryEnv "GET /torrents" alwaysFails).waits = 3 ∧
    ∃ last, alwaysFails 4 = some last ∧
      (RetryEvent.call 4 ∈
          (withRetry defaultClientConfig calmRetryEnv "GET /torrents" alwaysFails).events →
        (withRetry defaultClientConfig calmRetryEnv "GET /torrents" alwaysFails).result =
          RetryResult.returned (some (failedAfterRetries "GET /torrents" (some last))) ∧
        (withRetry defaultClientConfig calmRetryEnv "GET /torrents" alwaysFails).calls = 4 ∧
        (withRetry defaultClientConfig calmRetryEnv "GET /torrents" alwaysFails).waits = 4 - 1) ∧
      (4 = 1 ∨ (defaultClientConfig.RetryMaxJitter < maxInt64 ∧
          ∀ i d, calmRetryEnv.ctxWait i d = none) →
        (withRetry defaultClientConfig calmRetryEnv "GET /torrents" alwaysFails).result =
          RetryResult.returned (some (failedAfterRetries "GET /torrents" (some last))) ∧
        (withRetry defaultClientConfig calmRetryEnv "GET /torrents" alwaysFails).calls = 4 ∧
        (withRetry defaultClientConfig calmRetryEnv "GET /torrents" alwaysFails).waits = 4 - 1) ∧
      (failedAfterRetries "GET /torrents" (some last)).Unwrap = some last ∧
      (failedAfterRetries "GET /torrents" (some last)).Error =
        "GET /torrents" ++ " failed after retries: " ++ last.Error ∧
      "GET /torrents".data <+: (failedAfterRetries "GET /torrents" (some last)).Error.data :=
  ⟨by decide, by decide, by decide,
    withRetry_exhausted_wraps_last defaultClientConfig calmRetryEnv "GET /torrents" alwaysFails
      4 rfl (by decide) (fun i _ _ => ⟨_, rfl, rfl⟩)⟩

/-! ## Status classification -/

/-- C9, the claim as stated fails: a response with status 600 is neither 429
nor a 5xx status, and it is not a 2xx status, yet each of the four closures
returns the status error tagged retryable, where the claim has a terminal
failure. -/
theorem status_600_is_retried :
    claimedStatusClass 600 = StatusClass.terminalFailure ∧
    statusClass 600 = StatusClass.retryableFailure ∧
    getJSONAttempt none (Except.ok ⟨600, ""⟩) (fun _ => none) =
      some (retryable (statusError 600)) ∧
    postFormJSONAttempt none (Except.ok ⟨600, ""⟩) (fun _ => none) =
      some (retryable (statusError 600)) ∧
    postFormNoBodyAttempt none (Except.ok ⟨600, ""⟩) = some (retryable (statusError 600)) ∧
    deleteAttempt none (Except.ok ⟨600, ""⟩) = some (retryable (statusError 600)) ∧
    isRetryable (retryable (statusError 600)) = true := by
  decide

/-- C9 as amended. For every status code, body and decoder the four closures
(list, add, select files, delete) treat the status the same way: status 429
and every status from 500 up give the status error tagged retryable; every
other status outside 200 to 299 gives the untagged, terminal status error;
a status from 200 to 299 gives no status error (the closures without a body
return `nil`, the two JSON closures return what decoding returns, tagged
retryable).  Up to 599 this is the classification of the specification. -/
theorem status_classification_uniform (code : Int) (body : String)
    (decode : String → Option GoError) :
    (statusClass code = StatusClass.retryableFailure ↔ code = 429 ∨ 500 ≤ code) ∧
    (statusClass code = StatusClass.terminalFailure ↔
      code ≠ 429 ∧ code < 500 ∧ (code < 200 ∨ 300 ≤ code)) ∧
    (statusClass code = StatusClass.noStatusFailure ↔ 200 ≤ code ∧ code < 300) ∧
    (statusClass code = StatusClass.retryableFailure →
      getJSONAttempt none (Except.ok ⟨code, body⟩) decode =
          some (retryable (statusError code)) ∧
        postFormJSONAttempt none (Except.ok ⟨code, body⟩) decode =
          some (retryable (statusError code)) ∧
        postFormNoBodyAttempt none (Except.ok ⟨code, body⟩) =
          some (retryable (statusError code)) ∧
        deleteAttempt none (Except.ok ⟨code, body⟩) = some (retryable (statusError code)) ∧
        isRetryable (retryable (statusError code)) = true) ∧
    (statusClass code = StatusClass.terminalFailure →
      getJSONAttempt none (Except.ok ⟨code, body⟩) decode = some (statusError code) ∧
        postFormJSONAttempt none (Except.ok ⟨code, body⟩) decode = some (statusError code) ∧
        postFormNoBodyAttempt none (Except.ok ⟨code, body⟩) = some (statusError code) ∧
        deleteAttempt none (Except.ok ⟨code, body⟩) = some (statusError code) ∧
        isRetryable (statusError code) = false) ∧
    (statusClass code = StatusClass.noStatusFailure →
      getJSONAttempt none (Except.ok ⟨code, body⟩) decode = (decode body).map retryable ∧
        postFormJSONAttempt none (Except.ok ⟨code, body⟩) decode =
          (decode body).map retryable ∧
        postFormNoBodyAttempt none (Except.ok ⟨code, body⟩) = none ∧
        deleteAttempt none (Except.ok ⟨code, body⟩) = none) ∧
    (code ≤ 599 → statusClass code = claimedStatusClass code) := by
  have hcases : (code = 429 ∨ 500 ≤ code) ∨
      (code ≠ 429 ∧ code < 500 ∧ (code < 200 ∨ 300 ≤ code)) ∨ (200 ≤ code ∧ code < 300) := by
    omega
  rcases hcases with h | h | h
  · have h1 : (code == 429 || decide (code ≥ 500)) = true := by
      rcases h with h | h
      · simp [h]
      · simp [h]
    have hs : statusClass code = StatusClass.retryableFailure := by
      simp only [statusClass, h1, if_true]
    refine ⟨by simp [hs, h], ?_, ?_, ?_, by simp [hs], by simp [hs], ?_⟩
    · simp only [hs]; constructor
      · intro h'; cases h'
      · intro h'; omega
    · simp only [hs]; constructor
      · intro h'; cases h'
      · intro h'; omega
    · intro _
      simp only [getJSONAttempt, postFormJSONAttempt, postFormNoBodyAttempt, deleteAttempt, h1,
        if_true, isRetryable, retryable, and_self]
    · intro h599
      rw [hs]
      have : code = 429 ∨ (500 ≤ code ∧ code ≤ 599) := by omega
      simp only [claimedStatusClass, this, if_true]
  · have h1 : (code == 429 || decide (code ≥ 500)) = false := by
      have h429 : ¬ code = 429 := h.1
      have h500 : ¬ code ≥ 500 := by omega
      simp [h429, h500]
    have h2 : (decide (code < 200) || decide (code ≥ 300)) = true := by
      rcases h.2.2 with h' | h'
      · simp [h']
      · simp [h']
    have hs : statusClass code = StatusClass.terminalFailure := by
      simp only [statusClass, h1, h2, if_true, Bool.false_eq_true, if_false]
    refine ⟨?_, by simp [hs, h], ?_, by simp [hs], ?_, by simp [hs], ?_⟩
    · simp only [hs]; constructor
      · intro h'; cases h'
      · intro h'; omega
    · simp only [hs]; constructor
      · intro h'; cases h'
      · intro h'; omega
    · intro _
      simp only [getJSONAttempt, postFormJSONAttempt, postFormNoBodyAttempt, deleteAttempt, h1,
        h2, if_true, Bool.false_eq_true, if_false, statusError, isRetryable, and_self]
    · intro _
      rw [hs]
      have n1 : ¬ (code = 429 ∨ (500 ≤ code ∧ code ≤ 599)) := by omega
      have n2 : code < 200 ∨ 300 ≤ code := h.2.2
      simp only [claimedStatusClass, n1, n2, if_true, if_false]
  · have h1 : (code == 429 || decide (code ≥ 500)) = false := by
      have h429 : ¬ code = 429 := by omega
      have h500 : ¬ code ≥ 500 := by omega
      simp [h429, h500]
    have h2 : (decide (code < 200) || decide (code ≥ 300)) = false := by
      have a : ¬ code < 200 := by omega
      have b : ¬ code ≥ 300 := by omega
      simp [a, b]
    have hs : statusClass code = StatusClass.noStatusFailure := by
      simp only [statusClass, h1, h2, Bool.false_eq_true, if_false]
    refine ⟨?_, ?_, by simp [hs, h], by simp [hs], by simp [hs], ?_, ?_⟩
    · simp only [hs]; constructor
      · intro h'; cases h'
      · intro h'; omega
    · simp only [hs]; constructor
      · intro h'; cases h'
      · intro h'; omega
    · intro _
      simp only [getJSONAttempt, postFormJSONAttempt, postFormNoBodyAttempt, deleteAttempt, h1,
        h2, Bool.false_eq_true, if_false, and_true]
      cases decode body <;> simp
    · intro _
      rw [hs]
      have n1 : ¬ (code = 429 ∨ (500 ≤ code ∧ code ≤ 599)) := by omega
      have n2 : ¬ (code < 200 ∨ 300 ≤ code) := by omega
      simp only [claimedStatusClass, n1, n2, if_false]

/-- At the largest jitter bound `int64(max) + 1` wraps to the smallest
`int64`, `Int63n` panics, and `withRetry` ends after its first call. -/
theorem withRetry_panics_at_largest_jitter :
    withRetry { defaultClientConfig with RetryMaxJitter := maxInt64 } calmRetryEnv
        "GET /torrents" failsTwice =
      ⟨RetryResult.panicked "invalid argument to Int63n", [RetryEvent.call 1]⟩ := by
  decide

/-! ## Fatal conditions and absorbed failures -/

/-- C11. If the protection pattern is non-empty and does not compile, then
for every mode and every dry-run setting, whatever the listings return,
`RunOnce` returns a non-nil error and every call it issues is a listing call
(no add, select-files or delete call); when both listings succeed the error
returned is the compile error. -/
theorem invalid_pattern_aborts (env : Env) (cfg : RunnerConfig) (e : GoError)
    (hne : cfg.ProtectDstRegex ≠ "")
    (hbad : env.regexpCompile cfg.ProtectDstRegex = Except.error e) :
    (RunOnce env cfg).err ≠ none ∧
    (∀ c ∈ (RunOnce env cfg).calls,
      c.isList = true ∧ c.isAdd = false ∧ c.isSelect = false ∧ c.isDelete = false) ∧
    (∀ S D, env.api.ListAllTorrents [] cfg.SrcToken = Except.ok S →
      env.api.ListAllTorrents [Call.ListAllTorrents cfg.SrcToken] cfg.DstToken = Except.ok D →
      (RunOnce env cfg).err = some e ∧
      (RunOnce env cfg).calls =
        [Call.ListAllTorrents cfg.SrcToken, Call.ListAllTorrents cfg.DstToken]) := by
  have hP : compileProtect env cfg.ProtectDstRegex = Except.error e := by
    simp only [compileProtect, hne, ne_eq, not_false_eq_true, if_true, hbad]
  cases hS : env.api.ListAllTorrents [] cfg.SrcToken with
  | error e' => simp [RunOnce, hS, Call.isList, Call.isAdd, Call.isSelect, Call.isDelete]
  | ok S =>
    cases hD : env.api.ListAllTorrents [Call.ListAllTorrents cfg.SrcToken] cfg.DstToken with
    | error e' => simp [RunOnce, hS, hD, Call.isList, Call.isAdd, Call.isSelect, Call.isDelete]
    | ok D => simp [RunOnce, hS, hD, hP, Call.isList, Call.isAdd, Call.isSelect, Call.isDelete]

/-- C11 at the snapshots of `TestRunOnceMirrorDeleteWithProtection` with a
pattern that does not compile: the run ends after the two listings with the
compile error. -/
theorem invalid_pattern_aborts_witness :
    (RunOnce (testEnv mirrorSrc mirrorDst) badPatternCfg).err =
      some (GoError.plain "error parsing regexp") ∧
    (RunOnce (testEnv mirrorSrc mirrorDst) badPatternCfg).calls =
      [Call.ListAllTorrents "src", Call.ListAllTorrents "dst"] :=
  (invalid_pattern_aborts (testEnv mirrorSrc mirrorDst) badPatternCfg
    (GoError.plain "error parsing regexp") (by decide) rfl).2.2 mirrorSrc mirrorDst rfl rfl

/-! ## Normalization -/

theorem toLower_of_upper (c : Char) (h1 : 65 ≤ c.toNat) (h2 : c.toNat ≤ 90) :
    (Char.toLower c).toNat = c.toNat + 32 := by
  have hc : c = Char.ofNat c.toNat := (Char.ofNat_toNat c).symm
  generalize c.toNat = n at hc h1 h2
  subst hc
  interval_cases n <;> rfl

theorem toLower_of_not_upper (c : Char) (h : ¬ (65 ≤ c.toNat ∧ c.toNat ≤ 90)) :
    Char.toLower c = c := by
  unfold Char.toLower
  simp only [ge_iff_le]
  rw [if_neg h]

theorem toLower_toLower (c : Char) : (Char.toLower c).toLower = Char.toLower c := by
  by_cases h : 65 ≤ c.toNat ∧ c.toNat ≤ 90
  · apply toLower_of_not_upper
    rw [toLower_of_upper c h.1 h.2]
    omega
  · rw [toLower_of_not_upper c h, toLower_of_not_upper c h]

theorem isSpace_toLower (c : Char) : isSpace (Char.toLower c) = isSpace c := by
  by_cases h : 65 ≤ c.toNat ∧ c.toNat ≤ 90
  · have h' := toLower_of_upper c h.1 h.2
    have e1 : isSpace (Char.toLower c) = false := by
      unfold isSpace
      rw [h']
      simp only [Bool.or_eq_false_iff, beq_eq_false_iff_ne, Bool.and_eq_false_iff,
        decide_eq_false_iff_not]
      omega
    have e2 : isSpace c = false := by
      unfold isSpace
      simp only [Bool.or_eq_false_iff, beq_eq_false_iff_ne, Bool.and_eq_false_iff,
        decide_eq_false_iff_not]
      omega
    rw [e1, e2]
  · rw [toLower_of_not_upper c h]

/-! ## The lower-case table -/

set_option maxRecDepth 1000000 in
theorem lowerRowsChecked_true : lowerRowsChecked = true := by decide

theorem CaseRow.covers_iff (row : CaseRow) (n : Nat) :
    row.covers n = true ↔ row.lo ≤ n ∧ n ≤ row.hi ∧ (n - row.lo) % row.step = 0 := by
  simp [CaseRow.covers, and_assoc]

theorem lowerRows_checked (row : CaseRow) (hrow : row ∈ lowerRows) :
    row.wellFormed = true ∧ ∀ other ∈ lowerRows, row.clear other = true := by
  have h := lowerRowsChecked_true
  unfold lowerRowsChecked at h
  have h1 := List.all_eq_true.1 h row hrow
  simp only [Bool.and_eq_true] at h1
  exact ⟨h1.1, fun other ho => List.all_eq_true.1 h1.2 other ho⟩

theorem CaseRow.wellFormed_iff (row : CaseRow) :
    row.wellFormed = true ↔
      128 ≤ row.lo ∧ row.lo ≤ row.hi ∧ (row.step = 1 ∨ row.step = 2) ∧
      (row.target + (row.hi - row.lo) < 0xD800 ∨
        (0xE000 ≤ row.target ∧ row.target + (row.hi - row.lo) < 0x110000)) ∧
      (90 < row.target ∨ row.target + (row.hi - row.lo) < 65) ∧
      noSpaceBetween row.lo row.hi = true ∧
      noSpaceBetween row.target (row.target + (row.hi - row.lo)) = true := by
  simp [CaseRow.wellFormed, and_assoc]

theorem CaseRow.clear_sound (row other : CaseRow) (hw : row.wellFormed = true)
    (hc : row.clear other = true) (n : Nat) (hn : row.covers n = true) :
    other.covers (row.target + (n - row.lo)) = false := by
  rw [CaseRow.wellFormed_iff] at hw
  rw [CaseRow.covers_iff] at hn
  rw [← Bool.not_eq_true, CaseRow.covers_iff]
  obtain ⟨lo, hi, step, target⟩ := row
  obtain ⟨lo2, hi2, step2, target2⟩ := other
  simp only [CaseRow.clear, Bool.or_eq_true, Bool.and_eq_true, decide_eq_true_eq,
    beq_iff_eq] at hc
  simp only at hw hn ⊢
  obtain ⟨_, _, hstep, _⟩ := hw
  rcases hc with (hc | hc) | ⟨⟨hs2, hs⟩, hpar⟩
  · omega
  · omega
  · subst hs2
    rcases hs with hs | hs
    · subst hs
      omega
    · rcases hstep with h1 | h1 <;> subst h1 <;> omega

theorem toLowerRune_of_covers (n : Nat) (hn : 127 < n) (row : CaseRow)
    (hf : lowerRows.find? (fun row => row.covers n) = some row) :
    toLowerRune n = row.target + (n - row.lo) := by
  unfold toLowerRune
  rw [if_neg (by omega), hf]

theorem toLowerRune_of_not_covered (n : Nat)
    (hf : lowerRows.find? (fun row => row.covers n) = none) (hu : ¬ (65 ≤ n ∧ n ≤ 90)) :
    toLowerRune n = n := by
  unfold toLowerRune
  by_cases h : n ≤ 127
  · rw [if_pos h, if_neg hu]
  · rw [if_neg h, hf]

theorem toLowerRune_cases (n : Nat) :
    toLowerRune n = n ∨ (65 ≤ n ∧ n ≤ 90 ∧ toLowerRune n = n + 32) ∨
      (127 < n ∧ ∃ row ∈ lowerRows, row.covers n = true ∧
        toLowerRune n = row.target + (n - row.lo)) := by
  by_cases h : n ≤ 127
  · by_cases hu : 65 ≤ n ∧ n ≤ 90
    · exact Or.inr (Or.inl ⟨hu.1, hu.2, by unfold toLowerRune; rw [if_pos h, if_pos hu]⟩)
    · exact Or.inl (by unfold toLowerRune; rw [if_pos h, if_neg hu])
  · cases hf : lowerRows.find? (fun row => row.covers n) with
    | none => exact Or.inl (toLowerRune_of_not_covered n hf (by omega))
    | some row =>
      have hcov := List.find?_some hf
      exact Or.inr (Or.inr ⟨by omega, row, List.mem_of_find?_eq_some hf,
        hcov, toLowerRune_of_covers n (by omega) row hf⟩)

theorem toLowerRune_image_fixed (row : CaseRow) (hrow : row ∈ lowerRows) (n : Nat)
    (hn : row.covers n = true) :
    toLowerRune (row.target + (n - row.lo)) = row.target + (n - row.lo) := by
  obtain ⟨hw, hclear⟩ := lowerRows_checked row hrow
  apply toLowerRune_of_not_covered
  · rw [List.find?_eq_none]
    intro other ho
    rw [CaseRow.clear_sound row other hw (hclear other ho) n hn]
    simp
  · rw [CaseRow.wellFormed_iff] at hw
    rw [CaseRow.covers_iff] at hn
    omega

theorem toLowerRune_idem (n : Nat) : toLowerRune (toLowerRune n) = toLowerRune n := by
  rcases toLowerRune_cases n with h | ⟨h1, h2, h⟩ | ⟨_, row, hrow, hc, h⟩
  · rw [h, h]
  · rw [h]
    unfold toLowerRune
    rw [if_pos (by omega), if_neg (by omega)]
  · rw [h]
    exact toLowerRune_image_fixed row hrow n hc

theorem toLowerRune_valid (n : Nat) (hv : n.isValidChar) : (toLowerRune n).isValidChar := by
  rcases toLowerRune_cases n with h | ⟨h1, h2, h⟩ | ⟨_, row, hrow, hc, h⟩
  · rw [h]; exact hv
  · rw [h]
    exact Or.inl (by omega)
  · rw [h]
    have hw := (lowerRows_checked row hrow).1
    rw [CaseRow.wellFormed_iff] at hw
    rw [CaseRow.covers_iff] at hc
    unfold Nat.isValidChar
    omega

theorem toNat_ofNat_of_valid (n : Nat) (hv : n.isValidChar) : (Char.ofNat n).toNat = n := by
  unfold Char.ofNat
  rw [dif_pos hv]
  rfl

theorem toNat_unicodeToLower (c : Char) : (unicodeToLower c).toNat = toLowerRune c.toNat := by
  unfold unicodeToLower
  apply toNat_ofNat_of_valid
  apply toLowerRune_valid
  exact c.valid

theorem unicodeToLower_idem (c : Char) :
    unicodeToLower (unicodeToLower c) = unicodeToLower c := by
  apply char_eq_of_toNat_eq
  rw [toNat_unicodeToLower, toNat_unicodeToLower, toLowerRune_idem]

theorem noSpaceBetween_isSpace (a b : Nat) (h : noSpaceBetween a b = true) (c : Char)
    (ha : a ≤ c.toNat) (hb : c.toNat ≤ b) : isSpace c = false := by
  simp only [noSpaceBetween, Bool.and_eq_true, Bool.or_eq_true, decide_eq_true_eq] at h
  unfold isSpace
  simp only [Bool.or_eq_false_iff, beq_eq_false_iff_ne, Bool.and_eq_false_iff,
    decide_eq_false_iff_not]
  omega

theorem isSpace_unicodeToLower (c : Char) : isSpace (unicodeToLower c) = isSpace c := by
  have ht := toNat_unicodeToLower c
  rcases toLowerRune_cases c.toNat with h | ⟨h1, h2, h⟩ | ⟨_, row, hrow, hc, h⟩
  · rw [char_eq_of_toNat_eq (unicodeToLower c) c (by rw [ht, h])]
  · rw [noSpaceBetween_isSpace 97 122 (by decide) (unicodeToLower c) (by omega) (by omega),
      noSpaceBetween_isSpace 65 90 (by decide) c h1 h2]
  · have hw := (lowerRows_checked row hrow).1
    rw [CaseRow.wellFormed_iff] at hw
    rw [CaseRow.covers_iff] at hc
    rw [noSpaceBetween_isSpace _ _ hw.2.2.2.2.2.2 (unicodeToLower c) (by omega) (by omega),
      noSpaceBetween_isSpace _ _ hw.2.2.2.2.2.1 c hc.1 hc.2.1]

theorem unicodeToLower_ascii (c : Char) (h : c.toNat ≤ 127) : unicodeToLower c = c.toLower := by
  apply char_eq_of_toNat_eq
  rw [toNat_unicodeToLower]
  unfold toLowerRune
  rw [if_pos h]
  by_cases hu : 65 ≤ c.toNat ∧ c.toNat ≤ 90
  · rw [if_pos hu]
    have hc : c = Char.ofNat c.toNat := (Char.ofNat_toNat c).symm
    obtain ⟨h1, h2⟩ := hu
    generalize c.toNat = n at hc h1 h2
    subst hc
    interval_cases n <;> rfl
  · rw [if_neg hu]
    unfold Char.toLower
    simp only [ge_iff_le]
    rw [if_neg hu]

/-! ## Trimming and lower-casing -/

theorem dropWhile_map_toLower (l : List Char) :
    (l.map unicodeToLower).dropWhile isSpace = (l.dropWhile isSpace).map unicodeToLower := by
  induction l with
  | nil => rfl
  | cons c cs ih =>
    simp only [List.map_cons, List.dropWhile_cons, isSpace_unicodeToLower]
    split
    · exact ih
    · rfl

theorem rdropWhile_map_toLower (l : List Char) :
    (l.map unicodeToLower).rdropWhile isSpace = (l.rdropWhile isSpace).map unicodeToLower := by
  unfold List.rdropWhile
  rw [← List.map_reverse, dropWhile_map_toLower, List.map_reverse]

theorem dropWhile_rdropWhile_of_fixed (d : List Char) (hd : d.dropWhile isSpace = d) :
    (d.rdropWhile isSpace).dropWhile isSpace = d.rdropWhile isSpace := by
  cases d with
  | nil => simp
  | cons c cs =>
    have hc : ¬ isSpace c = true := by
      intro hc
      have hlen := congrArg List.length hd
      simp only [List.dropWhile_cons, hc, if_true, List.length_cons] at hlen
      have := (List.dropWhile_sublist isSpace (l := cs)).length_le
      omega
    obtain ⟨t, ht⟩ := List.rdropWhile_prefix isSpace (c :: cs)
    cases hr : List.rdropWhile isSpace (c :: cs) with
    | nil => rfl
    | cons a x =>
      rw [hr] at ht
      have hac : a = c := by
        simp only [List.cons_append, List.cons.injEq] at ht
        exact ht.1
      subst hac
      simp [List.dropWhile_cons, hc]

theorem trim_dropWhile_self (l : List Char) :
    ((l.dropWhile isSpace).rdropWhile isSpace).dropWhile isSpace =
      (l.dropWhile isSpace).rdropWhile isSpace :=
  dropWhile_rdropWhile_of_fixed _ (List.dropWhile_idempotent isSpace l)

theorem TrimSpace_TrimSpace (s : String) : TrimSpace (TrimSpace s) = TrimSpace s := by
  unfold TrimSpace
  simp only [trim_dropWhile_self, List.rdropWhile_idempotent]

theorem ToLower_ToLower (s : String) : ToLower (ToLower s) = ToLower s := by
  unfold ToLower
  simp only [List.map_map]
  congr 1
  apply List.map_congr_left
  intro c _
  exact unicodeToLower_idem c

theorem TrimSpace_ToLower (s : String) : TrimSpace (ToLower s) = ToLower (TrimSpace s) := by
  unfold TrimSpace ToLower
  simp only [dropWhile_map_toLower, rdropWhile_map_toLower]

theorem normalizeHash_idempotent (h : String) :
    normalizeHash (normalizeHash h) = normalizeHash h := by
  unfold normalizeHash
  rw [TrimSpace_ToLower, TrimSpace_TrimSpace, ToLower_ToLower]

theorem rdropWhile_append_spaces (z r : List Char) (hr : ∀ c ∈ r, isSpace c = true) :
    (z ++ r).rdropWhile isSpace = z.rdropWhile isSpace := by
  unfold List.rdropWhile
  rw [List.reverse_append, List.dropWhile_append_of_pos (fun c hc => hr c (List.mem_reverse.1 hc))]

theorem trim_append_spaces (x r : List Char) (hr : ∀ c ∈ r, isSpace c = true) :
    ((x ++ r).dropWhile isSpace).rdropWhile isSpace =
      (x.dropWhile isSpace).rdropWhile isSpace := by
  induction x with
  | nil =>
    have : r.dropWhile isSpace = [] := List.dropWhile_eq_nil_iff.2 hr
    simp [this]
  | cons c cs ih =>
    by_cases hc : isSpace c = true
    · simp only [List.cons_append, List.dropWhile_cons, hc, if_true]
      exact ih
    · simp only [List.cons_append, List.dropWhile_cons, hc, if_false, Bool.false_eq_true]
      exact rdropWhile_append_spaces (c :: cs) r hr

theorem trim_spaces_around (l x r : List Char) (hl : ∀ c ∈ l, isSpace c = true)
    (hr : ∀ c ∈ r, isSpace c = true) :
    TrimSpace ⟨l ++ x ++ r⟩ = TrimSpace ⟨x⟩ := by
  unfold TrimSpace
  simp only [List.append_assoc, List.dropWhile_append_of_pos hl, trim_append_spaces x r hr]

theorem map_toLower_of_forall₂ (x y : List Char)
    (h : List.Forall₂ (fun c d => unicodeToLower c = unicodeToLower d) x y) :
    x.map unicodeToLower = y.map unicodeToLower := by
  induction h with
  | nil => rfl
  | cons hcd _ ih => simp only [List.map_cons, hcd, ih]

theorem normalizeHash_case_insensitive (l₁ x r₁ l₂ y r₂ : List Char)
    (hl₁ : ∀ c ∈ l₁, isSpace c = true) (hr₁ : ∀ c ∈ r₁, isSpace c = true)
    (hl₂ : ∀ c ∈ l₂, isSpace c = true) (hr₂ : ∀ c ∈ r₂, isSpace c = true)
    (hxy : List.Forall₂ (fun c d => unicodeToLower c = unicodeToLower d) x y) :
    normalizeHash ⟨l₁ ++ x ++ r₁⟩ = normalizeHash ⟨l₂ ++ y ++ r₂⟩ := by
  unfold normalizeHash
  rw [trim_spaces_around l₁ x r₁ hl₁ hr₁, trim_spaces_around l₂ y r₂ hl₂ hr₂,
    ← TrimSpace_ToLower, ← TrimSpace_ToLower]
  have : ToLower ⟨x⟩ = ToLower ⟨y⟩ := by
    unfold ToLower
    rw [map_toLower_of_forall₂ x y hxy]
  rw [this]

/-- C12, the claim as stated fails: "Σ" is the capital of the two small
letters "σ" and "ς" (`strings.ToUpper` maps both to "Σ" and
`strings.EqualFold` holds the three equal), so "ς" and "Σ" differ only in
letter case; but `normalizeHash` maps "Σ" to "σ" and leaves "ς" as it is.  The
same holds of "S" and the long s "ſ", whose capital is "S". -/
theorem normalizeHash_keeps_final_sigma_apart :
    normalizeHash "Σ" = "σ" ∧ normalizeHash "ς" = "ς" ∧
    normalizeHash "Σ" ≠ normalizeHash "ς" ∧
    normalizeHash "S" = "s" ∧ normalizeHash "ſ" = "ſ" ∧
    normalizeHash "S" ≠ normalizeHash "ſ" := by
  decide

/-- C12 as amended. `normalizeHash` is idempotent, and two strings get the
same key when they differ only in leading or trailing white space and in
runes with the same lower-case form: if each string is white space, a core,
white space, and the two cores agree rune by rune up to `unicode.ToLower`, the
normalized hashes are equal.  On ASCII `unicode.ToLower` is the lower-casing
of the letters `A`-`Z`, so ASCII strings that differ only in letter case get
the same key; "ABC " and "abc" both normalize to "abc". -/
theorem normalizeHash_idempotent_and_case_insensitive :
    (∀ h : String, normalizeHash (normalizeHash h) = normalizeHash h) ∧
    (∀ l₁ x r₁ l₂ y r₂ : List Char,
      (∀ c ∈ l₁, isSpace c = true) → (∀ c ∈ r₁, isSpace c = true) →
      (∀ c ∈ l₂, isSpace c = true) → (∀ c ∈ r₂, isSpace c = true) →
      List.Forall₂ (fun c d => unicodeToLower c = unicodeToLower d) x y →
      normalizeHash ⟨l₁ ++ x ++ r₁⟩ = normalizeHash ⟨l₂ ++ y ++ r₂⟩) ∧
    (∀ c : Char, c.toNat ≤ 127 → unicodeToLower c = c.toLower) ∧
    (∀ c : Char, unicodeToLower (unicodeToLower c) = unicodeToLower c) ∧
    (∀ c : Char, isSpace (unicodeToLower c) = isSpace c) ∧
    normalizeHash "ABC " = normalizeHash "abc" ∧
    normalizeHash "ABC " = "abc" ∧
    normalizeHash " É\t" = "é" ∧ normalizeHash "\u212A" = "k" :=
  ⟨normalizeHash_idempotent, normalizeHash_case_insensitive, unicodeToLower_ascii,
    unicodeToLower_idem, isSpace_unicodeToLower, by decide, by decide, by decide, by decide⟩

/-! ## The add loop in detail -/

theorem Call.isAdd_of_addedHash_none (c : Call) (h : c.addedHash = none) : c.isAdd = false := by
  cases c <;> simp_all [Call.isAdd, Call.addedHash]

theorem filter_isAdd_append_of_none (calls extra : List Call)
    (h : ∀ c ∈ extra, c.isAdd = false) :
    (calls ++ extra).filter Call.isAdd = calls.filter Call.isAdd := by
  rw [List.filter_append]
  have : extra.filter Call.isAdd = [] := by
    rw [List.filter_eq_nil_iff]
    intro c hc
    rw [h c hc]
    simp
  rw [this, List.append_nil]

theorem selectFilesWithRetry_filter_isAdd (env : Env) (token torrentID : String)
    (initialDelay maxAttempts retryDelay : Int) (calls : List Call) :
    (selectFilesWithRetry env token torrentID initialDelay maxAttempts retryDelay
      calls).2.filter Call.isAdd = calls.filter Call.isAdd := by
  obtain ⟨extra, h1, h2⟩ := selectFilesWithRetry_calls env token torrentID initialDelay
    maxAttempts retryDelay calls
  rw [h1]
  exact filter_isAdd_append_of_none calls extra
    (fun c hc => Call.isAdd_of_addedHash_none c (h2 c hc).1)

theorem writeDelay_filter_isAdd (cfg : RunnerConfig) (calls : List Call) :
    (writeDelay cfg calls).filter Call.isAdd = calls.filter Call.isAdd := by
  obtain ⟨extra, h1, h2⟩ := writeDelay_calls cfg calls
  rw [h1]
  exact filter_isAdd_append_of_none calls extra (fun c hc => (h2 c hc).2.2.1)

theorem applyAdds_filter_isAdd (env : Env) (cfg : RunnerConfig) (hd : cfg.DryRun = false)
    (l : List String) (st : Stats) (calls : List Call) :
    (applyAdds env cfg l st calls).2.filter Call.isAdd =
      calls.filter Call.isAdd ++ l.map (Call.AddMagnetByHash cfg.DstToken) := by
  induction l generalizing st calls with
  | nil => simp [applyAdds]
  | cons h rest ih =>
    simp only [applyAdds, hd, Bool.false_eq_true, if_false]
    cases ha : env.api.AddMagnetByHash calls cfg.DstToken h with
    | error e =>
      simp only []
      rw [ih]
      simp [List.filter_append, Call.isAdd]
    | ok newID =>
      simp only []
      cases hsel : (selectFilesWithRetry env cfg.DstToken newID (2 * second) 3 (3 * second)
          (calls ++ [Call.AddMagnetByHash cfg.DstToken h])).1 with
      | some e =>
        simp only []
        rw [ih, selectFilesWithRetry_filter_isAdd]
        simp [List.filter_append, Call.isAdd]
      | none =>
        simp only []
        rw [ih, writeDelay_filter_isAdd, selectFilesWithRetry_filter_isAdd]
        simp [List.filter_append, Call.isAdd]

theorem applyDeletes_filter_isAdd (env : Env) (cfg : RunnerConfig) (dstByHash : GoMap)
    (l : List String) (st : Stats) (calls : List Call) :
    (applyDeletes env cfg dstByHash l st calls).2.filter Call.isAdd =
      calls.filter Call.isAdd := by
  obtain ⟨extra, h1, h2⟩ := applyDeletes_calls env cfg dstByHash l st calls
  rw [h1]
  exact filter_isAdd_append_of_none calls extra (fun c hc => (h2 c hc).1)

theorem applyPhase_filter_isAdd (env : Env) (cfg : RunnerConfig) (protectRe : Option Regexp)
    (src dst : List Torrent) (st : Stats) (calls : List Call) (hd : cfg.DryRun = false) :
    (applyPhase env cfg protectRe src dst st calls).2.filter Call.isAdd =
      calls.filter Call.isAdd ++ (needAddOf src dst).map (Call.AddMagnetByHash cfg.DstToken) := by
  unfold applyPhase
  by_cases hm : cfg.Mode = ModeMirrorDelete
  · simp only [hm, if_true]
    rw [applyDeletes_filter_isAdd, applyAdds_filter_isAdd env cfg hd]
  · simp only [hm, if_false]
    rw [applyAdds_filter_isAdd env cfg hd]

theorem RunOnce_err_ok (env : Env) (cfg : RunnerConfig) (S D : List Torrent)
    (protectRe : Option Regexp)
    (hS : env.api.ListAllTorrents [] cfg.SrcToken = Except.ok S)
    (hD : env.api.ListAllTorrents [Call.ListAllTorrents cfg.SrcToken] cfg.DstToken =
      Except.ok D)
    (hP : compileProtect env cfg.ProtectDstRegex = Except.ok protectRe) :
    (RunOnce env cfg).err = none := by
  rw [RunOnce_ok env cfg S D protectRe hS hD hP, reconcile_eq]

/-- C13. In a run that is not a dry run and reaches the apply phase, whatever
the add and select-files calls answer: the `AddMagnetByHash` calls `RunOnce`
issues are exactly one per key of `needAdd`, in the ascending order of
`needAdd`, each with the destination token and the key (a non-empty
normalized source hash); `Added + AddErrors = NeedAdd` on return; and the
returned error is nil. -/
theorem every_needAdd_key_is_tried (env : Env) (cfg : RunnerConfig) (S D : List Torrent)
    (protectRe : Option Regexp)
    (hdry : cfg.DryRun = false)
    (hS : env.api.ListAllTorrents [] cfg.SrcToken = Except.ok S)
    (hD : env.api.ListAllTorrents [Call.ListAllTorrents cfg.SrcToken] cfg.DstToken =
      Except.ok D)
    (hP : compileProtect env cfg.ProtectDstRegex = Except.ok protectRe) :
    (RunOnce env cfg).calls.filter Call.isAdd =
      (needAddOf S D).map (Call.AddMagnetByHash cfg.DstToken) ∧
    (needAddOf S D).Sorted (· < ·) ∧
    (∀ h ∈ needAddOf S D, h ≠ "" ∧ ∃ s ∈ S, normalizeHash s.Hash = h) ∧
    (RunOnce env cfg).stats.NeedAdd = (needAddOf S D).length ∧
    (RunOnce env cfg).stats.Added + (RunOnce env cfg).stats.AddErrors =
      (RunOnce env cfg).stats.NeedAdd ∧
    (RunOnce env cfg).err = none := by
  obtain ⟨a, ae, d, de, fin, hst, _, _, hsum, _⟩ :=
    RunOnce_stats_ok env cfg S D protectRe hS hD hP
  refine ⟨?_, needAddOf_sorted S D, ?_, ?_, ?_, RunOnce_err_ok env cfg S D protectRe hS hD hP⟩
  · rw [RunOnce_ok env cfg S D protectRe hS hD hP, reconcile_eq]
    simp only []
    rw [applyPhase_filter_isAdd _ _ _ _ _ _ _ hdry]
    simp [Call.isAdd]
  · intro h hh
    have := (mem_needAddOf S D h).1 hh
    exact ⟨this.1, this.2.1⟩
  · rw [hst]; simp [diffStats]
  · rw [hst]; simp only [diffStats]; exact hsum hdry

/-- C13 at `TestRunOnceAddOnly`: the one key "b" is added once. -/
theorem every_needAdd_key_is_tried_witness :
    (RunOnce (testEnv addOnlySrc addOnlyDst) addOnlyCfg).calls.filter Call.isAdd =
      [Call.AddMagnetByHash "dst" "b"] ∧
    (RunOnce (testEnv addOnlySrc addOnlyDst) addOnlyCfg).stats.Added = 1 ∧
    (RunOnce (testEnv addOnlySrc addOnlyDst) addOnlyCfg).stats.Added +
        (RunOnce (testEnv addOnlySrc addOnlyDst) addOnlyCfg).stats.AddErrors =
      (RunOnce (testEnv addOnlySrc addOnlyDst) addOnlyCfg).stats.NeedAdd ∧
    (RunOnce (testEnv addOnlySrc addOnlyDst) addOnlyCfg).err = none :=
  ⟨by decide, by decide,
    (every_needAdd_key_is_tried (testEnv addOnlySrc addOnlyDst) addOnlyCfg addOnlySrc addOnlyDst
      none rfl rfl rfl rfl).2.2.2.2.1,
    (every_needAdd_key_is_tried (testEnv addOnlySrc addOnlyDst) addOnlyCfg addOnlySrc addOnlyDst
      none rfl rfl rfl rfl).2.2.2.2.2⟩

/-! ## Cancellation during the apply phases -/

theorem selectFilesWithRetry_cancelled (env : Env) (token torrentID : String)
    (initialDelay maxAttempts retryDelay : Int) (calls : List Call) (e : GoError)
    (h : env.ctxSleep calls initialDelay = some e) :
    selectFilesWithRetry env token torrentID initialDelay maxAttempts retryDelay calls =
      (some e, calls ++ [Call.TimerWait initialDelay]) := by
  simp only [selectFilesWithRetry, h]

theorem applyAdds_cancelled (env : Env) (cfg : RunnerConfig) (hd : cfg.DryRun = false)
    (hc : ∀ calls d, ∃ e, env.ctxSleep calls d = some e)
    (l : List String) (st : Stats) (calls : List Call) :
    (applyAdds env cfg l st calls).1 = { st with AddErrors := st.AddErrors + l.length } ∧
    (applyAdds env cfg l st calls).2.filter Call.isSelect = calls.filter Call.isSelect := by
  induction l generalizing st calls with
  | nil => simp [applyAdds]
  | cons h rest ih =>
    simp only [applyAdds, hd, Bool.false_eq_true, if_false]
    cases ha : env.api.AddMagnetByHash calls cfg.DstToken h with
    | error e =>
      simp only []
      obtain ⟨h1, h2⟩ := ih { st with AddErrors := st.AddErrors + 1 }
        (calls ++ [Call.AddMagnetByHash cfg.DstToken h])
      refine ⟨?_, ?_⟩
      · rw [h1]; simp only [Stats.mk.injEq, List.length_cons, true_and, and_true]; omega
      · rw [h2]; simp [List.filter_append, Call.isSelect]
    | ok newID =>
      simp only []
      obtain ⟨e, he⟩ := hc (calls ++ [Call.AddMagnetByHash cfg.DstToken h]) (2 * second)
      rw [selectFilesWithRetry_cancelled env cfg.DstToken newID (2 * second) 3 (3 * second)
        (calls ++ [Call.AddMagnetByHash cfg.DstToken h]) e he]
      simp only []
      obtain ⟨h1, h2⟩ := ih { st with AddErrors := st.AddErrors + 1 }
        (calls ++ [Call.AddMagnetByHash cfg.DstToken h] ++ [Call.TimerWait (2 * second)])
      refine ⟨?_, ?_⟩
      · rw [h1]; simp only [Stats.mk.injEq, List.length_cons, true_and, and_true]; omega
      · rw [h2]; simp [List.filter_append, Call.isSelect]

/-- C14, the claim as stated fails: with a context that is done when the
settling delay after the add of key "b" starts, the wait ends with
`context.Canceled`, no file selection is attempted, the key is counted as an
add error, and `RunOnce` returns a nil error. -/
theorem cancelled_run_returns_nil :
    (cancelledEnv addOnlySrc addOnlyDst).ctxSleep
        [Call.ListAllTorrents "src", Call.ListAllTorrents "dst",
          Call.AddMagnetByHash "dst" "b"] (2 * second) =
      some (GoError.ctx "context canceled") ∧
    (RunOnce (cancelledEnv addOnlySrc addOnlyDst) addOnlyCfg).calls =
      [Call.ListAllTorrents "src", Call.ListAllTorrents "dst",
        Call.AddMagnetByHash "dst" "b", Call.TimerWait (2 * second)] ∧
    (RunOnce (cancelledEnv addOnlySrc addOnlyDst) addOnlyCfg).err = none ∧
    (RunOnce (cancelledEnv addOnlySrc addOnlyDst) addOnlyCfg).stats.AddErrors = 1 ∧
    (RunOnce (cancelledEnv addOnlySrc addOnlyDst) addOnlyCfg).stats.Added = 0 := by
  decide

/-- C14 as amended. Once both listings have succeeded (and the pattern is
empty or compiles) `RunOnce` returns a nil error whatever the context does.  A
settling delay during which the context is done ends at once with the
cancellation error and without a `SelectFilesAll` call; and in a run that is
not a dry run in which the context is done at every cancellable wait, no
`SelectFilesAll` call is made and every key of `needAdd` is counted in
`AddErrors`. -/
theorem cancellation_is_counted_not_returned (env : Env) (cfg : RunnerConfig)
    (S D : List Torrent) (protectRe : Option Regexp)
    (hS : env.api.ListAllTorrents [] cfg.SrcToken = Except.ok S)
    (hD : env.api.ListAllTorrents [Call.ListAllTorrents cfg.SrcToken] cfg.DstToken =
      Except.ok D)
    (hP : compileProtect env cfg.ProtectDstRegex = Except.ok protectRe) :
    (RunOnce env cfg).err = none ∧
    (∀ token torrentID initialDelay maxAttempts retryDelay calls e,
      env.ctxSleep calls initialDelay = some e →
      selectFilesWithRetry env token torrentID initialDelay maxAttempts retryDelay calls =
        (some e, calls ++ [Call.TimerWait initialDelay])) ∧
    (cfg.DryRun = false → (∀ calls d, ∃ e, env.ctxSleep calls d = some e) →
      (RunOnce env cfg).calls.filter Call.isSelect = [] ∧
      (RunOnce env cfg).stats.Added = 0 ∧
      (RunOnce env cfg).stats.AddErrors = (needAddOf S D).length ∧
      (RunOnce env cfg).stats.NeedAdd = (needAddOf S D).length) := by
  refine ⟨RunOnce_err_ok env cfg S D protectRe hS hD hP,
    fun token torrentID initialDelay maxAttempts retryDelay calls e h =>
      selectFilesWithRetry_cancelled env token torrentID initialDelay maxAttempts retryDelay
        calls e h, fun hdry hc => ?_⟩
  rw [RunOnce_ok env cfg S D protectRe hS hD hP, reconcile_eq]
  simp only []
  obtain ⟨h1, h2⟩ := applyAdds_cancelled env cfg hdry hc (needAddOf S D)
    (diffStats cfg protectRe S D
      { StartedAt := env.now [], SourceCount := S.length, DestCount := D.length })
    [Call.ListAllTorrents cfg.SrcToken, Call.ListAllTorrents cfg.DstToken]
  unfold applyPhase
  by_cases hm : cfg.Mode = ModeMirrorDelete
  · simp only [hm, if_true]
    obtain ⟨dx, hd1, hd2⟩ := applyDeletes_calls env cfg (indexDst D [])
      (needDeleteOf protectRe S D)
      (applyAdds env cfg (needAddOf S D) (diffStats cfg protectRe S D
        { StartedAt := env.now [], SourceCount := S.length, DestCount := D.length })
        [Call.ListAllTorrents cfg.SrcToken, Call.ListAllTorrents cfg.DstToken]).1
      (applyAdds env cfg (needAddOf S D) (diffStats cfg protectRe S D
        { StartedAt := env.now [], SourceCount := S.length, DestCount := D.length })
        [Call.ListAllTorrents cfg.SrcToken, Call.ListAllTorrents cfg.DstToken]).2
    obtain ⟨d, de, hs1, _⟩ := applyDeletes_stats env cfg (indexDst D [])
      (needDeleteOf protectRe S D)
      (applyAdds env cfg (needAddOf S D) (diffStats cfg protectRe S D
        { StartedAt := env.now [], SourceCount := S.length, DestCount := D.length })
        [Call.ListAllTorrents cfg.SrcToken, Call.ListAllTorrents cfg.DstToken]).1
      (applyAdds env cfg (needAddOf S D) (diffStats cfg protectRe S D
        { StartedAt := env.now [], SourceCount := S.length, DestCount := D.length })
        [Call.ListAllTorrents cfg.SrcToken, Call.ListAllTorrents cfg.DstToken]).2
    have hdx : dx.filter Call.isSelect = [] := by
      rw [List.filter_eq_nil_iff]
      intro c hc'
      rw [(hd2 c hc').2.1]
      simp
    refine ⟨?_, ?_, ?_, ?_⟩
    · rw [hd1, List.filter_append, h2, hdx]
      simp [Call.isSelect]
    · rw [hs1, h1]; simp [diffStats]
    · rw [hs1, h1]; simp [diffStats]
    · rw [hs1, h1]; simp [diffStats]
  · simp only [hm, if_false]
    refine ⟨?_, ?_, ?_, ?_⟩
    · rw [h2]; simp [Call.isSelect]
    · rw [h1]; simp [diffStats]
    · rw [h1]; simp [diffStats]
    · rw [h1]; simp [diffStats]

/-- C14 as amended, at `TestRunOnceAddOnly` with a context that is done
throughout the apply phase. -/
theorem cancellation_is_counted_not_returned_witness :
    (RunOnce (cancelledEnv addOnlySrc addOnlyDst) addOnlyCfg).err = none ∧
    (RunOnce (cancelledEnv addOnlySrc addOnlyDst) addOnlyCfg).calls.filter Call.isSelect = [] ∧
    (RunOnce (cancelledEnv addOnlySrc addOnlyDst) addOnlyCfg).stats.Added = 0 ∧
    (RunOnce (cancelledEnv addOnlySrc addOnlyDst) addOnlyCfg).stats.AddErrors =
      (needAddOf addOnlySrc addOnlyDst).length ∧
    (RunOnce (cancelledEnv addOnlySrc addOnlyDst) addOnlyCfg).stats.NeedAdd =
      (needAddOf addOnlySrc addOnlyDst).length :=
  ⟨(cancellation_is_counted_not_returned (cancelledEnv addOnlySrc addOnlyDst) addOnlyCfg
      addOnlySrc addOnlyDst none rfl rfl rfl).1,
    (cancellation_is_counted_not_returned (cancelledEnv addOnlySrc addOnlyDst) addOnlyCfg
      addOnlySrc addOnlyDst none rfl rfl rfl).2.2 rfl (fun _ _ => ⟨_, rfl⟩)⟩

/-! ## The delete loop in detail -/

theorem filter_isDelete_append_of_none (calls extra : List Call)
    (h : ∀ c ∈ extra, c.isDelete = false) :
    (calls ++ extra).filter Call.isDelete = calls.filter Call.isDelete := by
  rw [List.filter_append]
  have : extra.filter Call.isDelete = [] := by
    rw [List.filter_eq_nil_iff]
    intro c hc
    rw [h c hc]
    simp
  rw [this, List.append_nil]

theorem writeDelay_filter_isDelete (cfg : RunnerConfig) (calls : List Call) :
    (writeDelay cfg calls).filter Call.isDelete = calls.filter Call.isDelete := by
  obtain ⟨extra, h1, h2⟩ := writeDelay_calls cfg calls
  rw [h1]
  exact filter_isDelete_append_of_none calls extra (fun c hc => (h2 c hc).2.2.2.2.1)

theorem applyAdds_filter_isDelete (env : Env) (cfg : RunnerConfig) (l : List String)
    (st : Stats) (calls : List Call) :
    (applyAdds env cfg l st calls).2.filter Call.isDelete = calls.filter Call.isDelete := by
  obtain ⟨extra, h1, h2, _⟩ := applyAdds_calls env cfg l st calls
  rw [h1]
  exact filter_isDelete_append_of_none calls extra (fun c hc => (h2 c hc).1)

theorem applyDeletes_filter_isDelete (env : Env) (cfg : RunnerConfig) (m : GoMap)
    (hd : cfg.DryRun = false) (l : List String) (st : Stats) (calls : List Call) :
    (applyDeletes env cfg m l st calls).2.filter Call.isDelete =
      calls.filter Call.isDelete ++
        (l.filter (fun h => (GoMap.get m h).ID ≠ "")).map
          (fun h => Call.DeleteTorrent cfg.DstToken (GoMap.get m h).ID) := by
  induction l generalizing st calls with
  | nil => simp [applyDeletes]
  | cons h rest ih =>
    simp only [applyDeletes, hd, Bool.false_eq_true, if_false]
    by_cases hid : (GoMap.get m h).ID = ""
    · simp only [hid, if_true]
      rw [ih]
      simp [List.filter_cons, hid]
    · simp only [hid, if_false]
      cases hx : env.api.DeleteTorrent calls cfg.DstToken (GoMap.get m h).ID with
      | some e =>
        simp only []
        rw [ih]
        simp [List.filter_cons, hid, List.filter_append, Call.isDelete]
      | none =>
        simp only []
        rw [ih, writeDelay_filter_isDelete]
        simp [List.filter_cons, hid, List.filter_append, Call.isDelete]

theorem applyDeletes_counts (env : Env) (cfg : RunnerConfig) (m : GoMap)
    (hd : cfg.DryRun = false) (l : List String) (st : Stats) (calls : List Call) :
    ∃ d e, (applyDeletes env cfg m l st calls).1 =
        { st with Deleted := st.Deleted + d, DeleteErrors := st.DeleteErrors + e } ∧
      d + e = l.length ∧
      d ≤ (l.filter (fun h => (GoMap.get m h).ID ≠ "")).length ∧
      ((∀ cs tok id, env.api.DeleteTorrent cs tok id = none) →
        d = (l.filter (fun h => (GoMap.get m h).ID ≠ "")).length) ∧
      ((∀ cs tok id, ∃ err, env.api.DeleteTorrent cs tok id = some err) → d = 0) := by
  induction l generalizing st calls with
  | nil => exact ⟨0, 0, by simp [applyDeletes], rfl, by simp, by simp, by simp⟩
  | cons h rest ih =>
    simp only [applyDeletes, hd, Bool.false_eq_true, if_false]
    by_cases hid : (GoMap.get m h).ID = ""
    · simp only [hid, if_true]
      obtain ⟨d, e, h1, h2, h3, h4, h5⟩ := ih { st with DeleteErrors := st.DeleteErrors + 1 } calls
      refine ⟨d, e + 1, ?_, by simp only [List.length_cons]; omega, ?_, ?_, h5⟩
      · rw [h1]; simp only [Stats.mk.injEq, true_and, and_true]; omega
      · simpa [List.filter_cons, hid] using h3
      · intro hall; simpa [List.filter_cons, hid] using h4 hall
    · simp only [hid, if_false]
      cases hx : env.api.DeleteTorrent calls cfg.DstToken (GoMap.get m h).ID with
      | some err =>
        simp only []
        obtain ⟨d, e, h1, h2, h3, h4, h5⟩ := ih { st with DeleteErrors := st.DeleteErrors + 1 }
          (calls ++ [Call.DeleteTorrent cfg.DstToken (GoMap.get m h).ID])
        refine ⟨d, e + 1, ?_, by simp only [List.length_cons]; omega, ?_, ?_, h5⟩
        · rw [h1]; simp only [Stats.mk.injEq, true_and, and_true]; omega
        · have hdec : decide ((GoMap.get m h).ID ≠ "") = true := by simpa using hid
          simp only [List.filter_cons, hdec, if_true, List.length_cons]
          omega
        · intro hall
          rw [hall] at hx
          cases hx
      | none =>
        simp only []
        obtain ⟨d, e, h1, h2, h3, h4, h5⟩ := ih { st with Deleted := st.Deleted + 1 }
          (writeDelay cfg (calls ++ [Call.DeleteTorrent cfg.DstToken (GoMap.get m h).ID]))
        refine ⟨d + 1, e, ?_, by simp only [List.length_cons]; omega, ?_, ?_, ?_⟩
        · rw [h1]; simp only [Stats.mk.injEq, true_and, and_true]; omega
        · have hdec : decide ((GoMap.get m h).ID ≠ "") = true := by simpa using hid
          simp only [List.filter_cons, hdec, if_true, List.length_cons]
          omega
        · intro hall
          have hdec : decide ((GoMap.get m h).ID ≠ "") = true := by simpa using hid
          simp only [List.filter_cons, hdec, if_true, List.length_cons]
          rw [h4 hall]
        · intro hall
          obtain ⟨err, herr⟩ := hall calls cfg.DstToken (GoMap.get m h).ID
          rw [herr] at hx
          cases hx

theorem get_indexDst_eq_dstItem (dst : List Torrent) (h : String) (hh : h ≠ "") :
    GoMap.get (indexDst dst []) h = dstItem dst h := by
  unfold GoMap.get dstItem
  rw [indexDst_get?_nil dst h hh]

theorem ne_empty_of_mem_needDeleteOf (protectRe : Option Regexp) (src dst : List Torrent)
    (h : String) (hh : h ∈ needDeleteOf protectRe src dst) : h ≠ "" := by
  have h1 := (needDeleteOf_perm protectRe src dst).mem_iff.1 hh
  have h2 := (List.mem_filter.1 h1).1
  exact ((mem_dstOnlyKeys src dst h).1 h2).1

theorem deleteCalls_eq (protectRe : Option Regexp) (src dst : List Torrent) (token : String) :
    ((needDeleteOf protectRe src dst).filter
        (fun h => (GoMap.get (indexDst dst []) h).ID ≠ "")).map
        (fun h => Call.DeleteTorrent token (GoMap.get (indexDst dst []) h).ID) =
      ((needDeleteOf protectRe src dst).filter (fun h => (dstItem dst h).ID ≠ "")).map
        (fun h => Call.DeleteTorrent token (dstItem dst h).ID) := by
  have hf : (needDeleteOf protectRe src dst).filter
      (fun h => (GoMap.get (indexDst dst []) h).ID ≠ "") =
      (needDeleteOf protectRe src dst).filter (fun h => (dstItem dst h).ID ≠ "") := by
    apply List.filter_congr
    intro h hh
    rw [get_indexDst_eq_dstItem dst h (ne_empty_of_mem_needDeleteOf protectRe src dst h hh)]
  rw [hf]
  apply List.map_congr_left
  intro h hh
  have hm := (List.mem_filter.1 hh).1
  rw [get_indexDst_eq_dstItem dst h (ne_empty_of_mem_needDeleteOf protectRe src dst h hm)]

theorem RunOnce_deleteCalls (env : Env) (cfg : RunnerConfig) (S D : List Torrent)
    (protectRe : Option Regexp)
    (hm : cfg.Mode = ModeMirrorDelete) (hdry : cfg.DryRun = false)
    (hS : env.api.ListAllTorrents [] cfg.SrcToken = Except.ok S)
    (hD : env.api.ListAllTorrents [Call.ListAllTorrents cfg.SrcToken] cfg.DstToken =
      Except.ok D)
    (hP : compileProtect env cfg.ProtectDstRegex = Except.ok protectRe) :
    (RunOnce env cfg).calls.filter Call.isDelete =
      ((needDeleteOf protectRe S D).filter (fun h => (dstItem D h).ID ≠ "")).map
        (fun h => Call.DeleteTorrent cfg.DstToken (dstItem D h).ID) := by
  rw [RunOnce_ok env cfg S D protectRe hS hD hP, reconcile_eq]
  simp only []
  unfold applyPhase
  simp only [hm, if_true]
  rw [applyDeletes_filter_isDelete env cfg (indexDst D []) hdry, applyAdds_filter_isDelete,
    deleteCalls_eq]
  simp [Call.isDelete]

theorem RunOnce_deleteCounts (env : Env) (cfg : RunnerConfig) (S D : List Torrent)
    (protectRe : Option Regexp)
    (hm : cfg.Mode = ModeMirrorDelete) (hdry : cfg.DryRun = false)
    (hS : env.api.ListAllTorrents [] cfg.SrcToken = Except.ok S)
    (hD : env.api.ListAllTorrents [Call.ListAllTorrents cfg.SrcToken] cfg.DstToken =
      Except.ok D)
    (hP : compileProtect env cfg.ProtectDstRegex = Except.ok protectRe) :
    (RunOnce env cfg).stats.NeedDelete = (needDeleteOf protectRe S D).length ∧
    (RunOnce env cfg).stats.Deleted + (RunOnce env cfg).stats.DeleteErrors =
      (needDeleteOf protectRe S D).length ∧
    (RunOnce env cfg).stats.Deleted ≤
      ((needDeleteOf protectRe S D).filter (fun h => (dstItem D h).ID ≠ "")).length ∧
    ((∀ cs tok id, env.api.DeleteTorrent cs tok id = none) →
      (RunOnce env cfg).stats.Deleted =
        ((needDeleteOf protectRe S D).filter (fun h => (dstItem D h).ID ≠ "")).length) ∧
    ((∀ cs tok id, ∃ err, env.api.DeleteTorrent cs tok id = some err) →
      (RunOnce env cfg).stats.Deleted = 0) := by
  have hf : (needDeleteOf protectRe S D).filter
      (fun h => (GoMap.get (indexDst D []) h).ID ≠ "") =
      (needDeleteOf protectRe S D).filter (fun h => (dstItem D h).ID ≠ "") := by
    apply List.filter_congr
    intro h hh
    rw [get_indexDst_eq_dstItem D h (ne_empty_of_mem_needDeleteOf protectRe S D h hh)]
  rw [RunOnce_ok env cfg S D protectRe hS hD hP, reconcile_eq]
  simp only []
  unfold applyPhase
  simp only [hm, if_true]
  obtain ⟨a, ae, ha, _⟩ := applyAdds_stats env cfg (needAddOf S D)
    (diffStats cfg protectRe S D
      { StartedAt := env.now [], SourceCount := S.length, DestCount := D.length })
    [Call.ListAllTorrents cfg.SrcToken, Call.ListAllTorrents cfg.DstToken]
  obtain ⟨d, e, h1, h2, h3, h4, h5⟩ := applyDeletes_counts env cfg (indexDst D []) hdry
    (needDeleteOf protectRe S D)
    (applyAdds env cfg (needAddOf S D) (diffStats cfg protectRe S D
      { StartedAt := env.now [], SourceCount := S.length, DestCount := D.length })
      [Call.ListAllTorrents cfg.SrcToken, Call.ListAllTorrents cfg.DstToken]).1
    (applyAdds env cfg (needAddOf S D) (diffStats cfg protectRe S D
      { StartedAt := env.now [], SourceCount := S.length, DestCount := D.length })
      [Call.ListAllTorrents cfg.SrcToken, Call.ListAllTorrents cfg.DstToken]).2
  rw [hf] at h3 h4
  rw [h1, ha]
  simp only [diffStats, hm, if_true, Nat.zero_add]
  exact ⟨trivial, h2, h3, h4, h5⟩

/-- C15. In a mirror-delete run that is not a dry run and reaches the apply
phase, the delete loop goes through `needDelete` in its ascending order.  A
key whose destination item has an empty ID gets no `DeleteTorrent` call and
one more `DeleteErrors`; any other key gets exactly one `DeleteTorrent` call
with the destination token and the item's ID, and one more `Deleted` when the
call succeeds or `DeleteErrors` when it fails; the loop never stops early.  So
the `DeleteTorrent` calls of the run are those of the keys with a non-empty
ID, in order, and `Deleted + DeleteErrors = NeedDelete` on return. -/
theorem every_needDelete_key_is_tried (env : Env) (cfg : RunnerConfig) (S D : List Torrent)
    (protectRe : Option Regexp)
    (hm : cfg.Mode = ModeMirrorDelete) (hdry : cfg.DryRun = false)
    (hS : env.api.ListAllTorrents [] cfg.SrcToken = Except.ok S)
    (hD : env.api.ListAllTorrents [Call.ListAllTorrents cfg.SrcToken] cfg.DstToken =
      Except.ok D)
    (hP : compileProtect env cfg.ProtectDstRegex = Except.ok protectRe) :
    (RunOnce env cfg).calls.filter Call.isDelete =
      ((needDeleteOf protectRe S D).filter (fun h => (dstItem D h).ID ≠ "")).map
        (fun h => Call.DeleteTorrent cfg.DstToken (dstItem D h).ID) ∧
    (needDeleteOf protectRe S D).Sorted (· < ·) ∧
    (RunOnce env cfg).stats.NeedDelete = (needDeleteOf protectRe S D).length ∧
    (RunOnce env cfg).stats.Deleted + (RunOnce env cfg).stats.DeleteErrors =
      (RunOnce env cfg).stats.NeedDelete ∧
    (RunOnce env cfg).stats.Deleted ≤
      ((needDeleteOf protectRe S D).filter (fun h => (dstItem D h).ID ≠ "")).length ∧
    (∀ h rest st calls, (GoMap.get (indexDst D []) h).ID = "" →
      applyDeletes env cfg (indexDst D []) (h :: rest) st calls =
        applyDeletes env cfg (indexDst D []) rest
          { st with DeleteErrors := st.DeleteErrors + 1 } calls) ∧
    (∀ h rest st calls, (GoMap.get (indexDst D []) h).ID ≠ "" →
      env.api.DeleteTorrent calls cfg.DstToken (GoMap.get (indexDst D []) h).ID = none →
      applyDeletes env cfg (indexDst D []) (h :: rest) st calls =
        applyDeletes env cfg (indexDst D []) rest { st with Deleted := st.Deleted + 1 }
          (writeDelay cfg
            (calls ++ [Call.DeleteTorrent cfg.DstToken (GoMap.get (indexDst D []) h).ID]))) ∧
    (∀ h rest st calls err, (GoMap.get (indexDst D []) h).ID ≠ "" →
      env.api.DeleteTorrent calls cfg.DstToken (GoMap.get (indexDst D []) h).ID = some err →
      applyDeletes env cfg (indexDst D []) (h :: rest) st calls =
        applyDeletes env cfg (indexDst D []) rest
          { st with DeleteErrors := st.DeleteErrors + 1 }
          (calls ++ [Call.DeleteTorrent cfg.DstToken (GoMap.get (indexDst D []) h).ID])) := by
  obtain ⟨c1, c2, c3, _, _⟩ := RunOnce_deleteCounts env cfg S D protectRe hm hdry hS hD hP
  refine ⟨RunOnce_deleteCalls env cfg S D protectRe hm hdry hS hD hP,
    needDeleteOf_sorted protectRe S D, c1, by rw [c1]; exact c2, c3, ?_, ?_, ?_⟩
  · intro h rest st calls hid
    simp only [applyDeletes, hdry, Bool.false_eq_true, if_false, hid, if_true]
  · intro h rest st calls hid hok
    simp only [applyDeletes, hdry, Bool.false_eq_true, if_false, hid, hok]
  · intro h rest st calls err hid herr
    simp only [applyDeletes, hdry, Bool.false_eq_true, if_false, hid, herr]

/-- C15 at `TestRunOnceMirrorDeleteWithProtection`: exactly one delete call,
for "d3". -/
theorem every_needDelete_key_is_tried_witness :
    (RunOnce (testEnv mirrorSrc mirrorDst) mirrorCfg).calls.filter Call.isDelete =
      [Call.DeleteTorrent "dst" "d3"] ∧
    (RunOnce (testEnv mirrorSrc mirrorDst) mirrorCfg).stats.Deleted = 1 ∧
    (RunOnce (testEnv mirrorSrc mirrorDst) mirrorCfg).stats.Deleted +
        (RunOnce (testEnv mirrorSrc mirrorDst) mirrorCfg).stats.DeleteErrors =
      (RunOnce (testEnv mirrorSrc mirrorDst) mirrorCfg).stats.NeedDelete :=
  ⟨by decide, by decide,
    (every_needDelete_key_is_tried (testEnv mirrorSrc mirrorDst) mirrorCfg mirrorSrc mirrorDst
      (some keepRegexp) rfl rfl rfl rfl rfl).2.2.2.1⟩

/-! ## Duplicate keys -/

theorem lastWithKey_eq_none (l : List Torrent) (h : String) (hn : lastWithKey l h = none) :
    ∀ u ∈ l, normalizeHash u.Hash ≠ h := by
  intro u hu hk
  obtain ⟨t, ht⟩ := (lastWithKey_isSome l h).2 ⟨u, hu, hk⟩
  rw [hn] at ht
  cases ht

theorem lastWithKey_spec (l : List Torrent) (h : String) (t : Torrent)
    (ht : lastWithKey l h = some t) :
    ∃ before after, l = before ++ t :: after ∧ normalizeHash t.Hash = h ∧
      ∀ u ∈ after, normalizeHash u.Hash ≠ h := by
  induction l with
  | nil => simp [lastWithKey] at ht
  | cons x rest ih =>
    rw [lastWithKey_cons] at ht
    by_cases hk : normalizeHash x.Hash = h
    · simp only [hk, if_true, Option.some.injEq] at ht
      cases hr : lastWithKey rest h with
      | none =>
        rw [hr] at ht
        simp only [Option.getD_none] at ht
        subst ht
        exact ⟨[], rest, rfl, hk, lastWithKey_eq_none rest h hr⟩
      | some t' =>
        rw [hr] at ht
        simp only [Option.getD_some] at ht
        subst ht
        obtain ⟨before, after, h1, h2, h3⟩ := ih hr
        exact ⟨x :: before, after, by rw [h1]; rfl, h2, h3⟩
    · simp only [hk, if_false] at ht
      obtain ⟨before, after, h1, h2, h3⟩ := ih ht
      exact ⟨x :: before, after, by rw [h1]; rfl, h2, h3⟩

theorem needDeleteOf_nodup (protectRe : Option Regexp) (src dst : List Torrent) :
    (needDeleteOf protectRe src dst).Nodup :=
  (needDeleteOf_perm protectRe src dst).nodup_iff.2 ((dstOnlyKeys_nodup src dst).filter _)

/-- C20. The lookup maps keep, for each non-empty key, the last item listed
with that key (in the source and in the destination snapshot).  So in a
mirror-delete run that reaches the diff: a destination-only key is protected,
or put on `needDelete`, according to the filename of the last destination
item with that key; `needDelete` holds each key once; and in a run that is not
a dry run each key of `needDelete` gets at most one `DeleteTorrent` call (none
when the ID is empty), which carries the ID of that last item. -/
theorem last_duplicate_wins (env : Env) (cfg : RunnerConfig) (S D : List Torrent)
    (protectRe : Option Regexp)
    (hm : cfg.Mode = ModeMirrorDelete)
    (hS : env.api.ListAllTorrents [] cfg.SrcToken = Except.ok S)
    (hD : env.api.ListAllTorrents [Call.ListAllTorrents cfg.SrcToken] cfg.DstToken =
      Except.ok D)
    (hP : compileProtect env cfg.ProtectDstRegex = Except.ok protectRe) :
    (∀ h, h ≠ "" → GoMap.get? (indexDst D []) h = lastWithKey D h) ∧
    (∀ h, h ≠ "" → GoMap.get? (indexSrc S {} []).2 h = lastWithKey S h) ∧
    (∀ h t, lastWithKey D h = some t →
      dstItem D h = t ∧
      ∃ before after, D = before ++ t :: after ∧ normalizeHash t.Hash = h ∧
        ∀ u ∈ after, normalizeHash u.Hash ≠ h) ∧
    (∀ h, h ∈ dstOnlyKeys S D →
      ∃ t, lastWithKey D h = some t ∧
        (h ∈ needDeleteOf protectRe S D ↔ isProtected protectRe t.Filename = false)) ∧
    (RunOnce env cfg).stats.ProtectedDst =
      ((dstOnlyKeys S D).filter (fun h => isProtected protectRe (dstItem D h).Filename)).length ∧
    (needDeleteOf protectRe S D).Nodup ∧
    (cfg.DryRun = false →
      (RunOnce env cfg).calls.filter Call.isDelete =
        ((needDeleteOf protectRe S D).filter (fun h => (dstItem D h).ID ≠ "")).map
          (fun h => Call.DeleteTorrent cfg.DstToken (dstItem D h).ID)) := by
  have hkey : ∀ h, h ∈ dstOnlyKeys S D → ∃ t, lastWithKey D h = some t := by
    intro h hh
    have := (mem_dstOnlyKeys S D h).1 hh
    exact (lastWithKey_isSome D h).2 this.2.1
  refine ⟨indexDst_get?_nil D, ?_, ?_, ?_, ?_, needDeleteOf_nodup protectRe S D,
    fun hdry => RunOnce_deleteCalls env cfg S D protectRe hm hdry hS hD hP⟩
  · intro h hh
    rw [indexSrc_snd]
    exact indexDst_get?_nil S h hh
  · intro h t ht
    refine ⟨?_, lastWithKey_spec D h t ht⟩
    unfold dstItem
    rw [ht]
    rfl
  · intro h hh
    obtain ⟨t, ht⟩ := hkey h hh
    refine ⟨t, ht, ?_⟩
    rw [(needDeleteOf_perm protectRe S D).mem_iff, List.mem_filter]
    simp only [hh, true_and, protectedKey, ht, Bool.not_eq_true']
  · obtain ⟨a, ae, d, de, fin, hst, _⟩ := RunOnce_stats_ok env cfg S D protectRe hS hD hP
    rw [hst]
    simp only [diffStats, hm, if_true, Nat.zero_add]
    congr 1
    apply List.filter_congr
    intro h hh
    obtain ⟨t, ht⟩ := hkey h hh
    simp only [protectedKey, dstItem, ht, Option.getD_some]

/-- C20 at a destination with two items of key "b": the second one listed
decides.  When it is the unprotected item "d2", "b" is deleted with ID "d2";
when the protected item "d1" is listed last, "b" is protected and nothing is
deleted for it. -/
theorem last_duplicate_wins_witness :
    needDeleteOf (some keepRegexp) [] duplicateDst = ["b", "c"] ∧
    (RunOnce (testEnv [] duplicateDst) mirrorCfg).calls.filter Call.isDelete =
      [Call.DeleteTorrent "dst" "d2"] ∧
    needDeleteOf (some keepRegexp) [] duplicateDstSwapped = ["c"] ∧
    (RunOnce (testEnv [] duplicateDstSwapped) mirrorCfg).calls.filter Call.isDelete = [] ∧
    (RunOnce (testEnv [] duplicateDstSwapped) mirrorCfg).stats.ProtectedDst = 1 ∧
    (mirrorCfg.DryRun = false →
      (RunOnce (testEnv [] duplicateDst) mirrorCfg).calls.filter Call.isDelete =
        ((needDeleteOf (some keepRegexp) [] duplicateDst).filter
          (fun h => (dstItem duplicateDst h).ID ≠ "")).map
          (fun h => Call.DeleteTorrent mirrorCfg.DstToken (dstItem duplicateDst h).ID)) :=
  ⟨by decide, by decide, by decide, by decide, by decide,
    (last_duplicate_wins (testEnv [] duplicateDst) mirrorCfg [] duplicateDst (some keepRegexp)
      rfl rfl rfl rfl).2.2.2.2.2.2⟩

/-! ## Items without a usable hash -/

theorem indexDst_filter (l : List Torrent) (m : GoMap) :
    indexDst (l.filter (fun t => normalizeHash t.Hash ≠ "")) m = indexDst l m := by
  induction l generalizing m with
  | nil => rfl
  | cons t rest ih =>
    by_cases hk : normalizeHash t.Hash = ""
    · simp only [List.filter_cons, hk, ne_eq, not_true_eq_false, decide_False, indexDst, if_true]
      exact ih m
    · simp only [List.filter_cons, hk, ne_eq, not_false_eq_true, decide_True, indexDst, if_true,
        if_false]
      exact ih _

theorem reconcile_filter_dst (env : Env) (cfg : RunnerConfig) (protectRe : Option Regexp)
    (src dst : List Torrent) (st : Stats) (calls : List Call) :
    reconcile env cfg protectRe src (dst.filter (fun t => normalizeHash t.Hash ≠ "")) st calls =
      reconcile env cfg protectRe src dst st calls := by
  unfold reconcile
  rw [indexDst_filter]

/-- C17. In a run that reaches the diff: `SkippedBadSrc` is the number of
source items whose normalized hash is empty, and `needAdd` holds only
non-empty keys (the normalized hash of a source item), so those items never
appear in it; `SourceCount` and `DestCount` are the lengths of the two
snapshots as fetched; and the destination items whose normalized hash is empty
are left out of the destination lookup, so that the slices of the diff and the
whole run after the listings (every call, every counter) are those of the
destination snapshot without these items, `DestCount` alone keeping the full
length. -/
theorem empty_hash_items_are_left_out (env : Env) (cfg : RunnerConfig) (S D : List Torrent)
    (protectRe : Option Regexp)
    (hS : env.api.ListAllTorrents [] cfg.SrcToken = Except.ok S)
    (hD : env.api.ListAllTorrents [Call.ListAllTorrents cfg.SrcToken] cfg.DstToken =
      Except.ok D)
    (hP : compileProtect env cfg.ProtectDstRegex = Except.ok protectRe) :
    (RunOnce env cfg).stats.SkippedBadSrc =
      (S.filter (fun t => normalizeHash t.Hash = "")).length ∧
    (∀ h ∈ needAddOf S D, h ≠ "" ∧ ∃ t ∈ S, normalizeHash t.Hash = h) ∧
    (∀ t ∈ S, normalizeHash t.Hash = "" → normalizeHash t.Hash ∉ needAddOf S D) ∧
    (RunOnce env cfg).stats.SourceCount = S.length ∧
    (RunOnce env cfg).stats.DestCount = D.length ∧
    indexDst D [] = indexDst (D.filter (fun t => normalizeHash t.Hash ≠ "")) [] ∧
    needAddOf S D = needAddOf S (D.filter (fun t => normalizeHash t.Hash ≠ "")) ∧
    needDeleteOf protectRe S D =
      needDeleteOf protectRe S (D.filter (fun t => normalizeHash t.Hash ≠ "")) ∧
    RunOnce env cfg =
      reconcile env cfg protectRe S (D.filter (fun t => normalizeHash t.Hash ≠ ""))
        { StartedAt := env.now [], SourceCount := S.length, DestCount := D.length }
        [Call.ListAllTorrents cfg.SrcToken, Call.ListAllTorrents cfg.DstToken] := by
  obtain ⟨a, ae, d, de, fin, hst, _⟩ := RunOnce_stats_ok env cfg S D protectRe hS hD hP
  refine ⟨?_, ?_, ?_, ?_, ?_, (indexDst_filter D []).symm, ?_, ?_, ?_⟩
  · rw [hst]
    simp [diffStats]
  · intro h hh
    have := (mem_needAddOf S D h).1 hh
    exact ⟨this.1, this.2.1⟩
  · intro t _ hk hmem
    exact ((mem_needAddOf S D _).1 hmem).1 hk
  · rw [hst]
    simp [diffStats]
  · rw [hst]
    simp [diffStats]
  · unfold needAddOf
    rw [indexDst_filter]
  · unfold needDeleteOf
    rw [indexDst_filter]
  · rw [reconcile_filter_dst]
    exact RunOnce_ok env cfg S D protectRe hS hD hP

/-- C17 at a mirror-delete run whose source lists two items without a usable
hash and whose destination lists one: two skipped source items, counts 3 and
2, and the blank destination item is neither protected nor deleted. -/
theorem empty_hash_items_are_left_out_witness :
    (RunOnce (testEnv blankHashSrc blankHashDst) mirrorCfg).stats.SkippedBadSrc = 2 ∧
    needAddOf blankHashSrc blankHashDst = ["a"] ∧
    needDeleteOf (some keepRegexp) blankHashSrc blankHashDst = ["b"] ∧
    (RunOnce (testEnv blankHashSrc blankHashDst) mirrorCfg).stats.ProtectedDst = 0 ∧
    (RunOnce (testEnv blankHashSrc blankHashDst) mirrorCfg).stats.SourceCount = 3 ∧
    (RunOnce (testEnv blankHashSrc blankHashDst) mirrorCfg).stats.DestCount = 2 ∧
    (RunOnce (testEnv blankHashSrc blankHashDst) mirrorCfg).stats.SkippedBadSrc =
      (blankHashSrc.filter (fun t => normalizeHash t.Hash = "")).length :=
  ⟨by decide, by decide, by decide, by decide, by decide, by decide,
    (empty_hash_items_are_left_out (testEnv blankHashSrc blankHashDst) mirrorCfg blankHashSrc
      blankHashDst (some keepRegexp) rfl rfl rfl).1⟩

/-! ## The length of the waits -/

theorem waitAfter_withRetryLoop (cfg : ClientConfig) (env : RetryEnv) (op : String)
    (fn : Nat → Option GoError) (a : Nat) (w : Int) :
    ∀ (r start : Nat) (last : Option GoError),
      waitAfter (withRetryLoop cfg env op fn r start last).events a = some w →
      ∃ j, randomJitter (env.draw a) cfg.RetryMaxJitter = some j ∧
        w = wrapInt64 (backoff cfg a + j) := by
  intro r
  induction r with
  | zero =>
    intro start last h
    simp [withRetryLoop, waitAfter] at h
  | succ r ih =>
    intro start last h
    cases hfn : fn start with
    | none => simp [withRetryLoop, hfn, waitAfter] at h
    | some e =>
      by_cases hstop : (!isRetryable e || (start : Int) == cfg.MaxRetries) = true
      · simp [withRetryLoop, hfn, hstop, waitAfter] at h
      · cases hj : randomJitter (env.draw start) cfg.RetryMaxJitter with
        | none => simp [withRetryLoop, hfn, hstop, hj, waitAfter] at h
        | some j =>
          cases hc : env.ctxWait start (wrapInt64 (backoff cfg start + j)) with
          | some err =>
            simp only [withRetryLoop, hfn, hstop, hj, hc, waitAfter, Bool.false_eq_true,
              if_false] at h
            by_cases hs : start = a
            · subst hs
              simp only [if_true, Option.some.injEq] at h
              exact ⟨j, hj, h.symm⟩
            · simp [hs] at h
          | none =>
            simp only [withRetryLoop, hfn, hstop, hj, hc, waitAfter, Bool.false_eq_true,
              if_false] at h
            by_cases hs : start = a
            · subst hs
              simp only [if_true, Option.some.injEq] at h
              exact ⟨j, hj, h.symm⟩
            · simp only [hs, if_false] at h
              exact ih (start + 1) (some e) h


theorem shiftLeftOne_of_lt (count : Nat) (h : count < 63) : shiftLeftOne count = 2 ^ count := by
  unfold shiftLeftOne
  rw [if_neg (by omega)]
  have hpow : (2 : Int) ^ count < 2 ^ 63 := by
    exact_mod_cast Nat.pow_lt_pow_right (by norm_num) h
  have hpos : (0 : Int) < 2 ^ count := by positivity
  exact wrapInt64_of_range _ (by omega) hpow

/-- Where nothing leaves the `int64` range, the wait after attempt `a` is
`RetryBase * 2^(a-1) + j` with `0 <= j <= RetryMaxJitter`, and `j = 0` when
`RetryMaxJitter <= 0`. -/
theorem wait_formula_in_range (cfg : ClientConfig) (env : RetryEnv) (op : String)
    (fn : Nat → Option GoError) (a : Nat) (w : Int)
    (ha : 1 ≤ a) (ha63 : a ≤ 63) (hj : cfg.RetryMaxJitter < maxInt64)
    (hlo : -2 ^ 63 ≤ cfg.RetryBase * 2 ^ (a - 1))
    (hhi : cfg.RetryBase * 2 ^ (a - 1) + max 0 cfg.RetryMaxJitter < 2 ^ 63)
    (h : waitAfter (withRetry cfg env op fn).events a = some w) :
    ∃ j, w = cfg.RetryBase * 2 ^ (a - 1) + j ∧ 0 ≤ j ∧ j ≤ max 0 cfg.RetryMaxJitter ∧
      (cfg.RetryMaxJitter ≤ 0 → j = 0) := by
  obtain ⟨j, hj1, hw⟩ := waitAfter_withRetryLoop cfg env op fn a w _ _ _ h
  obtain ⟨j', hj2, h0, hle, hz⟩ := randomJitter_some (env.draw a) cfg.RetryMaxJitter hj
  rw [hj1] at hj2
  cases hj2
  have hjle : j ≤ max 0 cfg.RetryMaxJitter := by
    by_cases hm : 0 < cfg.RetryMaxJitter
    · exact le_trans (hle hm) (le_max_right _ _)
    · rw [hz (by omega)]
      exact le_max_left _ _
  have hback : backoff cfg a = cfg.RetryBase * 2 ^ (a - 1) := by
    unfold backoff
    rw [shiftLeftOne_of_lt (a - 1) (by omega)]
    exact wrapInt64_of_range _ hlo (by omega)
  refine ⟨j, ?_, h0, hjle, hz⟩
  rw [hw, hback]
  exact wrapInt64_of_range _ (by omega) (by omega)

/-- C16. The product and the sum of the wait are 64-bit and unchecked.  With
`RETRY_BASE=2000000h`, no jitter and `MAX_RETRIES=3`, the wait after attempt 1
is the base, and the wait after attempt 2 is negative where
`RetryBase * 2^(2-1) + 0` is 14400000000000000000; with the default base and
jitter and `MAX_RETRIES=40` the wait after attempt 36 is negative as well. -/
theorem wait_wraps_past_int64 :
    (1 : Int) ≤ 2 ∧ (2 : Int) < longBaseConfig.MaxRetries ∧
    waitAfter (withRetry longBaseConfig calmRetryEnv "GET /torrents" alwaysFails).events 1 =
      some 7200000000000000000 ∧
    waitAfter (withRetry longBaseConfig calmRetryEnv "GET /torrents" alwaysFails).events 2 =
      some (-4046744073709551616) ∧
    randomJitter (calmRetryEnv.draw 2) longBaseConfig.RetryMaxJitter = some 0 ∧
    longBaseConfig.RetryBase * 2 ^ (2 - 1) + 0 = 14400000000000000000 ∧
    (36 : Int) < manyRetriesConfig.MaxRetries ∧
    waitAfter (withRetry manyRetriesConfig calmRetryEnv "GET /torrents" alwaysFails).events 36 =
      some (-1266874889503996161) ∧
    manyRetriesConfig.RetryBase * 2 ^ (36 - 1) = 17179869184000000000 := by
  decide

/-! ## Loading the configuration -/

theorem TrimSpace_eq_empty_iff (s : String) :
    TrimSpace s = "" ↔ ∀ c ∈ s.data, isSpace c = true := by
  unfold TrimSpace
  constructor
  · intro h
    have hl : (s.data.dropWhile isSpace).rdropWhile isSpace = [] := by
      have := congrArg String.data h
      simpa using this
    have hall := List.rdropWhile_eq_nil_iff.1 hl
    cases hd : s.data.dropWhile isSpace with
    | nil => exact List.dropWhile_eq_nil_iff.1 hd
    | cons c cs =>
      have hne : s.data.dropWhile isSpace ≠ [] := by rw [hd]; simp
      have hnot := List.head_dropWhile_not isSpace s.data hne
      have hc : isSpace ((s.data.dropWhile isSpace).head hne) = true :=
        hall _ (List.head_mem hne)
      rw [hnot] at hc
      cases hc
  · intro h
    rw [List.dropWhile_eq_nil_iff.2 h]
    rfl


theorem Load_fst (env : ConfigEnv) : (Load env).1 = loadedConfig env := by
  unfold Load
  generalize loadedConfig env = cfg
  simp only []
  split_ifs <;> rfl

theorem Load_snd_eq_none_iff (env : ConfigEnv) :
    (Load env).2 = none ↔
      (loadedConfig env).SrcToken ≠ "" ∧ (loadedConfig env).DstToken ≠ "" ∧
      ((loadedConfig env).Mode = "add-only" ∨ (loadedConfig env).Mode = "mirror-delete") ∧
      10 * second ≤ (loadedConfig env).Interval ∧ 0 < (loadedConfig env).HTTPTimeout ∧
      0 ≤ (loadedConfig env).RunTimeout ∧ 1 ≤ (loadedConfig env).MaxRetries ∧
      1 ≤ (loadedConfig env).PageLimit := by
  unfold Load
  generalize loadedConfig env = cfg
  simp only []
  split_ifs with h1 h2 h3 h4 h5 h6 h7
  · simp only [reduceCtorEq, false_iff]
    rintro ⟨a, b, _⟩
    exact h1.elim a b
  · simp only [reduceCtorEq, false_iff]
    rintro ⟨_, _, c, _⟩
    exact c.elim h2.1 h2.2
  · simp only [reduceCtorEq, false_iff]
    rintro ⟨_, _, _, d, _⟩
    omega
  · simp only [reduceCtorEq, false_iff]
    rintro ⟨_, _, _, _, d, _⟩
    omega
  · simp only [reduceCtorEq, false_iff]
    rintro ⟨_, _, _, _, _, d, _⟩
    omega
  · simp only [reduceCtorEq, false_iff]
    rintro ⟨_, _, _, _, _, _, d, _⟩
    omega
  · simp only [reduceCtorEq, false_iff]
    rintro ⟨_, _, _, _, _, _, _, d⟩
    omega
  · simp only [true_iff]
    refine ⟨fun h => h1 (Or.inl h), fun h => h1 (Or.inr h), ?_, by omega, by omega, by omega,
      by omega, by omega⟩
    by_contra hc
    exact h2 ⟨fun h => hc (Or.inl h), fun h => hc (Or.inr h)⟩


/-- C19. `Load` returns an error whenever `SRC_RD_TOKEN` or `DST_RD_TOKEN` is
empty or holds white space only, whatever the other variables are; and it
returns a nil error exactly when, in the configuration it returns, both tokens
are non-empty, the mode is "add-only" or "mirror-delete", the interval is at
least 10s, the HTTP timeout is positive, the run timeout is not negative,
`MaxRetries >= 1` and `PageLimit >= 1`.  The configuration returned is the one
read from the environment (tokens trimmed, defaults for unset or unparsable
values), with or without an error. -/
theorem load_fails_exactly_on_invalid_settings (env : ConfigEnv) :
    (((∀ c ∈ (env.Getenv "SRC_RD_TOKEN").data, isSpace c = true) ∨
        (∀ c ∈ (env.Getenv "DST_RD_TOKEN").data, isSpace c = true)) →
      (Load env).2 ≠ none) ∧
    ((Load env).2 = none ↔
      (Load env).1.SrcToken ≠ "" ∧ (Load env).1.DstToken ≠ "" ∧
      ((Load env).1.Mode = "add-only" ∨ (Load env).1.Mode = "mirror-delete") ∧
      10 * second ≤ (Load env).1.Interval ∧ 0 < (Load env).1.HTTPTimeout ∧
      0 ≤ (Load env).1.RunTimeout ∧ 1 ≤ (Load env).1.MaxRetries ∧
      1 ≤ (Load env).1.PageLimit) ∧
    (Load env).1 = loadedConfig env ∧
    (Load env).1.SrcToken = TrimSpace (env.Getenv "SRC_RD_TOKEN") ∧
    (Load env).1.DstToken = TrimSpace (env.Getenv "DST_RD_TOKEN") := by
  rw [Load_fst, Load_snd_eq_none_iff]
  refine ⟨?_, Iff.rfl, rfl, rfl, rfl⟩
  rintro (h | h) hok
  · exact ((Load_snd_eq_none_iff env).1 hok).1 ((TrimSpace_eq_empty_iff _).2 h)
  · exact ((Load_snd_eq_none_iff env).1 hok).2.1 ((TrimSpace_eq_empty_iff _).2 h)

/-- C19 at the environments of config_test.go and three variations: the
settings of `TestLoadDefaultsAndParsing` load without error, unset tokens and
a destination token of white space are rejected, and so are `MAX_RETRIES=0`
and `SYNC_INTERVAL=5s`. -/
theorem load_fails_exactly_on_invalid_settings_witness :
    (Load parsingEnv).2 = none ∧
    (Load parsingEnv).1.Interval = 60 * second ∧
    (Load parsingEnv).1.Mode = "mirror-delete" ∧
    (Load parsingEnv).1.DryRun = false ∧
    (Load missingTokensEnv).2 ≠ none ∧
    (Load blankTokenEnv).2 ≠ none ∧
    (Load zeroRetriesEnv).2 = some (GoError.plain "MAX_RETRIES must be >= 1") ∧
    (Load shortIntervalEnv).2 = some (GoError.plain "SYNC_INTERVAL must be >= 10s") :=
  ⟨by decide, by decide, by decide, by decide,
    (load_fails_exactly_on_invalid_settings missingTokensEnv).1 (Or.inl (by decide)),
    (load_fails_exactly_on_invalid_settings blankTokenEnv).1 (Or.inr (by decide)),
    by decide, by decide⟩

/-! ## Creating a torrent -/

theorem postFormJSONClosure_fst (env : ClientEnv) (token endpoint : String)
    (form : List (String × String)) (attempt : Nat) (out : addMagnetResponse) :
    (postFormJSONClosure env token endpoint form attempt out).1 =
      postFormJSONAttempt (env.newRequest "POST" endpoint)
        (env.httpDo attempt
          ⟨"POST", endpoint, "Bearer " ++ token, "application/x-www-form-urlencoded", form⟩)
        (fun body => (env.decodeAddMagnet body out).1) := by
  unfold postFormJSONClosure postFormJSONAttempt
  cases env.newRequest "POST" endpoint with
  | some err => rfl
  | none =>
    simp only []
    cases env.httpDo attempt
      ⟨"POST", endpoint, "Bearer " ++ token, "application/x-www-form-urlencoded", form⟩ with
    | error err => rfl
    | ok resp =>
      simp only []
      split_ifs
      · rfl
      · rfl
      · rcases hd : env.decodeAddMagnet resp.Body out with ⟨_ | err, decoded⟩ <;> simp [hd]

theorem postFormJSONClosure_2xx (env : ClientEnv) (token endpoint : String)
    (form : List (String × String)) (attempt : Nat) (out decoded : addMagnetResponse)
    (resp : HTTPResponse)
    (hreq : env.newRequest "POST" endpoint = none)
    (hdo : env.httpDo attempt
      ⟨"POST", endpoint, "Bearer " ++ token, "application/x-www-form-urlencoded", form⟩ =
        Except.ok resp)
    (h2xx : 200 ≤ resp.StatusCode ∧ resp.StatusCode < 300)
    (hdec : env.decodeAddMagnet resp.Body out = (none, decoded)) :
    postFormJSONClosure env token endpoint form attempt out = (none, decoded) := by
  unfold postFormJSONClosure
  have h1 : (resp.StatusCode == 429 || decide (resp.StatusCode ≥ 500)) = false := by
    simp only [Bool.or_eq_false_iff, beq_eq_false_iff_ne, decide_eq_false_iff_not]
    omega
  have h2 : (decide (resp.StatusCode < 200) || decide (resp.StatusCode ≥ 300)) = false := by
    simp only [Bool.or_eq_false_iff, decide_eq_false_iff_not]
    omega
  simp only [hreq, hdo, h1, h2, hdec, Bool.false_eq_true, if_false]

theorem AddMagnetByHash_of_success (cfg : ClientConfig) (env : ClientEnv) (token hash : String)
    (k : Nat) (out : addMagnetResponse)
    (hres : (withRetry cfg env.retry ("POST " ++ addMagnetEndpoint cfg)
      (fun attempt =>
        (postFormJSONClosure env token (addMagnetEndpoint cfg) (addMagnetForm hash) attempt
          (outAfter env token (addMagnetEndpoint cfg) (addMagnetForm hash)
            (attempt - 1))).1)).result = RetryResult.returned none)
    (hcalls : (withRetry cfg env.retry ("POST " ++ addMagnetEndpoint cfg)
      (fun attempt =>
        (postFormJSONClosure env token (addMagnetEndpoint cfg) (addMagnetForm hash) attempt
          (outAfter env token (addMagnetEndpoint cfg) (addMagnetForm hash)
            (attempt - 1))).1)).calls = k + 1)
    (hout : postFormJSONClosure env token (addMagnetEndpoint cfg) (addMagnetForm hash) (k + 1)
      (outAfter env token (addMagnetEndpoint cfg) (addMagnetForm hash) k) = (none, out)) :
    (Client.AddMagnetByHash cfg env token hash).result =
      (if out.ID = "" then
        AddMagnetResult.returned "" (some (GoError.plain "addMagnet returned empty id"))
      else AddMagnetResult.returned out.ID none) := by
  have ho : outAfter env token (addMagnetEndpoint cfg) (addMagnetForm hash) (k + 1) = out := by
    simp only [outAfter, hout]
  unfold Client.AddMagnetByHash
  simp only [hres, hcalls, ho]
  split_ifs <;> rfl

theorem AddMagnetByHash_events (cfg : ClientConfig) (env : ClientEnv) (token hash : String) :
    (Client.AddMagnetByHash cfg env token hash).events =
      (withRetry cfg env.retry ("POST " ++ addMagnetEndpoint cfg)
        (fun attempt =>
          (postFormJSONClosure env token (addMagnetEndpoint cfg) (addMagnetForm hash) attempt
            (outAfter env token (addMagnetEndpoint cfg) (addMagnetForm hash)
              (attempt - 1))).1)).events := by
  unfold Client.AddMagnetByHash
  simp only []
  split
  · rfl
  · rfl
  · split_ifs <;> rfl

theorem AddMagnetByHash_id_nonempty (cfg : ClientConfig) (env : ClientEnv) (token hash : String)
    (id : String)
    (h : (Client.AddMagnetByHash cfg env token hash).result = AddMagnetResult.returned id none) :
    id ≠ "" := by
  unfold Client.AddMagnetByHash at h
  simp only [] at h
  split at h
  · cases h
  · cases h
  · split_ifs at h with hid
    · cases h
    · simp only [AddMagnetResult.returned.injEq, and_true] at h
      rw [← h]
      exact hid


theorem AddMagnetByHash_first_attempt (cfg : ClientConfig) (env : ClientEnv)
    (token hash : String) (out : addMagnetResponse)
    (hmax : 1 ≤ cfg.MaxRetries)
    (hclos : postFormJSONClosure env token (addMagnetEndpoint cfg) (addMagnetForm hash) 1
      ⟨"", ""⟩ = (none, out)) :
    Client.AddMagnetByHash cfg env token hash =
      ⟨if out.ID = "" then
          AddMagnetResult.returned "" (some (GoError.plain "addMagnet returned empty id"))
        else AddMagnetResult.returned out.ID none,
        [RetryEvent.call 1]⟩ := by
  obtain ⟨n, hn⟩ : ∃ n, cfg.MaxRetries.toNat = n + 1 := ⟨cfg.MaxRetries.toNat - 1, by omega⟩
  have hrun : withRetry cfg env.retry ("POST " ++ addMagnetEndpoint cfg)
      (fun attempt =>
        (postFormJSONClosure env token (addMagnetEndpoint cfg) (addMagnetForm hash) attempt
          (outAfter env token (addMagnetEndpoint cfg) (addMagnetForm hash)
            (attempt - 1))).1) = ⟨RetryResult.returned none, [RetryEvent.call 1]⟩ := by
    unfold withRetry
    rw [hn]
    simp only [withRetryLoop, Nat.sub_self, outAfter, hclos]
  unfold Client.AddMagnetByHash
  simp only [hrun, RetryOutcome.calls, List.filter_cons, List.filter_nil, if_true,
    List.length_singleton, outAfter, hclos]
  split_ifs <;> rfl

theorem RetryOutcome.calls_eq_filter (o : RetryOutcome) :
    o.calls = (o.events.filter RetryEvent.isCall).length := by
  unfold RetryOutcome.calls
  congr 1


/-- What holds of the first response.  Let the first request of
`AddMagnetByHash` be answered with a 2xx status and a body that decodes
without error into `out`.  If `out.ID` is empty the call returns the error
"addMagnet returned empty id" (not a retryable one) and an empty id after
exactly one request and no wait; otherwise it returns `out.ID` as it is, with a
nil error.  And the call never returns a nil error with an empty id. -/
theorem addMagnet_first_response (cfg : ClientConfig) (env : ClientEnv)
    (token hash : String) (resp : HTTPResponse) (out : addMagnetResponse)
    (hmax : 1 ≤ cfg.MaxRetries)
    (hreq : env.newRequest "POST" (addMagnetEndpoint cfg) = none)
    (hdo : env.httpDo 1
      ⟨"POST", addMagnetEndpoint cfg, "Bearer " ++ token, "application/x-www-form-urlencoded",
        addMagnetForm hash⟩ = Except.ok resp)
    (h2xx : 200 ≤ resp.StatusCode ∧ resp.StatusCode < 300)
    (hdec : env.decodeAddMagnet resp.Body ⟨"", ""⟩ = (none, out)) :
    (out.ID = "" →
      Client.AddMagnetByHash cfg env token hash =
        ⟨AddMagnetResult.returned "" (some (GoError.plain "addMagnet returned empty id")),
          [RetryEvent.call 1]⟩) ∧
    (out.ID ≠ "" →
      Client.AddMagnetByHash cfg env token hash =
        ⟨AddMagnetResult.returned out.ID none, [RetryEvent.call 1]⟩) ∧
    isRetryable (GoError.plain "addMagnet returned empty id") = false ∧
    (∀ id, (Client.AddMagnetByHash cfg env token hash).result =
      AddMagnetResult.returned id none → id ≠ "") := by
  have hclos := postFormJSONClosure_2xx env token (addMagnetEndpoint cfg) (addMagnetForm hash) 1
    ⟨"", ""⟩ out resp hreq hdo h2xx hdec
  have hfirst := AddMagnetByHash_first_attempt cfg env token hash out hmax hclos
  refine ⟨fun h => ?_, fun h => ?_, by decide,
    fun id h => AddMagnetByHash_id_nonempty cfg env token hash id h⟩
  · rw [hfirst, if_pos h]
  · rw [hfirst, if_neg h]

/-- The first response at a server answering 200: a body with an empty id
gives the error after one request, a body with the id "ABC123" gives
"ABC123". -/
theorem addMagnet_first_response_example :
    Client.AddMagnetByHash defaultClientConfig (answeringEnv emptyIdBody) "dst" " abc " =
      ⟨AddMagnetResult.returned "" (some (GoError.plain "addMagnet returned empty id")),
        [RetryEvent.call 1]⟩ ∧
    Client.AddMagnetByHash defaultClientConfig (answeringEnv fullIdBody) "dst" " abc " =
      ⟨AddMagnetResult.returned "ABC123" none, [RetryEvent.call 1]⟩ :=
  ⟨(addMagnet_first_response defaultClientConfig (answeringEnv emptyIdBody) "dst"
      " abc " ⟨200, emptyIdBody⟩ ⟨"", "u"⟩ (by decide) rfl rfl (by decide) rfl).1 rfl,
    (addMagnet_first_response defaultClientConfig (answeringEnv fullIdBody) "dst"
      " abc " ⟨200, fullIdBody⟩ ⟨"ABC123", "u"⟩ (by decide) rfl rfl (by decide) rfl).2.1
      (by decide)⟩

/-- After `k` retryably failed attempts, a closure run that returns nil
leaving `decoded` in `out` ends the call after `k + 1` requests, and what is
tested and returned is `decoded.ID`: the value `out` holds, which earlier
attempts may have written. -/
theorem addMagnet_after_retries (cfg : ClientConfig) (env : ClientEnv) (token hash : String)
    (k : Nat) (decoded : addMagnetResponse) (hk : (k : Int) < cfg.MaxRetries)
    (hj : cfg.RetryMaxJitter < maxInt64) (hctx : ∀ i d, env.retry.ctxWait i d = none)
    (hfail : ∀ i, 1 ≤ i → i ≤ k → ∃ e,
      (postFormJSONClosure env token (addMagnetEndpoint cfg) (addMagnetForm hash) i
        (outAfter env token (addMagnetEndpoint cfg) (addMagnetForm hash) (i - 1))).1 =
          some e ∧ isRetryable e = true)
    (hok : postFormJSONClosure env token (addMagnetEndpoint cfg) (addMagnetForm hash) (k + 1)
      (outAfter env token (addMagnetEndpoint cfg) (addMagnetForm hash) k) = (none, decoded)) :
    (Client.AddMagnetByHash cfg env token hash).result =
      (if decoded.ID = "" then
        AddMagnetResult.returned "" (some (GoError.plain "addMagnet returned empty id"))
      else AddMagnetResult.returned decoded.ID none) ∧
    ((Client.AddMagnetByHash cfg env token hash).events.filter RetryEvent.isCall).length =
      k + 1 := by
  have hfn : (fun attempt =>
      (postFormJSONClosure env token (addMagnetEndpoint cfg) (addMagnetForm hash) attempt
        (outAfter env token (addMagnetEndpoint cfg) (addMagnetForm hash)
          (attempt - 1))).1) (k + 1) = none := by
    simp only [Nat.add_sub_cancel, hok]
  obtain ⟨h1, h2, _⟩ := withRetry_succeeds_after_retryable_failures cfg env.retry
    ("POST " ++ addMagnetEndpoint cfg) _ k hk hj hfail hfn hctx
  refine ⟨AddMagnetByHash_of_success cfg env token hash k decoded h1 h2 hok, ?_⟩
  rw [AddMagnetByHash_events, ← RetryOutcome.calls_eq_filter]
  exact h2

/-- The lemma `addMagnet_after_retries` at `staleIdEnv` with one failed
attempt. -/
theorem addMagnet_after_retries_example :
    (Client.AddMagnetByHash defaultClientConfig staleIdEnv "dst" "abc").result =
      (if (⟨"X", "u"⟩ : addMagnetResponse).ID = "" then
        AddMagnetResult.returned "" (some (GoError.plain "addMagnet returned empty id"))
      else AddMagnetResult.returned (⟨"X", "u"⟩ : addMagnetResponse).ID none) ∧
    ((Client.AddMagnetByHash defaultClientConfig staleIdEnv "dst" "abc").events.filter
      RetryEvent.isCall).length = 1 + 1 :=
  addMagnet_after_retries defaultClientConfig staleIdEnv "dst" "abc" 1 ⟨"X", "u"⟩ (by decide)
    (by decide) (fun _ _ => rfl)
    (fun i h1 h2 => by
      have hi : i = 1 := by omega
      subst hi
      exact ⟨_, rfl, rfl⟩)
    rfl

/-- C18. The variable `out` lives across the attempts of one call.  At a
server whose first answer (status 200) has an id "X" and an ill-typed `uri`,
and whose second answer (status 200) has no id, the first decoding writes "X"
and fails, the attempt is retried, the second decoding succeeds and leaves the
id as it is, and `AddMagnetByHash` returns "X" with a nil error after two
requests, although the response of the request that succeeded, decoded on its
own, carries an empty id. -/
theorem addMagnet_returns_stale_id :
    (staleIdEnv.decodeAddMagnet badUriBody ⟨"", ""⟩).2 = ⟨"X", ""⟩ ∧
    ((staleIdEnv.decodeAddMagnet badUriBody ⟨"", ""⟩).1.map isRetryable = some false ∧
      ((postFormJSONClosure staleIdEnv "dst" (addMagnetEndpoint defaultClientConfig)
        (addMagnetForm "abc") 1 ⟨"", ""⟩).1.map isRetryable = some true)) ∧
    staleIdEnv.decodeAddMagnet noIdBody ⟨"", ""⟩ = (none, ⟨"", "u"⟩) ∧
    staleIdEnv.decodeAddMagnet noIdBody ⟨"X", ""⟩ = (none, ⟨"X", "u"⟩) ∧
    (Client.AddMagnetByHash defaultClientConfig staleIdEnv "dst" "abc").result =
      AddMagnetResult.returned "X" none ∧
    ((Client.AddMagnetByHash defaultClientConfig staleIdEnv "dst" "abc").events.filter
      RetryEvent.isCall).length = 2 := by
  decide

/-! ## The retries of the file selection -/

theorem selectHistory_zero (token torrentID : String) (retryDelay : Int) (history : List Call)
    (attempt : Nat) :
    selectHistory token torrentID retryDelay history attempt 0 =
      history ++ (if attempt > 0 then [Call.TimerWait retryDelay] else []) := by
  simp [selectHistory, selectEvents]

theorem selectHistory_succ (token torrentID : String) (retryDelay : Int) (history : List Call)
    (attempt j : Nat) :
    selectHistory token torrentID retryDelay history attempt (j + 1) =
      selectHistory token torrentID retryDelay
        (history ++ (if attempt > 0 then [Call.TimerWait retryDelay] else []) ++
          [Call.SelectFilesAll token torrentID]) (attempt + 1) j := by
  have h : attempt + (j + 1) = attempt + 1 + j := by omega
  simp only [selectHistory, selectEvents, h, List.append_assoc, List.singleton_append,
    List.cons_append, List.nil_append]

theorem selectEvents_succ (token torrentID : String) (retryDelay : Int) (history : List Call)
    (attempt k : Nat) :
    history ++ selectEvents token torrentID retryDelay attempt (k + 1) =
      history ++ (if attempt > 0 then [Call.TimerWait retryDelay] else []) ++
        [Call.SelectFilesAll token torrentID] ++
        selectEvents token torrentID retryDelay (attempt + 1) k := by
  simp only [selectEvents, List.append_assoc, List.singleton_append, List.cons_append,
    List.nil_append]


theorem selectFilesLoop_spec (env : Env) (token torrentID : String)
    (maxAttempts retryDelay : Int) :
    ∀ (remaining attempt : Nat) (lastErr : Option GoError) (history : List Call),
      ∃ k, k ≤ remaining ∧
        (∀ j, j < k → env.api.SelectFilesAll
          (selectHistory token torrentID retryDelay history attempt j) token torrentID ≠ none) ∧
        ((k < remaining ∧
            env.api.SelectFilesAll (selectHistory token torrentID retryDelay history attempt k)
              token torrentID = none ∧
            selectFilesLoop env token torrentID maxAttempts retryDelay remaining attempt lastErr
              history =
              (none, history ++ selectEvents token torrentID retryDelay attempt (k + 1))) ∨
          (k = remaining ∧
            selectFilesLoop env token torrentID maxAttempts retryDelay remaining attempt lastErr
              history =
              (some (failedAfterAttempts maxAttempts
                (if k = 0 then lastErr
                  else env.api.SelectFilesAll
                    (selectHistory token torrentID retryDelay history attempt (k - 1))
                    token torrentID)),
                history ++ selectEvents token torrentID retryDelay attempt k)) ∨
          (k < remaining ∧ 0 < attempt + k ∧
            ∃ e, env.ctxSleep (history ++ selectEvents token torrentID retryDelay attempt k)
                retryDelay = some e ∧
              selectFilesLoop env token torrentID maxAttempts retryDelay remaining attempt
                lastErr history =
                (some e, history ++ selectEvents token torrentID retryDelay attempt k ++
                  [Call.TimerWait retryDelay]))) := by
  intro remaining
  induction remaining with
  | zero =>
    intro attempt lastErr history
    refine ⟨0, le_refl 0, fun j hj => absurd hj (by omega), Or.inr (Or.inl ⟨rfl, ?_⟩)⟩
    simp [selectFilesLoop, selectEvents]
  | succ n ih =>
    intro attempt lastErr history
    have hcancel : ∀ e, 0 < attempt → env.ctxSleep history retryDelay = some e →
        selectFilesLoop env token torrentID maxAttempts retryDelay (n + 1) attempt lastErr
          history = (some e, history ++ [Call.TimerWait retryDelay]) := by
      intro e ha he
      simp only [selectFilesLoop, gt_iff_lt, ha, if_true, he]
    have hgo : (0 < attempt → env.ctxSleep history retryDelay = none) →
        selectFilesLoop env token torrentID maxAttempts retryDelay (n + 1) attempt lastErr
          history =
          match env.api.SelectFilesAll
            (history ++ (if attempt > 0 then [Call.TimerWait retryDelay] else []))
            token torrentID with
          | none => (none, history ++ (if attempt > 0 then [Call.TimerWait retryDelay] else []) ++
              [Call.SelectFilesAll token torrentID])
          | some e =>
            selectFilesLoop env token torrentID maxAttempts retryDelay n (attempt + 1) (some e)
              (history ++ (if attempt > 0 then [Call.TimerWait retryDelay] else []) ++
                [Call.SelectFilesAll token torrentID]) := by
      intro hs
      by_cases ha : 0 < attempt
      · simp only [selectFilesLoop, gt_iff_lt, ha, if_true, hs ha]
      · simp only [selectFilesLoop, gt_iff_lt, ha, if_false, List.append_nil]
    by_cases hc : 0 < attempt ∧ ∃ e, env.ctxSleep history retryDelay = some e
    · obtain ⟨ha, e, he⟩ := hc
      refine ⟨0, Nat.zero_le _, fun j hj => absurd hj (by omega),
        Or.inr (Or.inr ⟨Nat.succ_pos n, by omega, e, ?_, ?_⟩)⟩
      · simpa [selectEvents] using he
      · rw [hcancel e ha he]
        simp [selectEvents]
    · have hs : 0 < attempt → env.ctxSleep history retryDelay = none := by
        intro ha
        cases hsl : env.ctxSleep history retryDelay with
        | none => rfl
        | some e => exact absurd ⟨ha, e, hsl⟩ hc
      rw [hgo hs]
      cases hapi : env.api.SelectFilesAll
          (history ++ (if attempt > 0 then [Call.TimerWait retryDelay] else []))
          token torrentID with
      | none =>
        refine ⟨0, Nat.zero_le _, fun j hj => absurd hj (by omega),
          Or.inl ⟨Nat.succ_pos n, ?_, ?_⟩⟩
        · rw [selectHistory_zero]
          exact hapi
        · simp only [selectEvents, List.append_assoc, List.singleton_append, List.cons_append,
            List.nil_append, List.append_nil]
      | some e =>
        simp only []
        obtain ⟨k, hk, hfail, hout⟩ := ih (attempt + 1) (some e)
          (history ++ (if attempt > 0 then [Call.TimerWait retryDelay] else []) ++
            [Call.SelectFilesAll token torrentID])
        refine ⟨k + 1, by omega, ?_, ?_⟩
        · intro j hj
          cases j with
          | zero =>
            rw [selectHistory_zero, hapi]
            simp
          | succ j =>
            rw [selectHistory_succ]
            exact hfail j (by omega)
        · rcases hout with ⟨h1, h2, h3⟩ | ⟨h1, h3⟩ | ⟨h1, h2, e', h3, h4⟩
          · refine Or.inl ⟨by omega, ?_, ?_⟩
            · rw [selectHistory_succ]
              exact h2
            · rw [h3, selectEvents_succ token torrentID retryDelay history attempt (k + 1)]
          · refine Or.inr (Or.inl ⟨by omega, ?_⟩)
            rw [h3, selectEvents_succ token torrentID retryDelay history attempt k]
            simp only [Nat.add_one_ne_zero, if_false, Nat.add_sub_cancel]
            cases k with
            | zero =>
              simp only [if_true, selectHistory_zero, hapi]
            | succ k =>
              simp only [Nat.add_one_ne_zero, if_false, Nat.add_sub_cancel, selectHistory_succ]
          · refine Or.inr (Or.inr ⟨by omega, by omega, e', ?_, ?_⟩)
            · rw [selectEvents_succ token torrentID retryDelay history attempt k]
              exact h3
            · rw [h4, selectEvents_succ token torrentID retryDelay history attempt k]


theorem selectEvents_filter_isSelect (token torrentID : String) (retryDelay : Int)
    (attempt k : Nat) :
    ((selectEvents token torrentID retryDelay attempt k).filter Call.isSelect).length = k := by
  induction k generalizing attempt with
  | zero => simp [selectEvents]
  | succ k ih =>
    by_cases ha : attempt > 0
    · simp [selectEvents, ha, Call.isSelect, ih]
    · simp [selectEvents, ha, Call.isSelect, ih]

/-- C21, the claim as stated fails: when the context is done during the retry
delay that follows a failed `SelectFilesAll` call, `selectFilesWithRetry`
returns `context.Canceled`, which wraps nothing and is not the error built
from the failed call; and when the context is done during the initial delay it
returns `context.Canceled` without any call. -/
theorem selectFiles_cancelled_returns_context_error :
    (cancelledAfterSelectEnv 3 [] []).api.SelectFilesAll [Call.TimerWait (2 * second)] "dst"
      "new-id-b" = some selectError ∧
    selectFilesWithRetry (cancelledAfterSelectEnv 3 [] []) "dst" "new-id-b" (2 * second) 3
        (3 * second) [] =
      (some (GoError.ctx "context canceled"),
        [Call.TimerWait (2 * second), Call.SelectFilesAll "dst" "new-id-b",
          Call.TimerWait (3 * second)]) ∧
    (GoError.ctx "context canceled").Unwrap = none ∧
    GoError.ctx "context canceled" ≠ failedAfterAttempts 3 (some selectError) ∧
    (failedAfterAttempts 3 (some selectError)).Unwrap = some selectError ∧
    selectFilesWithRetry (cancelledEnv [] []) "dst" "new-id-b" (2 * second) 3 (3 * second) [] =
      (some (GoError.ctx "context canceled"), [Call.TimerWait (2 * second)]) := by
  decide


/-- C21 as amended. `selectFilesWithRetry` first waits the initial delay; if
the context is done during it, it returns the cancellation error without a
call.  Otherwise it runs `k <= maxAttempts` failed `SelectFilesAll` calls, a
retry delay before each of them but the first, and ends in one of three ways:
the next call succeeds and is its last event, and it returns nil; or all
`maxAttempts` calls have failed and it returns the error
`failed after maxAttempts attempts` wrapping the error of the last call; or the
context is done during the next retry delay and it returns the cancellation
error without a further call.  So it makes at most `maxAttempts` calls and
returns nil only after a successful call. -/
theorem selectFiles_retries_until_success_or_cancel (env : Env) (token torrentID : String)
    (initialDelay maxAttempts retryDelay : Int) (calls : List Call) :
    (∀ e, env.ctxSleep calls initialDelay = some e →
      selectFilesWithRetry env token torrentID initialDelay maxAttempts retryDelay calls =
        (some e, calls ++ [Call.TimerWait initialDelay])) ∧
    (env.ctxSleep calls initialDelay = none →
      ∃ k, k ≤ maxAttempts.toNat ∧
        (∀ j, j < k → ∃ e, env.api.SelectFilesAll
          (selectHistory token torrentID retryDelay (calls ++ [Call.TimerWait initialDelay]) 0 j)
          token torrentID = some e) ∧
        ((k < maxAttempts.toNat ∧
            env.api.SelectFilesAll
              (selectHistory token torrentID retryDelay (calls ++ [Call.TimerWait initialDelay])
                0 k) token torrentID = none ∧
            selectFilesWithRetry env token torrentID initialDelay maxAttempts retryDelay calls =
              (none, calls ++ [Call.TimerWait initialDelay] ++
                selectEvents token torrentID retryDelay 0 (k + 1))) ∨
          (k = maxAttempts.toNat ∧
            selectFilesWithRetry env token torrentID initialDelay maxAttempts retryDelay calls =
              (some (failedAfterAttempts maxAttempts
                (if k = 0 then none
                  else env.api.SelectFilesAll
                    (selectHistory token torrentID retryDelay
                      (calls ++ [Call.TimerWait initialDelay]) 0 (k - 1)) token torrentID)),
                calls ++ [Call.TimerWait initialDelay] ++
                  selectEvents token torrentID retryDelay 0 k)) ∨
          (k < maxAttempts.toNat ∧ 0 < k ∧
            ∃ e, env.ctxSleep (calls ++ [Call.TimerWait initialDelay] ++
                selectEvents token torrentID retryDelay 0 k) retryDelay = some e ∧
              selectFilesWithRetry env token torrentID initialDelay maxAttempts retryDelay
                calls =
                (some e, calls ++ [Call.TimerWait initialDelay] ++
                  selectEvents token torrentID retryDelay 0 k ++
                  [Call.TimerWait retryDelay])))) ∧
    ((selectFilesWithRetry env token torrentID initialDelay maxAttempts retryDelay
        calls).2.filter Call.isSelect).length ≤
      (calls.filter Call.isSelect).length + maxAttempts.toNat ∧
    (∀ e, (failedAfterAttempts maxAttempts (some e)).Unwrap = some e) ∧
    selectEvents token torrentID retryDelay 0 3 =
      [Call.SelectFilesAll token torrentID, Call.TimerWait retryDelay,
        Call.SelectFilesAll token torrentID, Call.TimerWait retryDelay,
        Call.SelectFilesAll token torrentID] := by
  have hcancel : ∀ e, env.ctxSleep calls initialDelay = some e →
      selectFilesWithRetry env token torrentID initialDelay maxAttempts retryDelay calls =
        (some e, calls ++ [Call.TimerWait initialDelay]) :=
    fun e he => selectFilesWithRetry_cancelled env token torrentID initialDelay maxAttempts
      retryDelay calls e he
  have hloop : env.ctxSleep calls initialDelay = none →
      selectFilesWithRetry env token torrentID initialDelay maxAttempts retryDelay calls =
        selectFilesLoop env token torrentID maxAttempts retryDelay maxAttempts.toNat 0 none
          (calls ++ [Call.TimerWait initialDelay]) := by
    intro h
    simp only [selectFilesWithRetry, h]
  have hshape : env.ctxSleep calls initialDelay = none →
      ∃ k, k ≤ maxAttempts.toNat ∧
        (∀ j, j < k → ∃ e, env.api.SelectFilesAll
          (selectHistory token torrentID retryDelay (calls ++ [Call.TimerWait initialDelay]) 0 j)
          token torrentID = some e) ∧
        ((k < maxAttempts.toNat ∧
            env.api.SelectFilesAll
              (selectHistory token torrentID retryDelay (calls ++ [Call.TimerWait initialDelay])
                0 k) token torrentID = none ∧
            selectFilesWithRetry env token torrentID initialDelay maxAttempts retryDelay calls =
              (none, calls ++ [Call.TimerWait initialDelay] ++
                selectEvents token torrentID retryDelay 0 (k + 1))) ∨
          (k = maxAttempts.toNat ∧
            selectFilesWithRetry env token torrentID initialDelay maxAttempts retryDelay calls =
              (some (failedAfterAttempts maxAttempts
                (if k = 0 then none
                  else env.api.SelectFilesAll
                    (selectHistory token torrentID retryDelay
                      (calls ++ [Call.TimerWait initialDelay]) 0 (k - 1)) token torrentID)),
                calls ++ [Call.TimerWait initialDelay] ++
                  selectEvents token torrentID retryDelay 0 k)) ∨
          (k < maxAttempts.toNat ∧ 0 < k ∧
            ∃ e, env.ctxSleep (calls ++ [Call.TimerWait initialDelay] ++
                selectEvents token torrentID retryDelay 0 k) retryDelay = some e ∧
              selectFilesWithRetry env token torrentID initialDelay maxAttempts retryDelay
                calls =
                (some e, calls ++ [Call.TimerWait initialDelay] ++
                  selectEvents token torrentID retryDelay 0 k ++
                  [Call.TimerWait retryDelay]))) := by
    intro h
    rw [hloop h]
    obtain ⟨k, hk, hfail, hout⟩ := selectFilesLoop_spec env token torrentID maxAttempts
      retryDelay maxAttempts.toNat 0 none (calls ++ [Call.TimerWait initialDelay])
    refine ⟨k, hk, fun j hj => Option.ne_none_iff_exists'.1 (hfail j hj), ?_⟩
    rcases hout with h1 | h1 | ⟨h1, h2, h3⟩
    · exact Or.inl h1
    · exact Or.inr (Or.inl h1)
    · exact Or.inr (Or.inr ⟨h1, by omega, h3⟩)
  refine ⟨hcancel, hshape, ?_, fun e => rfl, rfl⟩
  cases hs : env.ctxSleep calls initialDelay with
  | some e =>
    rw [hcancel e hs]
    simp [List.filter_append, Call.isSelect]
  | none =>
    obtain ⟨k, hk, _, hout⟩ := hshape hs
    rcases hout with ⟨h1, _, h3⟩ | ⟨_, h3⟩ | ⟨h1, _, e, _, h3⟩
    · rw [h3]
      simp only [List.filter_append, List.length_append, selectEvents_filter_isSelect]
      simp [Call.isSelect]
      omega
    · rw [h3]
      simp only [List.filter_append, List.length_append, selectEvents_filter_isSelect]
      simp [Call.isSelect]
      omega
    · rw [h3]
      simp only [List.filter_append, List.length_append, selectEvents_filter_isSelect]
      simp [Call.isSelect]
      omega


/-- C21 as amended, at the arguments `RunOnce` passes (2s, 3 attempts, 3s):
one failure and then a success gives nil after two calls with one retry delay
between them; three failures give the error wrapping the last one after three
calls; a context that is done gives the cancellation error without a call. -/
theorem selectFiles_retries_until_success_or_cancel_witness :
    selectFilesWithRetry (flakySelectEnv 1 [] []) "dst" "new-id-b" (2 * second) 3 (3 * second)
        [] =
      (none, [Call.TimerWait (2 * second), Call.SelectFilesAll "dst" "new-id-b",
        Call.TimerWait (3 * second), Call.SelectFilesAll "dst" "new-id-b"]) ∧
    selectFilesWithRetry (flakySelectEnv 3 [] []) "dst" "new-id-b" (2 * second) 3 (3 * second)
        [] =
      (some (GoError.wrapped
          ("failed after 3 attempts: " ++
            "POST /torrents/selectFiles/new-id-b failed after retries: status=503")
          selectError),
        [Call.TimerWait (2 * second), Call.SelectFilesAll "dst" "new-id-b",
          Call.TimerWait (3 * second), Call.SelectFilesAll "dst" "new-id-b",
          Call.TimerWait (3 * second), Call.SelectFilesAll "dst" "new-id-b"]) ∧
    selectFilesWithRetry (cancelledEnv [] []) "dst" "new-id-b" (2 * second) 3 (3 * second) [] =
      (some (GoError.ctx "context canceled"), [] ++ [Call.TimerWait (2 * second)]) :=
  ⟨by decide, by decide,
    (selectFiles_retries_until_success_or_cancel (cancelledEnv [] []) "dst" "new-id-b"
      (2 * second) 3 (3 * second) []).1 _ rfl⟩

/-! ## The bound on the attempts -/

theorem withRetryLoop_calls_le (cfg : ClientConfig) (env : RetryEnv) (op : String)
    (fn : Nat → Option GoError) :
    ∀ (r a : Nat) (last : Option GoError), (withRetryLoop cfg env op fn r a last).calls ≤ r := by
  intro r
  induction r with
  | zero => intro a last; simp [withRetryLoop, RetryOutcome.calls]
  | succ n ih =>
    intro a last
    cases hfn : fn a with
    | none => simp [withRetryLoop, hfn, RetryOutcome.calls]
    | some e =>
      by_cases hstop : (!isRetryable e || (a : Int) == cfg.MaxRetries) = true
      · simp [withRetryLoop, hfn, hstop, RetryOutcome.calls]
      · cases hj : randomJitter (env.draw a) cfg.RetryMaxJitter with
        | none => simp [withRetryLoop, hfn, hstop, hj, RetryOutcome.calls]
        | some j =>
          cases hc : env.ctxWait a (wrapInt64 (backoff cfg a + j)) with
          | some err => simp [withRetryLoop, hfn, hstop, hj, hc, RetryOutcome.calls]
          | none =>
            have := ih (a + 1) (some e)
            simp only [RetryOutcome.calls] at this
            simp only [withRetryLoop, hfn, hstop, hj, hc, Bool.false_eq_true, if_false,
              RetryOutcome.calls, List.filter_cons, if_true, List.length_cons]
            omega

theorem withRetryLoop_returns (cfg : ClientConfig) (env : RetryEnv) (op : String)
    (fn : Nat → Option GoError) (hj : cfg.RetryMaxJitter < maxInt64) :
    ∀ (r a : Nat) (last : Option GoError),
      ∃ err, (withRetryLoop cfg env op fn r a last).result = RetryResult.returned err := by
  intro r
  induction r with
  | zero => intro a last; exact ⟨_, rfl⟩
  | succ n ih =>
    intro a last
    cases hfn : fn a with
    | none => exact ⟨none, by simp [withRetryLoop, hfn]⟩
    | some e =>
      by_cases hstop : (!isRetryable e || (a : Int) == cfg.MaxRetries) = true
      · exact ⟨some (failedAfterRetries op (some e)), by
          simp only [withRetryLoop, hfn, hstop, if_true]⟩
      · obtain ⟨j, hj1, _⟩ := randomJitter_some (env.draw a) cfg.RetryMaxJitter hj
        cases hc : env.ctxWait a (wrapInt64 (backoff cfg a + j)) with
        | some err =>
          exact ⟨some err, by
            simp only [withRetryLoop, hfn, hstop, hj1, hc, Bool.false_eq_true, if_false]⟩
        | none =>
          obtain ⟨err, herr⟩ := ih (a + 1) (some e)
          exact ⟨err, by
            simp only [withRetryLoop, hfn, hstop, hj1, hc, Bool.false_eq_true, if_false, herr]⟩


/-- Apart from the panic of the jitter draw, `withRetry` is bounded as
expected: it invokes the call at most `max(MaxRetries, 0)` times, it returns
whenever the jitter bound is below the largest duration, and with
`MaxRetries <= 0` it returns the error built from a nil `last` without an
invocation, so that `AddMagnetByHash` fails without a request. -/
theorem withRetry_bounded (cfg : ClientConfig) (env : RetryEnv) (op : String)
    (fn : Nat → Option GoError) :
    ((withRetry cfg env op fn).calls : Int) ≤ max cfg.MaxRetries 0 ∧
    (cfg.RetryMaxJitter < maxInt64 →
      ∃ err, (withRetry cfg env op fn).result = RetryResult.returned err) ∧
    (cfg.MaxRetries ≤ 0 →
      withRetry cfg env op fn =
        ⟨RetryResult.returned (some (GoError.plain (op ++ " failed after retries: %!w(<nil>)"))),
          []⟩) ∧
    (cfg.MaxRetries ≤ 0 → ∀ (cenv : ClientEnv) (token hash : String),
      Client.AddMagnetByHash cfg cenv token hash =
        ⟨AddMagnetResult.returned ""
          (some (GoError.plain ("POST " ++ addMagnetEndpoint cfg ++
            " failed after retries: %!w(<nil>)"))), []⟩) := by
  have hzero : cfg.MaxRetries ≤ 0 → ∀ (env' : RetryEnv) (op' : String)
      (fn' : Nat → Option GoError), withRetry cfg env' op' fn' =
        ⟨RetryResult.returned
          (some (GoError.plain (op' ++ " failed after retries: %!w(<nil>)"))), []⟩ := by
    intro h env' op' fn'
    have h0 : cfg.MaxRetries.toNat = 0 := Int.toNat_eq_zero.2 h
    unfold withRetry
    rw [h0]
    rfl
  refine ⟨?_, fun hj => withRetryLoop_returns cfg env op fn hj _ _ _, fun h => hzero h env op fn,
    ?_⟩
  · have h := withRetryLoop_calls_le cfg env op fn cfg.MaxRetries.toNat 1 none
    have h2 : ((cfg.MaxRetries.toNat : Nat) : Int) = max cfg.MaxRetries 0 := Int.toNat_eq_max _
    unfold withRetry
    omega
  · intro h cenv token hash
    unfold Client.AddMagnetByHash
    simp only [hzero h]

/-- C22. With the largest duration as jitter bound, `int64(max) + 1` wraps to
the smallest `int64` and `Int63n` panics: after the first retryable failure
`withRetry` does not return, although `MaxRetries` is 4 and one call was
made.  With `MaxRetries` at 0 the call is never invoked and the error built
from a nil `last` is returned. -/
theorem withRetry_does_not_return_at_largest_jitter :
    wrapInt64 (largestJitterConfig.RetryMaxJitter + 1) = -2 ^ 63 ∧
    randomJitter (calmRetryEnv.draw 1) largestJitterConfig.RetryMaxJitter = none ∧
    alwaysFails 1 = some (retryable (GoError.plain "status=503")) ∧
    largestJitterConfig.MaxRetries = 4 ∧
    withRetry largestJitterConfig calmRetryEnv "GET /torrents" alwaysFails =
      ⟨RetryResult.panicked "invalid argument to Int63n", [RetryEvent.call 1]⟩ ∧
    withRetry noRetriesConfig calmRetryEnv "GET /torrents" alwaysFails =
      ⟨RetryResult.returned
        (some (GoError.plain "GET /torrents failed after retries: %!w(<nil>)")), []⟩ := by
  decide

end RdMirrorSync
